import Mathlib

/-!
Formal model of the straight-skeleton construction in `Math/StraightSkeleton.cpp`
(XLE repository).  The C++ code is templated over a scalar `Primitive`
(float / double / int32); this development embeds the `double` instantiation,
idealising IEEE arithmetic by exact rational arithmetic (`ℚ`).  Comparisons,
control flow and data structures are transcribed directly from the source.

Modelling conventions, used throughout:
* `unsigned` values become `Nat`; the invalid marker `~0u` becomes the
  constant `UINT32MAX` and `BoundaryVertexFlag` becomes `2 ^ 31`.
* The sentinel `std::numeric_limits<Primitive>::max()` used as an "event never
  happens" marker becomes `Option` `none`.  (For `double`, adding a bounded
  offset to the sentinel saturates back to the sentinel and comparing the
  sentinel `<` anything-plus-epsilon yields `false`; `none` is modelled with
  exactly that behaviour.)
* C++ `assert` becomes an `Except.error` carrying a tag naming the assertion
  site; functions containing assertions therefore return `Except SSError`.
  Assertions that are identically true in the rational idealisation
  (`IsFiniteNumber`, the `!= max()` guards) are dropped.
* `std::sqrt` is modelled by the integer-square-root based `ratSqrt`, which is
  exact whenever the radicand is a perfect rational square (all concrete runs
  below only take square roots of perfect squares).
-/

namespace XLEMath

/-- Invalid-index marker, the C++ `~0u` for 32-bit `unsigned`. -/
def UINT32MAX : Nat := 4294967295

/-- Flag marking a skeleton-vertex id as one of the original boundary corners
(`1u << 31u` in the source). -/
def BoundaryVertexFlag : Nat := 2 ^ 31

/-- Epsilon of the embedded `double` instantiation (`GetEpsilon<double>()`,
which is `1e-8` in the source). -/
def eps : ℚ := 1 / 100000000

/-- Two-component vector over the scalar type. -/
structure Vec2 where
  x : ℚ
  y : ℚ
deriving DecidableEq, Repr

/-- Three-component vector (x, y, time). -/
structure Vec3 where
  x : ℚ
  y : ℚ
  z : ℚ
deriving DecidableEq, Repr

/-- Modelled from the spec: the XLEMath vector helpers (`Zero`, `Dot`,
`MagnitudeSquared`, componentwise arithmetic) live in headers that are not part
of the supplied sources; they are the evident componentwise operations. -/
def Vec2.add (a b : Vec2) : Vec2 := ⟨a.x + b.x, a.y + b.y⟩

def Vec2.sub (a b : Vec2) : Vec2 := ⟨a.x - b.x, a.y - b.y⟩

def Vec2.smul (t : ℚ) (a : Vec2) : Vec2 := ⟨t * a.x, t * a.y⟩

def Vec2.zero : Vec2 := ⟨0, 0⟩

def Vec2.dot (a b : Vec2) : ℚ := a.x * b.x + a.y * b.y

def Vec2.magSq (a : Vec2) : ℚ := a.x * a.x + a.y * a.y

def Vec3.add (a b : Vec3) : Vec3 := ⟨a.x + b.x, a.y + b.y, a.z + b.z⟩

def Vec3.scaleDiv (a : Vec3) (t : ℚ) : Vec3 := ⟨a.x / t, a.y / t, a.z / t⟩

/-- Append a z component (`Expand` in XLEMath). -/
def Vec2.expand (a : Vec2) (z : ℚ) : Vec3 := ⟨a.x, a.y, z⟩

/-- Drop the z component (`Truncate` in XLEMath). -/
def Vec3.truncate (a : Vec3) : Vec2 := ⟨a.x, a.y⟩

/-- Modelled from the spec: `Equivalent(p, q, epsilon)` on scalars, "compares
two points/vectors component-wise within epsilon" (spec section 4.1); on a
scalar this is `|a - b| < epsilon`. -/
def equivQ (a b tol : ℚ) : Bool := decide (a - b ≤ tol) && decide (b - a ≤ tol)

/-- Modelled from the spec: componentwise `Equivalent` on 2-vectors. -/
def equivV2 (a b : Vec2) (tol : ℚ) : Bool := equivQ a.x b.x tol && equivQ a.y b.y tol

/-- Modelled from the spec: componentwise `Equivalent` on 3-vectors. -/
def equivV3 (a b : Vec3) (tol : ℚ) : Bool :=
  equivQ a.x b.x tol && equivQ a.y b.y tol && equivQ a.z b.z tol

/-- Rational square root model: exact on perfect rational squares, which covers
every concrete computation in this development; elsewhere it stands in for the
irrational real value that `double` arithmetic only approximates anyway. -/
def ratSqrt (q : ℚ) : ℚ := (Int.sqrt q.num : ℚ) / (Nat.sqrt q.den : ℚ)

/-- Modelled from the spec: `Normalize` divides a vector by its magnitude
(unit normals of the wavefront edges, spec section 4.2). -/
def Vec2.normalize (a : Vec2) : Vec2 :=
  let m := ratSqrt a.magSq
  ⟨a.x / m, a.y / m⟩

/-- Modelled from the spec: `LinearInterpolate(A, B, t) = A + t * (B - A)`. -/
def linearInterpolate (a b : Vec2) (t : ℚ) : Vec2 := a.add ((b.sub a).smul t)

/-- Tags naming each C++ `assert` site (and the fuel guards of the loops whose
termination the C++ leaves implicit). -/
inductive SSError where
  | tooFewVertices
  | velocityDirection
  | builderZeroVelocity
  | steinerTimeZero
  | steinerTruncateClash
  | findInOutDupIn
  | findInOutDupOut
  | freezeTimeZero
  | addUniqueTypeMismatch
  | collapseBeforeLastEvent
  | crashBeforeLastEvent
  | motorHeadInitialTime
  | multipleCrashes
  | crashEdgeMissing
  | toutMissing
  | tinMissing
  | crashFaceNotUnplaced
  | motorTailNoSkeletonId
  | collapseGroupClash
  | frozenContributor
  | collapseSpread
  | missingGroupLink
  | wavefrontDegenerate
  | colinearOverlap
  | loopPoolEmpty
  | loopDupJunction
  | loopNoContinuation
  | outOfFuel
deriving DecidableEq, Repr

/-- Vertex of the live wavefront graph (`Vertex<Primitive>` in the source). -/
structure Vertex where
  position : Vec2
  skeletonVertexId : Nat
  initialTime : ℚ
  velocity : Vec2
deriving DecidableEq, Repr

/-- Wavefront edge (`Graph::Segment`). -/
structure Segment where
  head : Nat
  tail : Nat
  leftFace : Nat
  rightFace : Nat
deriving DecidableEq, Repr

/-- Motorcycle edge (`Graph::MotorcycleSegment`); `tail` is the fixed anchor. -/
structure MotorcycleSegment where
  head : Nat
  tail : Nat
  leftFace : Nat
  rightFace : Nat
deriving DecidableEq, Repr

/-- The mutable event-simulation graph (`Graph<Primitive>`). -/
structure Graph where
  vertices : List Vertex
  wavefrontEdges : List Segment
  motorcycleSegments : List MotorcycleSegment
  boundaryPoints : List Vec2
deriving DecidableEq, Repr

/-- Edge classification in the output skeleton. -/
inductive EdgeType where
  | vertexPath
  | wavefront
deriving DecidableEq, Repr

/-- Output skeleton edge (`StraightSkeleton::Edge`). -/
structure SkelEdge where
  head : Nat
  tail : Nat
  type : EdgeType
deriving DecidableEq, Repr

/-- Output per-face edge list (`StraightSkeleton::Face`). -/
structure Face where
  edges : List SkelEdge
deriving DecidableEq, Repr

/-- Output straight skeleton. -/
structure Skeleton where
  steinerVertices : List Vec3
  faces : List Face
  unplacedEdges : List SkelEdge
deriving DecidableEq, Repr

/-- Winding classification of three consecutive polygon vertices. -/
inductive WindingType where
  | left
  | right
  | straight
deriving DecidableEq, Repr

/-- Transcription of `CalculateWindingType` (source lines 75-86), for the
`SPACE_HANDINESS_COUNTERCLOCKWISE` convention compiled in the source. -/
def calculateWindingType (zero one two : Vec2) (threshold : ℚ) : WindingType :=
  let sign := (one.x - zero.x) * (two.y - zero.y) - (two.x - zero.x) * (one.y - zero.y)
  if sign > threshold then WindingType.left
  else if sign < -threshold then WindingType.right
  else WindingType.straight

/-- Transcription of `CalculateVertexVelocity` (source lines 88-154), in the
counter-clockwise handedness branch.  The `IsFiniteNumber` assertion is
identically true over `ℚ` and is dropped; the directional sanity assertion
`Dot(v, N0+N1) > 0` is kept as an error. -/
def calculateVertexVelocity (vex0 vex1 vex2 : Vec2) : Except SSError Vec2 :=
  if equivV2 vex0 vex2 eps then pure Vec2.zero
  else
    let t0 := vex1.sub vex0
    let t1 := vex2.sub vex1
    if equivV2 t0 Vec2.zero eps then pure Vec2.zero
    else if equivV2 t1 Vec2.zero eps then pure Vec2.zero
    else
      let N0 := Vec2.normalize ⟨-t0.y, t0.x⟩
      let N1 := Vec2.normalize ⟨-t1.y, t1.x⟩
      let a := N0.x
      let b := N0.y
      let c := N1.x
      let d := N1.y
      let t : ℚ := 1
      let B0 : ℚ := if d < -eps ∨ d > eps then a - b * c / d else 0
      let B1 : ℚ := if c < -eps ∨ c > eps then b - a * d / c else 0
      let checked : Vec2 → Except SSError Vec2 := fun v =>
        if v.dot (N0.add N1) > 0 then pure v else throw SSError.velocityDirection
      if |B0| > |B1| then
        if B0 > -eps ∧ B0 < eps then pure Vec2.zero
        else
          let A := 1 - b / d
          let x := t * A / B0
          let y := (t - x * c) / d
          checked ⟨x, y⟩
      else
        if B1 > -eps ∧ B1 < eps then pure Vec2.zero
        else
          let A := 1 - a / c
          let y := t * A / B1
          let x := (t - y * d) / c
          checked ⟨x, y⟩

/-- Default vertex used for list lookups; reachable code never accesses an
out-of-range index (the C++ would be undefined behaviour there). -/
def dummyVertex : Vertex := ⟨Vec2.zero, 0, 0, Vec2.zero⟩

/-- Threshold used by the winding classification inside
`BuildGraphFromVertexLoop` (`Primitive(1e-6f)`, source line 159). -/
def windingThreshold : ℚ := 1 / 1000000

/-- First loop of `BuildGraphFromVertexLoop` (source lines 168-179): one
wavefront edge `(v2 -> v)` per polygon edge, one vertex with computed velocity
per polygon vertex; asserts the computed velocity is not equivalent to zero. -/
def buildLoopVerts (pts : List Vec2) (n : Nat) :
    List Nat → List Vertex → List Segment → Except SSError (List Vertex × List Segment)
  | [], vs, es => pure (vs, es)
  | v :: rest, vs, es => do
    let v0 := (v + n - 1) % n
    let v2 := (v + 1) % n
    let es := es ++ [⟨v2, v, UINT32MAX, v⟩]
    let vel ← calculateVertexVelocity (pts.getD v0 Vec2.zero) (pts.getD v Vec2.zero)
      (pts.getD v2 Vec2.zero)
    if equivV2 vel Vec2.zero eps then throw SSError.builderZeroVelocity
    else
      buildLoopVerts pts n rest
        (vs ++ [⟨pts.getD v Vec2.zero, BoundaryVertexFlag + v, 0, vel⟩]) es

/-- Second loop of `BuildGraphFromVertexLoop` (source lines 184-197): for every
vertex winding to the right (reflex), append a fixed anchor vertex with zero
velocity and a motorcycle segment from the vertex to that anchor. -/
def buildLoopMotors (pts : List Vec2) (n : Nat) :
    List Nat → List Vertex → List MotorcycleSegment → List Vertex × List MotorcycleSegment
  | [], vs, ms => (vs, ms)
  | v :: rest, vs, ms =>
    let v0 := (v + n - 1) % n
    let v2 := (v + 1) % n
    if calculateWindingType (pts.getD v0 Vec2.zero) (pts.getD v Vec2.zero)
        (pts.getD v2 Vec2.zero) windingThreshold = WindingType.right then
      let fixedVertex := vs.length
      buildLoopMotors pts n rest
        (vs ++ [⟨pts.getD v Vec2.zero, BoundaryVertexFlag + v, 0, Vec2.zero⟩])
        (ms ++ [⟨v, fixedVertex, v0, v⟩])
    else buildLoopMotors pts n rest vs ms

/-- Transcription of `BuildGraphFromVertexLoop` (source lines 156-201). -/
def buildGraphFromVertexLoop (pts : List Vec2) : Except SSError Graph := do
  if pts.length < 2 then throw SSError.tooFewVertices
  let n := pts.length
  let (vs, es) ← buildLoopVerts pts n (List.range n) [] []
  let (vs2, ms) := buildLoopMotors pts n (List.range n) vs []
  pure ⟨vs2, es, ms, pts⟩

/-- Transcription of the point-level `CalculateCollapseTime` (source lines
203-228).  `none` models the `numeric_limits::max()` sentinel. -/
def calculateCollapseTimeP (p0 v0 p1 v1 : Vec2) : Option ℚ :=
  let d0x := v0.x - v1.x
  let d0y := v0.y - v1.y
  if |d0x| > |d0y| then
    if |d0x| < eps then none
    else
      let t := (p1.x - p0.x) / d0x
      let ySep := p0.y + t * v0.y - p1.y - t * v1.y
      if |ySep| < 1 / 1000 then some t else none
  else
    if |d0y| < eps then none
    else
      let t := (p1.y - p0.y) / d0y
      let xSep := p0.x + t * v0.x - p1.x - t * v1.x
      if |xSep| < 1 / 1000 then some t else none

/-- Transcription of the vertex-level `CalculateCollapseTime` (source lines
230-243).  In the `double` instantiation, `calcTime + max()` saturates back to
the sentinel, so mapping the offset over the `Option` is exact. -/
def calculateCollapseTime (v0 v1 : Vertex) : Option ℚ :=
  if equivV2 v0.velocity Vec2.zero eps then none
  else if equivV2 v1.velocity Vec2.zero eps then none
  else
    let calcTime := min v0.initialTime v1.initialTime
    let p0 := v0.position.add (v0.velocity.smul (calcTime - v0.initialTime))
    let p1 := v1.position.add (v1.velocity.smul (calcTime - v1.initialTime))
    (calculateCollapseTimeP p0 v0.velocity p1 v1.velocity).map (fun t => calcTime + t)

/-- Transcription of `PositionAtTime` (source lines 282-287); the finiteness
assertion is identically true over `ℚ`. -/
def positionAtTime (v : Vertex) (time : ℚ) : Vec2 :=
  v.position.add (v.velocity.smul (time - v.initialTime))

/-- Transcription of `ClampedPositionAtTime` (source lines 289-294). -/
def clampedPositionAtTime (v : Vertex) (time : ℚ) : Vec3 :=
  if equivV2 v.velocity Vec2.zero eps then v.position.expand v.initialTime
  else (positionAtTime v time).expand time

/-- Crash event candidate (`CrashEvent<Primitive>`). -/
structure CrashEvent where
  time : ℚ
  edgeSegment : Nat
deriving DecidableEq, Repr

/-- Per-root viability check of `CalculateCrashTime` (source lines 368-382).
The accumulator `best` models `bestCollisionEvent`, whose initial
`max()` time is modelled as `none`. -/
def crashRootCheck (head tail v : Vertex) (edgeIdx : Nat) (t : ℚ)
    (best : Option CrashEvent) : Option CrashEvent :=
  let tooLate := match best with
    | none => false
    | some b => decide (t > b.time)
  if tooLate || decide (t ≤ max head.initialTime tail.initialTime) then best
  else
    let P0 := positionAtTime head t
    let P1 := positionAtTime tail t
    let P2 := positionAtTime v t
    if (P1.sub P0).dot (P2.sub P0) > 0 ∧ (P0.sub P1).dot (P2.sub P1) > 0 then
      some ⟨t, edgeIdx⟩
    else if equivV2 P0 P2 eps ∨ equivV2 P1 P2 eps then some ⟨t, edgeIdx⟩
    else best

/-- Per-edge body of `CalculateCrashTime` (source lines 307-383): the quadratic
zero-area condition between the moving edge and the motorcycle head. -/
def crashTimeEdge (g : Graph) (v : Vertex) (edgeIdx : Nat) (e : Segment)
    (best : Option CrashEvent) : Option CrashEvent :=
  let head := g.vertices.getD e.head dummyVertex
  let tail := g.vertices.getD e.tail dummyVertex
  let calcTime := max (max head.initialTime tail.initialTime) v.initialTime
  let p0 := positionAtTime head calcTime
  let p1 := positionAtTime tail calcTime
  let v0 := head.velocity
  let v1 := tail.velocity
  let p2 := positionAtTime v calcTime
  let v2 := v.velocity
  let a := (v1.x - v0.x) * (v2.y - v0.y) - (v2.x - v0.x) * (v1.y - v0.y)
  if equivQ a 0 eps then best
  else
    let c := (p1.x - p0.x) * (p2.y - p0.y) - (p2.x - p0.x) * (p1.y - p0.y)
    let b := (p1.x - p0.x) * (v2.y - v0.y) + (v1.x - v0.x) * (p2.y - p0.y)
      - (p2.x - p0.x) * (v1.y - v0.y) - (v2.x - v0.x) * (p1.y - p0.y)
    let K := b * b - 4 * a * c
    if K < 0 then best
    else
      let Q := ratSqrt K
      let t1 := calcTime + (-b + Q) / (2 * a)
      let t2 := calcTime + (-b - Q) / (2 * a)
      crashRootCheck head tail v edgeIdx t2 (crashRootCheck head tail v edgeIdx t1 best)

/-- Scan of all wavefront edges in `CalculateCrashTime`. -/
def calculateCrashTimeAux (g : Graph) (v : Vertex) :
    List (Nat × Segment) → Option CrashEvent → Option CrashEvent
  | [], best => best
  | (i, e) :: rest, best => calculateCrashTimeAux g v rest (crashTimeEdge g v i e best)

/-- Transcription of `CalculateCrashTime` (source lines 302-386). -/
def calculateCrashTime (g : Graph) (v : Vertex) : Option CrashEvent :=
  calculateCrashTimeAux g v g.wavefrontEdges.enum none

/-- Scan of `FindInAndOut` (source lines 388-402); the two assertions reject a
second incoming or outgoing edge at the pivot. -/
def findInAndOutAux (pivot : Nat) :
    List (Nat × Segment) → Option Nat × Option Nat → Except SSError (Option Nat × Option Nat)
  | [], acc => pure acc
  | (i, s) :: rest, (fst, snd) =>
    if s.head = pivot then
      match fst with
      | some _ => throw SSError.findInOutDupIn
      | none => findInAndOutAux pivot rest (some i, snd)
    else if s.tail = pivot then
      match snd with
      | some _ => throw SSError.findInOutDupOut
      | none => findInAndOutAux pivot rest (fst, some i)
    else findInAndOutAux pivot rest (fst, snd)

/-- Transcription of `FindInAndOut`, returning indices into the edge list
rather than pointers. -/
def findInAndOut (edges : List Segment) (pivot : Nat) :
    Except SSError (Option Nat × Option Nat) :=
  findInAndOutAux pivot edges.enum (none, none)

/-- Transcription of `IsFrozen` (source line 404): equivalence of the velocity
to zero with tolerance zero, i.e. exact equality. -/
def isFrozen (v : Vertex) : Bool := equivV2 v.velocity Vec2.zero 0

/-- Transcription of `FreezeInPlace` (source lines 405-412). -/
def freezeInPlace (v : Vertex) (atTime : ℚ) : Except SSError Vertex :=
  if atTime = 0 then throw SSError.freezeTimeZero
  else pure ⟨positionAtTime v atTime, UINT32MAX, atTime, Vec2.zero⟩

/-- Transcription of `AddUnique` (source lines 414-424). -/
def addUnique (dst : List SkelEdge) (edge : SkelEdge) : Except SSError (List SkelEdge) :=
  match dst.find? (fun e => e.head == edge.head && e.tail == edge.tail) with
  | none => pure (dst ++ [edge])
  | some e => if e.type = edge.type then pure dst else throw SSError.addUniqueTypeMismatch

/-- Transcription of `AddEdge` (source lines 426-441). -/
def addEdge (dest : Skeleton) (headVertex tailVertex leftEdge rightEdge : Nat)
    (type : EdgeType) : Except SSError Skeleton :=
  if headVertex = tailVertex then pure dest
  else do
    let dest ← (
      if rightEdge ≠ UINT32MAX then do
        let f := dest.faces.getD rightEdge ⟨[]⟩
        let es ← addUnique f.edges ⟨headVertex, tailVertex, type⟩
        pure { dest with faces := dest.faces.set rightEdge ⟨es⟩ }
      else do
        let es ← addUnique dest.unplacedEdges ⟨headVertex, tailVertex, type⟩
        pure { dest with unplacedEdges := es })
    if leftEdge ≠ UINT32MAX then do
      let f := dest.faces.getD leftEdge ⟨[]⟩
      let es ← addUnique f.edges ⟨tailVertex, headVertex, type⟩
      pure { dest with faces := dest.faces.set leftEdge ⟨es⟩ }
    else do
      let es ← addUnique dest.unplacedEdges ⟨tailVertex, headVertex, type⟩
      pure { dest with unplacedEdges := es }

/-- Transcription of `AddSteinerVertex` (source lines 253-271), including the
debug-build check that no existing Steiner vertex shares the xy position with a
different time.  The finiteness and `!= max()` assertions are identically true
over `ℚ` and are dropped. -/
def addSteinerVertex (skeleton : Skeleton) (vtx : Vec3) : Except SSError (Nat × Skeleton) :=
  if vtx.z = 0 then throw SSError.steinerTimeZero
  else
    match skeleton.steinerVertices.findIdx? (fun v => equivV3 v vtx eps) with
    | some i => pure (i, skeleton)
    | none =>
      if (skeleton.steinerVertices.findIdx?
          (fun v => equivV2 v.truncate vtx.truncate eps)).isSome then
        throw SSError.steinerTruncateClash
      else
        pure (skeleton.steinerVertices.length,
          { skeleton with steinerVertices := skeleton.steinerVertices ++ [vtx] })

/-- Default segment for list lookups (reachable code never goes out of range). -/
def dummySeg : Segment := ⟨0, 0, 0, 0⟩

/-- Default motorcycle for list lookups. -/
def dummyMotor : MotorcycleSegment := ⟨0, 0, 0, 0⟩

/-- Transcription of `AddEdgeForVertexPath` (source lines 1014-1032). -/
def addEdgeForVertexPath (g : Graph) (dst : Skeleton) (v finalVertId : Nat) :
    Except SSError Skeleton := do
  let vert := g.vertices.getD v dummyVertex
  let inOut ← findInAndOut g.wavefrontEdges v
  let leftFace := match inOut.1 with
    | some i => (g.wavefrontEdges.getD i dummySeg).rightFace
    | none => UINT32MAX
  let rightFace := match inOut.2 with
    | some i => (g.wavefrontEdges.getD i dummySeg).rightFace
    | none => UINT32MAX
  if vert.skeletonVertexId ≠ UINT32MAX then do
    let dst ← (
      if vert.skeletonVertexId ≥ BoundaryVertexFlag then do
        let q := vert.skeletonVertexId - BoundaryVertexFlag
        let n := g.boundaryPoints.length
        addEdge dst finalVertId vert.skeletonVertexId ((q + n - 1) % n) q EdgeType.vertexPath
      else pure dst)
    addEdge dst finalVertId vert.skeletonVertexId leftFace rightFace EdgeType.vertexPath
  else do
    let (nid, dst) ← addSteinerVertex dst (vert.position.expand vert.initialTime)
    addEdge dst finalVertId nid leftFace rightFace EdgeType.vertexPath

/-- Scan of all wavefront edges computing collapse candidates (source lines
480-496).  A `none` collapse time models the `max()` sentinel, which in the
C++ passes the sign check and the monotonicity assertion trivially and can
never enter the candidate set (`max < max - eps` and `max < max + eps` are
both false under `double` saturation). -/
def collapseScan (g : Graph) (lastEventTime : ℚ) :
    List (Nat × Segment) → List (ℚ × Nat) → Option ℚ →
    Except SSError (List (ℚ × Nat) × Option ℚ)
  | [], best, bestTime => pure (best, bestTime)
  | (i, e) :: rest, best, bestTime => do
    match calculateCollapseTime (g.vertices.getD e.head dummyVertex)
        (g.vertices.getD e.tail dummyVertex) with
    | none => collapseScan g lastEventTime rest best bestTime
    | some t =>
      if t < 0 then collapseScan g lastEventTime rest best bestTime
      else if t < lastEventTime then throw SSError.collapseBeforeLastEvent
      else
        match bestTime with
        | none => collapseScan g lastEventTime rest [(t, i)] (some t)
        | some bt =>
          if t < bt - eps then collapseScan g lastEventTime rest [(t, i)] (some t)
          else if t < bt + eps then
            collapseScan g lastEventTime rest (best ++ [(t, i)]) (some (min t bt))
          else collapseScan g lastEventTime rest best bestTime

/-- Collapse-candidate collection plus the re-filter keeping only candidates
within epsilon of the final best time (source lines 498-505). -/
def computeBestCollapse (g : Graph) (lastEventTime : ℚ) :
    Except SSError (List (ℚ × Nat) × Option ℚ) := do
  let (cands, bt) ← collapseScan g lastEventTime g.wavefrontEdges.enum [] none
  match bt with
  | none => pure (cands, none)
  | some b => pure (cands.filter (fun e => decide (e.1 < b + eps)), some b)

/-- Scan of all motorcycles computing crash candidates (source lines 510-536).
A crash is only considered when it precedes `bestCollapseTime + eps`; with no
collapse candidate the C++ comparison is against `max() + eps = max()`, which
every finite time passes, so a `none` best-collapse lets every crash through. -/
def crashScan (g : Graph) (lastEventTime : ℚ) (bestCollapseTime : Option ℚ) :
    List (Nat × MotorcycleSegment) → List (CrashEvent × Nat) → Option ℚ →
    Except SSError (List (CrashEvent × Nat) × Option ℚ)
  | [], best, bestTime => pure (best, bestTime)
  | (i, m) :: rest, best, bestTime => do
    let head := g.vertices.getD m.head dummyVertex
    if equivV2 head.velocity Vec2.zero eps then crashScan g lastEventTime bestCollapseTime rest best bestTime
    else if head.initialTime ≠ 0 then throw SSError.motorHeadInitialTime
    else
      match calculateCrashTime g head with
      | none => crashScan g lastEventTime bestCollapseTime rest best bestTime
      | some ce =>
        if ce.time < 0 then crashScan g lastEventTime bestCollapseTime rest best bestTime
        else if ce.time < lastEventTime then throw SSError.crashBeforeLastEvent
        else
          let withinCollapse := match bestCollapseTime with
            | none => true
            | some bt => decide (ce.time < bt + eps)
          if withinCollapse then
            match bestTime with
            | none => crashScan g lastEventTime bestCollapseTime rest [(ce, i)] (some ce.time)
            | some bt =>
              if ce.time < bt - eps then
                crashScan g lastEventTime bestCollapseTime rest [(ce, i)] (some ce.time)
              else if ce.time < bt + eps then
                crashScan g lastEventTime bestCollapseTime rest (best ++ [(ce, i)])
                  (some (min ce.time bt))
              else crashScan g lastEventTime bestCollapseTime rest best bestTime
          else crashScan g lastEventTime bestCollapseTime rest best bestTime

/-- Crash-candidate collection entry point. -/
def computeBestCrashes (g : Graph) (lastEventTime : ℚ) (bestCollapseTime : Option ℚ) :
    Except SSError (List (CrashEvent × Nat) × Option ℚ) :=
  crashScan g lastEventTime bestCollapseTime g.motorcycleSegments.enum [] none

/-- The "is there volume on the tout side" block of the motorcycle-crash
processing (source lines 565-604). -/
def crashToutSide (g : Graph) (skel : Skeleton) (motor : MotorcycleSegment)
    (crashSegment : Segment) (crashPt : Vec2) (crashPtSkeleton : Nat) (calcTime : ℚ) :
    Except SSError (Graph × Skeleton) := do
  let inOut ← findInAndOut g.wavefrontEdges motor.head
  match inOut.2 with
  | none => throw SSError.toutMissing
  | some ti => do
    let tout := g.wavefrontEdges.getD ti dummySeg
    let v0 := clampedPositionAtTime (g.vertices.getD crashSegment.tail dummyVertex) calcTime
    let v2 := clampedPositionAtTime (g.vertices.getD tout.head dummyVertex) calcTime
    if tout.head = crashSegment.tail ∨ equivV3 v0 v2 eps then do
      if ¬(crashSegment.leftFace = UINT32MAX ∧ tout.leftFace = UINT32MAX) then
        throw SSError.crashFaceNotUnplaced
      let (endPt, skel) ← addSteinerVertex skel ((v0.add v2).scaleDiv 2)
      let skel ← addEdge skel endPt crashPtSkeleton crashSegment.rightFace tout.rightFace
        EdgeType.vertexPath
      let skel ← addEdgeForVertexPath g skel tout.head endPt
      let skel ← addEdgeForVertexPath g skel crashSegment.tail endPt
      let toutHead := tout.head
      let edges := g.wavefrontEdges.eraseIdx ti
      let edges :=
        if toutHead ≠ crashSegment.tail then
          match edges.find? (fun s => s.head == crashSegment.tail && s.tail == toutHead) with
          | some ex => edges ++ [⟨toutHead, crashSegment.tail, ex.rightFace, ex.leftFace⟩]
          | none => edges ++ [⟨toutHead, crashSegment.tail, UINT32MAX, UINT32MAX⟩]
        else edges
      pure ({ g with wavefrontEdges := edges }, skel)
    else do
      let newVertex := g.vertices.length
      let edges := g.wavefrontEdges.set ti { tout with tail := newVertex }
      let edges := edges ++
        [⟨newVertex, crashSegment.tail, crashSegment.leftFace, crashSegment.rightFace⟩]
      let vel ← calculateVertexVelocity v0.truncate crashPt v2.truncate
      let verts := g.vertices ++ [⟨crashPt, crashPtSkeleton, calcTime, vel⟩]
      pure ({ g with wavefrontEdges := edges, vertices := verts }, skel)

/-- The "is there volume on the tin side" block of the motorcycle-crash
processing (source lines 606-644). -/
def crashTinSide (g : Graph) (skel : Skeleton) (motor : MotorcycleSegment)
    (crashSegment : Segment) (crashPt : Vec2) (crashPtSkeleton : Nat) (calcTime : ℚ) :
    Except SSError (Graph × Skeleton) := do
  let inOut ← findInAndOut g.wavefrontEdges motor.head
  match inOut.1 with
  | none => throw SSError.tinMissing
  | some ti => do
    let tin := g.wavefrontEdges.getD ti dummySeg
    let v0 := clampedPositionAtTime (g.vertices.getD tin.tail dummyVertex) calcTime
    let v2 := clampedPositionAtTime (g.vertices.getD crashSegment.head dummyVertex) calcTime
    if tin.tail = crashSegment.head ∨ equivV3 v0 v2 eps then do
      if ¬(crashSegment.leftFace = UINT32MAX ∧ tin.leftFace = UINT32MAX) then
        throw SSError.crashFaceNotUnplaced
      let (endPt, skel) ← addSteinerVertex skel ((v0.add v2).scaleDiv 2)
      let skel ← addEdge skel endPt crashPtSkeleton tin.rightFace crashSegment.rightFace
        EdgeType.vertexPath
      let skel ← addEdgeForVertexPath g skel tin.tail endPt
      let skel ← addEdgeForVertexPath g skel crashSegment.head endPt
      let tinTail := tin.tail
      let edges := g.wavefrontEdges.eraseIdx ti
      let edges :=
        if tinTail ≠ crashSegment.head then
          match edges.find? (fun s => s.head == tinTail && s.tail == crashSegment.head) with
          | some ex => edges ++ [⟨crashSegment.head, tinTail, ex.rightFace, ex.leftFace⟩]
          | none => edges ++ [⟨crashSegment.head, tinTail, UINT32MAX, UINT32MAX⟩]
        else edges
      pure ({ g with wavefrontEdges := edges }, skel)
    else do
      let newVertex := g.vertices.length
      let edges := g.wavefrontEdges.set ti { tin with head := newVertex }
      let edges := edges ++
        [⟨crashSegment.head, newVertex, crashSegment.leftFace, crashSegment.rightFace⟩]
      let vel ← calculateVertexVelocity v0.truncate crashPt v2.truncate
      let verts := g.vertices ++ [⟨crashPt, crashPtSkeleton, calcTime, vel⟩]
      pure ({ g with wavefrontEdges := edges, vertices := verts }, skel)

/-- Processing of a single motorcycle crash event (source lines 552-677). -/
def processCrash (g : Graph) (skel : Skeleton) (ce : CrashEvent) (motorIdx : Nat) :
    Except SSError (Graph × Skeleton × ℚ) := do
  let motor := g.motorcycleSegments.getD motorIdx dummyMotor
  if ce.edgeSegment = UINT32MAX then throw SSError.crashEdgeMissing
  let crashPt := positionAtTime (g.vertices.getD motor.head dummyVertex) ce.time
  let (crashPtSkeleton, skel) ← addSteinerVertex skel (crashPt.expand ce.time)
  let crashSegment := g.wavefrontEdges.getD ce.edgeSegment dummySeg
  let calcTime := ce.time
  let (g, skel) ← crashToutSide g skel motor crashSegment crashPt crashPtSkeleton calcTime
  let (g, skel) ← crashTinSide g skel motor crashSegment crashPt crashPtSkeleton calcTime
  let remaining := g.wavefrontEdges.filter
    (fun s => !(s.head == crashSegment.head && s.tail == crashSegment.tail))
  let g := { g with wavefrontEdges := remaining }
  let mtv := g.vertices.getD motor.tail dummyVertex
  if mtv.skeletonVertexId = UINT32MAX then throw SSError.motorTailNoSkeletonId
  let skel ← addEdge skel crashPtSkeleton mtv.skeletonVertexId motor.leftFace motor.rightFace
    EdgeType.vertexPath
  let fv ← freezeInPlace (g.vertices.getD motor.head dummyVertex) ce.time
  let g := { g with vertices := g.vertices.set motor.head fv }
  let g := { g with motorcycleSegments := g.motorcycleSegments.eraseIdx motorIdx }
  pure (g, skel, ce.time)

/-- Collapse-group bookkeeping record (`CollapseGroupInfo` in the source). -/
structure CollapseGroupInfo where
  head : Nat
  tail : Nat
  newVertex : Nat
deriving DecidableEq, Repr

/-- Default candidate pair for list lookups. -/
def dummyCand : ℚ × Nat := (0, 0)

/-- Backward walk of the collapse-group assignment ("go back as far as
possible, from tail to tail", source lines 696-706).  The fuel is one more
than the candidate count, which the marking discipline can never exhaust. -/
def walkTailChain (edges : List Segment) (bc : List (ℚ × Nat)) (cg : Nat) :
    Nat → List Nat → Nat → Except SSError (List Nat × Nat)
  | 0, _, _ => throw SSError.outOfFuel
  | fuel + 1, groups, searchingTail =>
    match bc.findIdx? (fun t => (edges.getD t.2 dummySeg).head == searchingTail) with
    | none => pure (groups, searchingTail)
    | some j =>
      if groups.getD j UINT32MAX = cg then pure (groups, searchingTail)
      else if groups.getD j UINT32MAX ≠ UINT32MAX then throw SSError.collapseGroupClash
      else walkTailChain edges bc cg fuel (groups.set j cg)
        ((edges.getD (bc.getD j dummyCand).2 dummySeg).tail)

/-- Forward walk of the collapse-group assignment ("also go forward head to
head", source lines 709-719). -/
def walkHeadChain (edges : List Segment) (bc : List (ℚ × Nat)) (cg : Nat) :
    Nat → List Nat → Nat → Except SSError (List Nat × Nat)
  | 0, _, _ => throw SSError.outOfFuel
  | fuel + 1, groups, searchingHead =>
    match bc.findIdx? (fun t => (edges.getD t.2 dummySeg).tail == searchingHead) with
    | none => pure (groups, searchingHead)
    | some j =>
      if groups.getD j UINT32MAX = cg then pure (groups, searchingHead)
      else if groups.getD j UINT32MAX ≠ UINT32MAX then throw SSError.collapseGroupClash
      else walkHeadChain edges bc cg fuel (groups.set j cg)
        ((edges.getD (bc.getD j dummyCand).2 dummySeg).head)

/-- Assignment of collapse candidates to connected groups (source lines
686-723). -/
def assignGroups (edges : List Segment) (bc : List (ℚ × Nat)) :
    List Nat → List Nat → Nat → List CollapseGroupInfo →
    Except SSError (List Nat × List CollapseGroupInfo)
  | [], groups, _, infos => pure (groups, infos)
  | c :: rest, groups, nextCG, infos =>
    if groups.getD c UINT32MAX ≠ UINT32MAX then assignGroups edges bc rest groups nextCG infos
    else do
      let groups := groups.set c nextCG
      let st0 := (edges.getD (bc.getD c dummyCand).2 dummySeg).tail
      let (groups, searchingTail) ← walkTailChain edges bc nextCG (bc.length + 1) groups st0
      let sh0 := (edges.getD (bc.getD c dummyCand).2 dummySeg).head
      let (groups, searchingHead) ← walkHeadChain edges bc nextCG (bc.length + 1) groups sh0
      assignGroups edges bc rest groups (nextCG + 1)
        (infos ++ [⟨searchingHead, searchingTail, UINT32MAX⟩])

/-- Accumulation of the collision point for one collapse group (source lines
729-742), including the not-frozen assertions. -/
def collapseGroupAccum (g : Graph) (groups : List Nat) (bc : List (ℚ × Nat))
    (cgroup : Nat) (bestCollapseTime : ℚ) :
    List Nat → Vec2 → Nat → Except SSError (Vec2 × Nat)
  | [], acc, contributors => pure (acc, contributors)
  | c :: rest, acc, contributors =>
    if groups.getD c UINT32MAX ≠ cgroup then
      collapseGroupAccum g groups bc cgroup bestCollapseTime rest acc contributors
    else
      let seg := g.wavefrontEdges.getD (bc.getD c dummyCand).2 dummySeg
      if isFrozen (g.vertices.getD seg.tail dummyVertex) then throw SSError.frozenContributor
      else if isFrozen (g.vertices.getD seg.head dummyVertex) then throw SSError.frozenContributor
      else
        let acc := (acc.add (positionAtTime (g.vertices.getD seg.head dummyVertex) bestCollapseTime)).add
          (positionAtTime (g.vertices.getD seg.tail dummyVertex) bestCollapseTime)
        collapseGroupAccum g groups bc cgroup bestCollapseTime rest acc (contributors + 2)

/-- Debug-build validation that every contributing endpoint lies within `1e-3`
of the collision point (source lines 745-754). -/
def collapseGroupValidate (g : Graph) (groups : List Nat) (bc : List (ℚ × Nat))
    (cgroup : Nat) (bestCollapseTime : ℚ) (collisionPt : Vec2) :
    List Nat → Except SSError Unit
  | [] => pure ()
  | c :: rest =>
    if groups.getD c UINT32MAX ≠ cgroup then
      collapseGroupValidate g groups bc cgroup bestCollapseTime collisionPt rest
    else
      let seg := g.wavefrontEdges.getD (bc.getD c dummyCand).2 dummySeg
      let one := positionAtTime (g.vertices.getD seg.head dummyVertex) bestCollapseTime
      let two := positionAtTime (g.vertices.getD seg.tail dummyVertex) bestCollapseTime
      if ¬(equivV2 one collisionPt (1 / 1000)) then throw SSError.collapseSpread
      else if ¬(equivV2 two collisionPt (1 / 1000)) then throw SSError.collapseSpread
      else collapseGroupValidate g groups bc cgroup bestCollapseTime collisionPt rest

/-- Skeleton-edge emission and freezing for one collapse group (source lines
761-770): vertex paths to the collision vertex, then freeze head and tail. -/
def collapseGroupEmit (groups : List Nat) (bc : List (ℚ × Nat)) (cgroup : Nat)
    (collisionVertId : Nat) (bestCollapseTime : ℚ) :
    List Nat → Graph → Skeleton → Except SSError (Graph × Skeleton)
  | [], g, skel => pure (g, skel)
  | c :: rest, g, skel =>
    if groups.getD c UINT32MAX ≠ cgroup then
      collapseGroupEmit groups bc cgroup collisionVertId bestCollapseTime rest g skel
    else do
      let seg := g.wavefrontEdges.getD (bc.getD c dummyCand).2 dummySeg
      let skel ← addEdgeForVertexPath g skel seg.head collisionVertId
      let skel ← addEdgeForVertexPath g skel seg.tail collisionVertId
      let ft ← freezeInPlace (g.vertices.getD seg.tail dummyVertex) bestCollapseTime
      let g := { g with vertices := g.vertices.set seg.tail ft }
      let fh ← freezeInPlace (g.vertices.getD seg.head dummyVertex) bestCollapseTime
      let g := { g with vertices := g.vertices.set seg.head fh }
      collapseGroupEmit groups bc cgroup collisionVertId bestCollapseTime rest g skel

/-- Per-group processing (source lines 728-775): collision point, Steiner
vertex, vertex paths, freezes, and the new spliced vertex. -/
def processCollapseGroups (groups : List Nat) (bc : List (ℚ × Nat))
    (bestCollapseTime : ℚ) :
    List Nat → Graph → Skeleton → List CollapseGroupInfo →
    Except SSError (Graph × Skeleton × List CollapseGroupInfo)
  | [], g, skel, infos => pure (g, skel, infos)
  | cgroup :: rest, g, skel, infos => do
    let (acc, contributors) ← collapseGroupAccum g groups bc cgroup bestCollapseTime
      (List.range bc.length) Vec2.zero 0
    let collisionPt := (Vec2.smul (1 / (contributors : ℚ)) acc)
    collapseGroupValidate g groups bc cgroup bestCollapseTime collisionPt
      (List.range bc.length)
    let (collisionVertId, skel) ← addSteinerVertex skel (collisionPt.expand bestCollapseTime)
    let (g, skel) ← collapseGroupEmit groups bc cgroup collisionVertId bestCollapseTime
      (List.range bc.length) g skel
    let newV := g.vertices.length
    let infos := infos.set cgroup
      { (infos.getD cgroup ⟨0, 0, 0⟩) with newVertex := newV }
    let g := { g with vertices :=
      g.vertices ++ [⟨collisionPt, collisionVertId, bestCollapseTime, Vec2.zero⟩] }
    processCollapseGroups groups bc bestCollapseTime rest g skel infos

/-- The swap-to-end removal dance for collapsed edges (source lines 777-786);
`cands` holds the candidate edge indices in descending order. -/
def swapDance (edges : List Segment) : List Nat → Nat → Bool → List Segment × Nat
  | [], r, _ => (edges, r)
  | i :: rest, r, first =>
    let r := if first then r else r - 1
    let a := edges.getD r dummySeg
    let b := edges.getD i dummySeg
    let edges := (edges.set r b).set i a
    swapDance edges rest r false

/-- Removal of all collapsed candidate edges, mirroring the C++ ordering
effects of the swaps exactly. -/
def removeCollapsedEdges (edges : List Segment) (bc : List (ℚ × Nat)) : List Segment :=
  let (edges, r) := swapDance edges ((bc.map (fun t => t.2)).reverse) (edges.length - 1) true
  edges.take r

/-- Re-linking of the surviving boundary edges of one collapse group to the
new spliced vertex, and recomputation of its velocity (source lines 791-820). -/
def relinkGroup (g : Graph) (info : CollapseGroupInfo) : Except SSError Graph := do
  if info.head = info.tail then pure g
  else do
    let inOutTail ← findInAndOut g.wavefrontEdges info.tail
    let inOutHead ← findInAndOut g.wavefrontEdges info.head
    match inOutTail.1, inOutHead.2 with
    | some ti, some ho => do
      let edges := g.wavefrontEdges.set ti
        { (g.wavefrontEdges.getD ti dummySeg) with head := info.newVertex }
      let edges := edges.set ho { (edges.getD ho dummySeg) with tail := info.newVertex }
      let calcTime := (g.vertices.getD info.newVertex dummyVertex).initialTime
      let v0 := positionAtTime
        (g.vertices.getD (edges.getD ti dummySeg).tail dummyVertex) calcTime
      let v1 := (g.vertices.getD info.newVertex dummyVertex).position
      let v2 := positionAtTime
        (g.vertices.getD (edges.getD ho dummySeg).head dummyVertex) calcTime
      let vel ← calculateVertexVelocity v0 v1 v2
      let vtx := g.vertices.getD info.newVertex dummyVertex
      let verts := g.vertices.set info.newVertex { vtx with velocity := vel }
      pure { g with wavefrontEdges := edges, vertices := verts }
    | _, _ => throw SSError.missingGroupLink

/-- Iteration of `relinkGroup` over all collapse groups. -/
def relinkGroups : List CollapseGroupInfo → Graph → Except SSError Graph
  | [], g => pure g
  | info :: rest, g => do
    let g ← relinkGroup g info
    relinkGroups rest g

/-- Processing of a group of simultaneous edge collapses (source lines
680-823). -/
def processCollapse (g : Graph) (skel : Skeleton) (bc : List (ℚ × Nat))
    (bestCollapseTime : ℚ) : Except SSError (Graph × Skeleton × ℚ) := do
  let groups0 := List.replicate bc.length UINT32MAX
  let (groups, infos) ← assignGroups g.wavefrontEdges bc (List.range bc.length) groups0 0 []
  let (g, skel, infos) ← processCollapseGroups groups bc bestCollapseTime
    (List.range infos.length) g skel infos
  let g := { g with wavefrontEdges := removeCollapsedEdges g.wavefrontEdges bc }
  let g ← relinkGroups infos g
  pure (g, skel, bestCollapseTime)

/-- Result of one iteration of the event loop. -/
inductive StepResult where
  | finished (g : Graph) (skel : Skeleton) (lastEventTime : ℚ)
  | next (g : Graph) (skel : Skeleton) (lastEventTime : ℚ)
deriving DecidableEq, Repr

/-- One iteration of the event loop of `CalculateSkeleton` (source lines
455-825): candidate collection, the crash-over-collapse tie-break, and
dispatch to the matching processor.  `maxTime` is `none` for the infinity
sentinel. -/
def skeletonStep (g : Graph) (skel : Skeleton) (lastEventTime : ℚ)
    (maxTime : Option ℚ) : Except SSError StepResult := do
  let (bestCollapse, bestCollapseTime) ← computeBestCollapse g lastEventTime
  let (bestCrashes, bestCrashTime) ← computeBestCrashes g lastEventTime bestCollapseTime
  if bestCrashes ≠ [] then
    let overMax := match maxTime, bestCrashTime with
      | some mt, some bt => decide (bt > mt)
      | _, _ => false
    if overMax then pure (StepResult.finished g skel lastEventTime)
    else
      let bt := match bestCrashTime with
        | some b => b
        | none => 0
      let filtered := bestCrashes.filter (fun e => decide (e.1.time < bt + eps))
      match filtered with
      | [single] => do
        let (g, skel, t) ← processCrash g skel single.1 single.2
        pure (StepResult.next g skel t)
      | _ => throw SSError.multipleCrashes
  else
    match bestCollapse, bestCollapseTime with
    | [], _ => pure (StepResult.finished g skel lastEventTime)
    | _, none => pure (StepResult.finished g skel lastEventTime)
    | bc, some bt =>
      let overMax := match maxTime with
        | none => false
        | some mt => decide (bt > mt)
      if overMax then pure (StepResult.finished g skel lastEventTime)
      else do
        let (g, skel, t) ← processCollapse g skel bc bt
        pure (StepResult.next g skel t)

/-- The unbounded event loop, made total with fuel. -/
def skeletonLoop : Nat → Graph → Skeleton → ℚ → Option ℚ →
    Except SSError (Graph × Skeleton × ℚ)
  | 0, _, _, _, _ => throw SSError.outOfFuel
  | fuel + 1, g, skel, lt, mt => do
    match ← skeletonStep g skel lt mt with
    | StepResult.finished g skel lt => pure (g, skel, lt)
    | StepResult.next g skel lt => skeletonLoop fuel g skel lt mt

/-- Default 3-vector for Steiner lookups. -/
def dummyVec3 : Vec3 := ⟨0, 0, 0⟩

/-- Transcription of `ClosestPointOnLine2D` (source lines 834-839).  Over `ℚ`
a zero-length ray yields `0`, which takes the same "not on the line" branches
as the C++ NaN comparisons. -/
def closestPointOnLine2D (rayStart rayEnd testPt : Vec2) : ℚ :=
  let o := testPt.sub rayStart
  let l := rayEnd.sub rayStart
  o.dot l / l.magSq

/-- Transcription of `DoColinearLinesIntersect` (source lines 841-852),
including its unusual conjunctions, exactly as written. -/
def doColinearLinesIntersect (AStart AEnd BStart BEnd : Vec2) : Bool :=
  let closestBStart := closestPointOnLine2D AStart AEnd BStart
  let closestBEnd := closestPointOnLine2D AStart AEnd BEnd
  (decide (closestBStart > eps) && decide (closestBStart > 1 - eps))
  || (decide (closestBEnd > eps) && decide (closestBEnd > 1 - eps))
  || (equivV2 AStart BStart eps && equivV2 AEnd BEnd eps)
  || (equivV2 AEnd BStart eps && equivV2 AStart BEnd eps)

/-- Result of scanning one popped segment against the accepted segments. -/
structure WWScanState where
  filtered : List Segment
  seg : Segment
  pushes : List Segment
  drop : Bool
deriving DecidableEq, Repr

/-- Scan of one worklist segment against `filteredSegments` (source lines
882-992): merging duplicates, re-pointing shared endpoints, or splitting
colinear overlaps, with the debug assertions on the split results.  The
vertical-slope guard mirrors the C++ behaviour where an infinite or NaN slope
is never `Equivalent` to anything. -/
def wwScan (sv : List Vec3) : Nat → Nat → List Segment → Segment → List Segment →
    Except SSError WWScanState
  | 0, _, filtered, seg, pushes => pure ⟨filtered, seg, pushes, false⟩
  | count + 1, j, filtered, seg, pushes =>
    let i2 := filtered.getD j dummySeg
    let A := (sv.getD seg.head dummyVec3).truncate
    let B := (sv.getD seg.tail dummyVec3).truncate
    if i2.head = seg.head ∧ i2.tail = seg.tail then
      let i2 := { i2 with
        leftFace := if i2.leftFace = UINT32MAX then seg.leftFace else i2.leftFace,
        rightFace := if i2.rightFace = UINT32MAX then seg.rightFace else i2.rightFace }
      pure ⟨filtered.set j i2, seg, pushes, true⟩
    else if i2.head = seg.tail ∧ i2.tail = seg.head then
      let i2 := { i2 with
        leftFace := if i2.leftFace = UINT32MAX then seg.rightFace else i2.leftFace,
        rightFace := if i2.rightFace = UINT32MAX then seg.leftFace else i2.rightFace }
      pure ⟨filtered.set j i2, seg, pushes, true⟩
    else
      let C := (sv.getD i2.head dummyVec3).truncate
      let D := (sv.getD i2.tail dummyVec3).truncate
      let closestC := closestPointOnLine2D A B C
      let closestD := closestPointOnLine2D A B D
      let COnLine := decide (closestC > 0) && decide (closestC < 1) &&
        decide (((linearInterpolate A B closestC).sub C).magSq < eps)
      let DOnLine := decide (closestD > 0) && decide (closestD < 1) &&
        decide (((linearInterpolate A B closestD).sub D).magSq < eps)
      if ¬(COnLine || DOnLine) then wwScan sv count (j + 1) filtered seg pushes
      else if B.x - A.x = 0 ∨ D.x - C.x = 0 then wwScan sv count (j + 1) filtered seg pushes
      else
        let m0 := (B.y - A.y) / (B.x - A.x)
        let m1 := (D.y - C.y) / (D.x - C.x)
        if ¬(equivQ m0 m1 eps) then wwScan sv count (j + 1) filtered seg pushes
        else if i2.head = seg.head then
          if closestD < 1 then wwScan sv count (j + 1) filtered { seg with head := i2.tail } pushes
          else wwScan sv count (j + 1) (filtered.set j { i2 with head := seg.tail }) seg pushes
        else if i2.head = seg.tail then
          if closestD > 0 then wwScan sv count (j + 1) filtered { seg with tail := i2.tail } pushes
          else wwScan sv count (j + 1) (filtered.set j { i2 with head := seg.head }) seg pushes
        else if i2.tail = seg.head then
          if closestC < 1 then wwScan sv count (j + 1) filtered { seg with head := i2.head } pushes
          else wwScan sv count (j + 1) (filtered.set j { i2 with tail := seg.tail }) seg pushes
        else if i2.tail = seg.tail then
          if closestC > 0 then wwScan sv count (j + 1) filtered { seg with tail := i2.head } pushes
          else wwScan sv count (j + 1) (filtered.set j { i2 with tail := seg.head }) seg pushes
        else do
          let (newSeg, seg1, i2a) :=
            if closestC < 0 then
              let (ns, sg) :=
                if closestD > 1 then ((⟨seg.tail, i2.tail, 0, 0⟩ : Segment), seg)
                else ((⟨i2.tail, seg.tail, 0, 0⟩ : Segment), { seg with tail := i2.tail })
              (ns, sg, { i2 with tail := seg.head })
            else if closestD < 0 then
              let (ns, sg) :=
                if closestC > 1 then ((⟨seg.tail, i2.head, 0, 0⟩ : Segment), seg)
                else ((⟨i2.head, seg.tail, 0, 0⟩ : Segment), { seg with tail := i2.head })
              (ns, sg, { i2 with head := seg.head })
            else if closestC < closestD then
              let (ns, sg) :=
                if closestD > 1 then ((⟨seg.tail, i2.tail, 0, 0⟩ : Segment), seg)
                else ((⟨i2.tail, seg.tail, 0, 0⟩ : Segment), { seg with tail := i2.tail })
              (ns, { sg with tail := i2.head }, i2)
            else
              let (ns, sg) :=
                if closestC > 1 then ((⟨seg.tail, i2.head, 0, 0⟩ : Segment), seg)
                else ((⟨i2.head, seg.tail, 0, 0⟩ : Segment), { seg with tail := i2.head })
              (ns, { sg with tail := i2.tail }, i2)
          if doColinearLinesIntersect ((sv.getD newSeg.head dummyVec3).truncate)
              ((sv.getD newSeg.tail dummyVec3).truncate)
              ((sv.getD seg1.head dummyVec3).truncate)
              ((sv.getD seg1.tail dummyVec3).truncate) then
            throw SSError.colinearOverlap
          if doColinearLinesIntersect ((sv.getD newSeg.head dummyVec3).truncate)
              ((sv.getD newSeg.tail dummyVec3).truncate)
              ((sv.getD i2a.head dummyVec3).truncate)
              ((sv.getD i2a.tail dummyVec3).truncate) then
            throw SSError.colinearOverlap
          if doColinearLinesIntersect ((sv.getD i2a.head dummyVec3).truncate)
              ((sv.getD i2a.tail dummyVec3).truncate)
              ((sv.getD seg1.head dummyVec3).truncate)
              ((sv.getD seg1.tail dummyVec3).truncate) then
            throw SSError.colinearOverlap
          if newSeg.head = newSeg.tail then throw SSError.wavefrontDegenerate
          if i2a.head = i2a.tail then throw SSError.wavefrontDegenerate
          if seg1.head = seg1.tail then throw SSError.wavefrontDegenerate
          wwScan sv count (j + 1) (filtered.set j i2a) seg1 (pushes ++ [newSeg])

/-- Worklist processing of `WriteWavefront` (source lines 878-996). -/
def wwProcessStack (sv : List Vec3) : Nat → List Segment → List Segment →
    Except SSError (List Segment)
  | _, [], filtered => pure filtered
  | 0, _ :: _, _ => throw SSError.outOfFuel
  | fuel + 1, seg :: stack, filtered => do
    let r ← wwScan sv filtered.length 0 filtered seg []
    let stack := r.pushes.reverse ++ stack
    let filtered := if r.drop then r.filtered else r.filtered ++ [r.seg]
    wwProcessStack sv fuel stack filtered

/-- Snapshot of the live wavefront edges at the final time (source lines
869-876); degenerate snapshots (both endpoints merged to one Steiner vertex)
are skipped.  The accumulator is the worklist stack, topmost first. -/
def wwInitSegs (g : Graph) (time : ℚ) :
    List Segment → Skeleton → List Segment → Except SSError (Skeleton × List Segment)
  | [], skel, acc => pure (skel, acc)
  | e :: rest, skel, acc => do
    let A := clampedPositionAtTime (g.vertices.getD e.head dummyVertex) time
    let B := clampedPositionAtTime (g.vertices.getD e.tail dummyVertex) time
    let (v0, skel) ← addSteinerVertex skel A
    let (v1, skel) ← addSteinerVertex skel B
    if v0 ≠ v1 then wwInitSegs g time rest skel (⟨v0, v1, e.leftFace, e.rightFace⟩ :: acc)
    else wwInitSegs g time rest skel acc

/-- Emission of the filtered wavefront segments (source lines 999-1002). -/
def wwEmitSegs : List Segment → Skeleton → Except SSError Skeleton
  | [], skel => pure skel
  | seg :: rest, skel => do
    if seg.head = seg.tail then throw SSError.wavefrontDegenerate
    let skel ← addEdge skel seg.head seg.tail seg.leftFace seg.rightFace EdgeType.wavefront
    wwEmitSegs rest skel

/-- Emission of the traced-out vertex paths of the remaining wavefront
vertices (source lines 1005-1011). -/
def wwVertexPaths (g : Graph) (time : ℚ) : List Segment → Skeleton → Except SSError Skeleton
  | [], skel => pure skel
  | seg :: rest, skel => do
    let vh := g.vertices.getD seg.head dummyVertex
    let (nh, skel) ← addSteinerVertex skel (clampedPositionAtTime vh time)
    let skel ← addEdgeForVertexPath g skel seg.head nh
    let vt := g.vertices.getD seg.tail dummyVertex
    let (nt, skel) ← addSteinerVertex skel (clampedPositionAtTime vt time)
    let skel ← addEdgeForVertexPath g skel seg.tail nt
    wwVertexPaths g time rest skel

/-- Transcription of `Graph::WriteWavefront` (source lines 854-1012). -/
def writeWavefront (g : Graph) (skel : Skeleton) (time : ℚ) (fuel : Nat) :
    Except SSError Skeleton := do
  let (skel, stack) ← wwInitSegs g time g.wavefrontEdges skel []
  let filtered ← wwProcessStack skel.steinerVertices fuel stack []
  let skel ← wwEmitSegs filtered skel
  wwVertexPaths g time g.wavefrontEdges skel

/-- Transcription of `Graph::CalculateSkeleton` (source lines 443-832): the
event loop followed by the final-wavefront flush; a `none` input `maxTime`
(the infinity sentinel) is replaced by the last event time for the flush. -/
def Graph.calculateSkeleton (g : Graph) (maxTime : Option ℚ) (fuel : Nat) :
    Except SSError Skeleton := do
  let skel0 : Skeleton := ⟨[], List.replicate g.boundaryPoints.length ⟨[]⟩, []⟩
  let (g, skel, lastEventTime) ← skeletonLoop fuel g skel0 0 maxTime
  let mt := match maxTime with
    | none => lastEventTime
    | some t => t
  writeWavefront g skel mt fuel

/-- Transcription of the public entry point `CalculateStraightSkeleton`
(source lines 1035-1039). -/
def calculateStraightSkeleton (pts : List Vec2) (maxInset : Option ℚ) (fuel : Nat) :
    Except SSError Skeleton := do
  let g ← buildGraphFromVertexLoop pts
  Graph.calculateSkeleton g maxInset fuel

/-- Scan for the unique segment whose head continues the working loop
(source lines 1062-1068); the uniqueness assertion rejects junctions. -/
def findHitAux (searching : Nat) :
    List (Nat × (Nat × Nat)) → Option Nat → Except SSError (Option Nat)
  | [], acc => pure acc
  | (i, p) :: rest, acc =>
    if p.1 = searching then
      match acc with
      | some _ => throw SSError.loopDupJunction
      | none => findHitAux searching rest (some i)
    else findHitAux searching rest acc

/-- Inner loop of `AsVertexLoopsOrdered` (source lines 1059-1075): follow the
chain until the next vertex already lies on the working loop.  Pool length
shrinks every iteration, so `pool.length + 1` fuel always suffices. -/
def buildWorkingLoop : Nat → List (Nat × Nat) → List Nat →
    Except SSError (List Nat × List (Nat × Nat))
  | 0, _, _ => throw SSError.outOfFuel
  | fuel + 1, pool, workingLoop => do
    if pool = [] then throw SSError.loopPoolEmpty
    let searching := workingLoop.getLastD 0
    let hit ← findHitAux searching pool.enum none
    match hit with
    | none => throw SSError.loopNoContinuation
    | some hi =>
      let newVert := (pool.getD hi (0, 0)).2
      let pool := pool.eraseIdx hi
      if workingLoop.contains newVert then pure (workingLoop, pool)
      else buildWorkingLoop fuel pool (workingLoop ++ [newVert])

/-- Outer loop of `AsVertexLoopsOrdered` (source lines 1051-1077): start a new
working loop from the last remaining segment. -/
def asVertexLoopsAux : Nat → List (Nat × Nat) → List (List Nat) →
    Except SSError (List (List Nat))
  | _, [], result => pure result
  | 0, _ :: _, _ => throw SSError.outOfFuel
  | fuel + 1, pool, result => do
    let i := pool.getLastD (0, 0)
    let workingLoop := [i.1, i.2]
    let pool := pool.dropLast
    let (loop, pool) ← buildWorkingLoop (pool.length + 1) pool workingLoop
    asVertexLoopsAux fuel pool (result ++ [loop])

/-- Transcription of `AsVertexLoopsOrdered` (source lines 1041-1080). -/
def asVertexLoopsOrdered (segments : List (Nat × Nat)) : Except SSError (List (List Nat)) :=
  asVertexLoopsAux (segments.length + 1) segments []

/-- Transcription of `StraightSkeleton::WavefrontAsVertexLoops` (source lines
1082-1092): collect the Wavefront-typed edges of every face and chain them. -/
def Skeleton.wavefrontAsVertexLoops (s : Skeleton) : Except SSError (List (List Nat)) :=
  let soup := (s.faces.map (fun f =>
    (f.edges.filter (fun e => e.type == EdgeType.wavefront)).map
      (fun e => (e.head, e.tail)))).flatten
  asVertexLoopsOrdered soup

/-- Decidable equality for `Except`, needed to evaluate concrete runs inside
proofs. -/
instance {ε α : Type} [DecidableEq ε] [DecidableEq α] : DecidableEq (Except ε α) := fun
  | Except.ok a, Except.ok b =>
    match decEq a b with
    | isTrue h => isTrue (by rw [h])
    | isFalse h => isFalse (by intro hh; injection hh; exact h (by assumption))
  | Except.error a, Except.error b =>
    match decEq a b with
    | isTrue h => isTrue (by rw [h])
    | isFalse h => isFalse (by intro hh; injection hh; exact h (by assumption))
  | Except.ok _, Except.error _ => isFalse (by intro h; exact Except.noConfusion h)
  | Except.error _, Except.ok _ => isFalse (by intro h; exact Except.noConfusion h)

/-- All edges stored in the output skeleton: every face's edge list plus the
unplaced bucket. -/
def Skeleton.allEdges (s : Skeleton) : List SkelEdge :=
  (s.faces.map Face.edges).flatten ++ s.unplacedEdges

/-- Undirected normalisation of a skeleton edge. -/
def normPair (e : SkelEdge) : Nat × Nat := (min e.head e.tail, max e.head e.tail)

/-- The distinct undirected `VertexPath` edges of a skeleton. -/
def undirectedVertexPathPairs (s : Skeleton) : List (Nat × Nat) :=
  (((Skeleton.allEdges s).filter (fun e => e.type == EdgeType.vertexPath)).map normPair).dedup

/-- The counter-clockwise unit square of the degenerate-square test. -/
def unitSquare : List Vec2 := [⟨0, 0⟩, ⟨1, 0⟩, ⟨1, 1⟩, ⟨0, 1⟩]

/-- The L-shaped hexagon of the reflex test (one reflex vertex at `(1,1)`). -/
def lshape : List Vec2 := [⟨0, 0⟩, ⟨2, 0⟩, ⟨2, 1⟩, ⟨1, 1⟩, ⟨1, 2⟩, ⟨0, 2⟩]

/-- Calculation reference time of the vertex-level collapse computation. -/
def collapseCalcTime (v0 v1 : Vertex) : ℚ := min v0.initialTime v1.initialTime

/-- Statement of the claim that a returned collapse time solves the trajectory
equation `p0 + t*v0 = p1 + t*v1` exactly on the axis with the larger absolute
velocity-difference component, with the other axis separated by less than the
`1e-3` tolerance, and that the chosen component is at least epsilon. -/
def solvesOnMajorAxis (v0 v1 : Vertex) (T : ℚ) : Prop :=
  let ct := collapseCalcTime v0 v1
  let t := T - ct
  let p0 := positionAtTime v0 ct
  let p1 := positionAtTime v1 ct
  let dx := v0.velocity.x - v1.velocity.x
  let dy := v0.velocity.y - v1.velocity.y
  if |dx| > |dy| then
    eps ≤ |dx| ∧ p0.x + t * v0.velocity.x = p1.x + t * v1.velocity.x ∧
      |p0.y + t * v0.velocity.y - (p1.y + t * v1.velocity.y)| < 1 / 1000
  else
    eps ≤ |dy| ∧ p0.y + t * v0.velocity.y = p1.y + t * v1.velocity.y ∧
      |p0.x + t * v0.velocity.x - (p1.x + t * v1.velocity.x)| < 1 / 1000

/-- Statement that the two trajectories never meet within tolerance, measured
as the code measures it: on the axis with the larger velocity-difference
component, either that component is below epsilon (near-parallel trajectories)
or the residual separation on the other axis at the candidate time is at least
`1e-3`. -/
def neverMeets (v0 v1 : Vertex) : Prop :=
  let ct := collapseCalcTime v0 v1
  let p0 := positionAtTime v0 ct
  let p1 := positionAtTime v1 ct
  let dx := v0.velocity.x - v1.velocity.x
  let dy := v0.velocity.y - v1.velocity.y
  if |dx| > |dy| then
    |dx| < eps ∨ 1 / 1000 ≤
      |p0.y + ((p1.x - p0.x) / dx) * v0.velocity.y - p1.y - ((p1.x - p0.x) / dx) * v1.velocity.y|
  else
    |dy| < eps ∨ 1 / 1000 ≤
      |p0.x + ((p1.y - p0.y) / dy) * v0.velocity.x - p1.x - ((p1.y - p0.y) / dy) * v1.velocity.x|

/-- Reflex test used by the motorcycle-emission loop: the winding of
(predecessor, v, successor) classifies as Right. -/
def isReflexAt (pts : List Vec2) (n v : Nat) : Bool :=
  decide (calculateWindingType (pts.getD ((v + n - 1) % n) Vec2.zero) (pts.getD v Vec2.zero)
    (pts.getD ((v + 1) % n) Vec2.zero) windingThreshold = WindingType.right)

/-- The input indices winding to the right, in input order. -/
def reflexList (pts : List Vec2) : List Nat :=
  (List.range pts.length).filter (isReflexAt pts pts.length)

/-- The anchor vertices that the builder appends, one per reflex vertex: the
reflex vertex's position, its boundary skeleton id, time 0, zero velocity. -/
def anchorsFor (pts : List Vec2) : List Nat → List Vertex
  | [] => []
  | v :: rest =>
    ⟨pts.getD v Vec2.zero, BoundaryVertexFlag + v, 0, Vec2.zero⟩ :: anchorsFor pts rest

/-- The motorcycle segments the builder appends: head the reflex vertex, tail
the freshly appended anchor (indices from `base` up), faces `(v0, v)`. -/
def motorsFor (n : Nat) : Nat → List Nat → List MotorcycleSegment
  | _, [] => []
  | base, v :: rest => ⟨v, base, (v + n - 1) % n, v⟩ :: motorsFor n (base + 1) rest

/-- The initial event graph the builder produces for the unit square (used as
a concrete witness state). -/
def sqGraph : Graph :=
  ⟨[⟨⟨0, 0⟩, 2147483648, 0, ⟨1, 1⟩⟩, ⟨⟨1, 0⟩, 2147483649, 0, ⟨-1, 1⟩⟩,
    ⟨⟨1, 1⟩, 2147483650, 0, ⟨-1, -1⟩⟩, ⟨⟨0, 1⟩, 2147483651, 0, ⟨1, -1⟩⟩],
   [⟨1, 0, 4294967295, 0⟩, ⟨2, 1, 4294967295, 1⟩, ⟨3, 2, 4294967295, 2⟩,
    ⟨0, 3, 4294967295, 3⟩], [], unitSquare⟩

def sqSkel0 : Skeleton := ⟨[], [⟨[]⟩, ⟨[]⟩, ⟨[]⟩, ⟨[]⟩], []⟩

/-- The initial event graph the builder produces for the L-shape (used as a
concrete witness state; vertex 6 is the reflex anchor). -/
def lGraph : Graph :=
  ⟨[⟨⟨0, 0⟩, 2147483648, 0, ⟨1, 1⟩⟩, ⟨⟨2, 0⟩, 2147483649, 0, ⟨-1, 1⟩⟩,
    ⟨⟨2, 1⟩, 2147483650, 0, ⟨-1, -1⟩⟩, ⟨⟨1, 1⟩, 2147483651, 0, ⟨-1, -1⟩⟩,
    ⟨⟨1, 2⟩, 2147483652, 0, ⟨-1, -1⟩⟩, ⟨⟨0, 2⟩, 2147483653, 0, ⟨1, -1⟩⟩,
    ⟨⟨1, 1⟩, 2147483651, 0, ⟨0, 0⟩⟩],
   [⟨1, 0, 4294967295, 0⟩, ⟨2, 1, 4294967295, 1⟩, ⟨3, 2, 4294967295, 2⟩,
    ⟨4, 3, 4294967295, 3⟩, ⟨5, 4, 4294967295, 4⟩, ⟨0, 5, 4294967295, 5⟩],
   [⟨3, 6, 2, 3⟩], lshape⟩

/-- Empty output skeleton with the L-shape's six faces. -/
def lSkel0 : Skeleton := ⟨[], [⟨[]⟩, ⟨[]⟩, ⟨[]⟩, ⟨[]⟩, ⟨[]⟩, ⟨[]⟩], []⟩

/-- Key-uniqueness of a skeleton edge list: at most one edge per ordered
(head, tail) pair. -/
def keysUnique (l : List SkelEdge) : Prop :=
  (l.map (fun e => (e.head, e.tail))).Nodup

instance (l : List SkelEdge) : Decidable (keysUnique l) :=
  inferInstanceAs (Decidable (List.Nodup _))

/-- The structural invariant of the output skeleton maintained by `AddEdge` and
`AddUnique`: every stored edge is non-degenerate and every face list and the
unplaced bucket hold at most one edge per (head, tail) pair. -/
def SkeletonInv (s : Skeleton) : Prop :=
  (∀ f ∈ s.faces, (∀ e ∈ f.edges, e.head ≠ e.tail) ∧ keysUnique f.edges) ∧
  (∀ e ∈ s.unplacedEdges, e.head ≠ e.tail) ∧ keysUnique s.unplacedEdges

/-- The output-skeleton component of a `StepResult`. -/
def StepResult.skel : StepResult → Skeleton
  | .finished _ s _ => s
  | .next _ s _ => s

/-- Modelled from the spec: an edge set contains an open chain when some
segment's tail is not the head of any remaining segment. -/
def hasOpenChain (pool : List (Nat × Nat)) : Prop :=
  ∃ s ∈ pool, ∀ t ∈ pool.erase s, t.1 ≠ s.2

instance (pool : List (Nat × Nat)) : Decidable (hasOpenChain pool) :=
  inferInstanceAs (Decidable (∃ s ∈ pool, ∀ t ∈ pool.erase s, t.1 ≠ s.2))

/-- Modelled from the spec: an edge set forms only closed head-to-tail chains
when every vertex is the head of exactly one segment and the tail of exactly
one segment (the successor map is a bijection, so the segments split into
disjoint closed chains). -/
def closedChains (pool : List (Nat × Nat)) : Prop :=
  (pool.map (fun s => s.1)).Nodup ∧ (pool.map (fun s => s.2)).Nodup ∧
  (∀ v ∈ pool.map (fun s => s.1), v ∈ pool.map (fun s => s.2)) ∧
  (∀ v ∈ pool.map (fun s => s.2), v ∈ pool.map (fun s => s.1))

instance (pool : List (Nat × Nat)) : Decidable (closedChains pool) :=
  inferInstanceAs (Decidable (_ ∧ _ ∧ _ ∧ _))

/-- The graph component of a `StepResult`. -/
def StepResult.graph : StepResult → Graph
  | .finished g _ _ => g
  | .next g _ _ => g

/-- Preservation of frozen vertices across a simulation transition: the vertex
list never shrinks and every already-frozen vertex is left entirely unchanged
(position, skeleton-vertex id, initial time and velocity). -/
def frozenPreserved (g g' : Graph) : Prop :=
  g.vertices.length ≤ g'.vertices.length ∧
  ∀ i, i < g.vertices.length → isFrozen (g.vertices.getD i dummyVertex) = true →
    g'.vertices.getD i dummyVertex = g.vertices.getD i dummyVertex

instance (g g' : Graph) : Decidable (frozenPreserved g g') :=
  inferInstanceAs (Decidable (_ ∧ ∀ i, i < _ → _))

-- ===================== THEOREMS =====================

/-- Characterisation of the point-level `CalculateCollapseTime`: a returned
time comes from the axis with the larger absolute velocity difference. -/
theorem collapseP_some_char (p0 w0 p1 w1 : Vec2) (t : ℚ)
    (h : calculateCollapseTimeP p0 w0 p1 w1 = some t) :
    (if |w0.x - w1.x| > |w0.y - w1.y| then
      eps ≤ |w0.x - w1.x| ∧ t = (p1.x - p0.x) / (w0.x - w1.x) ∧
        |p0.y + t * w0.y - p1.y - t * w1.y| < 1 / 1000
     else
      eps ≤ |w0.y - w1.y| ∧ t = (p1.y - p0.y) / (w0.y - w1.y) ∧
        |p0.x + t * w0.x - p1.x - t * w1.x| < 1 / 1000) := by
  simp only [calculateCollapseTimeP] at h
  split at h
  case isTrue hax =>
    rw [if_pos hax]
    split at h
    case isTrue => exact absurd h (by simp)
    case isFalse hne =>
      split at h
      case isTrue hsep =>
        injection h with h
        subst h
        exact ⟨not_lt.mp hne, rfl, hsep⟩
      case isFalse => exact absurd h (by simp)
  case isFalse hax =>
    rw [if_neg hax]
    split at h
    case isTrue => exact absurd h (by simp)
    case isFalse hne =>
      split at h
      case isTrue hsep =>
        injection h with h
        subst h
        exact ⟨not_lt.mp hne, rfl, hsep⟩
      case isFalse => exact absurd h (by simp)

/-- Characterisation of the sentinel result of the point-level
`CalculateCollapseTime`: trajectories that never meet within tolerance. -/
theorem collapseP_none_char (p0 w0 p1 w1 : Vec2)
    (h : if |w0.x - w1.x| > |w0.y - w1.y| then
        |w0.x - w1.x| < eps ∨ 1 / 1000 ≤
          |p0.y + ((p1.x - p0.x) / (w0.x - w1.x)) * w0.y - p1.y -
            ((p1.x - p0.x) / (w0.x - w1.x)) * w1.y|
      else
        |w0.y - w1.y| < eps ∨ 1 / 1000 ≤
          |p0.x + ((p1.y - p0.y) / (w0.y - w1.y)) * w0.x - p1.x -
            ((p1.y - p0.y) / (w0.y - w1.y)) * w1.x|) :
    calculateCollapseTimeP p0 w0 p1 w1 = none := by
  simp only [calculateCollapseTimeP]
  split
  case isTrue hax =>
    rw [if_pos hax] at h
    rcases h with h | h
    · rw [if_pos h]
    · split
      · rfl
      · rw [if_neg (not_lt.mpr h)]
  case isFalse hax =>
    rw [if_neg hax] at h
    rcases h with h | h
    · rw [if_pos h]
    · split
      · rfl
      · rw [if_neg (not_lt.mpr h)]

/-- C3.  `CalculateCollapseTime` on the two vertices of a wavefront edge
returns the infinity sentinel whenever either vertex's velocity is within
epsilon of zero (frozen) or the trajectories never meet within tolerance; a
returned time `T` solves `p0 + t*v0 = p1 + t*v1` exactly on the single axis
with the larger absolute velocity-difference component (offset by the common
calculation time, i.e. `t = T - calcTime`), with the other axis within the
`1e-3` tolerance. -/
theorem collapse_time_characterisation (v0 v1 : Vertex) :
    ((equivV2 v0.velocity Vec2.zero eps ∨ equivV2 v1.velocity Vec2.zero eps) →
      calculateCollapseTime v0 v1 = none) ∧
    (∀ T, calculateCollapseTime v0 v1 = some T →
      (¬ equivV2 v0.velocity Vec2.zero eps) ∧ (¬ equivV2 v1.velocity Vec2.zero eps) ∧
      solvesOnMajorAxis v0 v1 T) ∧
    ((¬ equivV2 v0.velocity Vec2.zero eps) → (¬ equivV2 v1.velocity Vec2.zero eps) →
      neverMeets v0 v1 → calculateCollapseTime v0 v1 = none) := by
  refine ⟨?_, ?_, ?_⟩
  · intro h
    simp only [calculateCollapseTime]
    by_cases h0 : equivV2 v0.velocity Vec2.zero eps
    · rw [if_pos h0]
    · rw [if_neg h0]
      rcases h with h | h
      · exact absurd h h0
      · rw [if_pos h]
  · intro T hT
    simp only [calculateCollapseTime] at hT
    by_cases h0 : equivV2 v0.velocity Vec2.zero eps
    · rw [if_pos h0] at hT; exact absurd hT (by simp)
    rw [if_neg h0] at hT
    by_cases h1 : equivV2 v1.velocity Vec2.zero eps
    · rw [if_pos h1] at hT; exact absurd hT (by simp)
    rw [if_neg h1] at hT
    refine ⟨h0, h1, ?_⟩
    rw [Option.map_eq_some'] at hT
    obtain ⟨t, hP, ht⟩ := hT
    have hchar := collapseP_some_char _ _ _ _ _ hP
    have hTt : T - collapseCalcTime v0 v1 = t := by
      simp only [collapseCalcTime]; rw [← ht]; ring
    simp only [solvesOnMajorAxis, collapseCalcTime, positionAtTime] at hTt ⊢
    rw [hTt]
    by_cases hax : |v0.velocity.x - v1.velocity.x| > |v0.velocity.y - v1.velocity.y|
    · rw [if_pos hax] at hchar ⊢
      obtain ⟨heps, htv, hsep⟩ := hchar
      have hdx : v0.velocity.x - v1.velocity.x ≠ 0 := by
        intro hz
        rw [hz, abs_zero] at heps
        norm_num [eps] at heps
      refine ⟨heps, ?_, ?_⟩
      · rw [htv]; field_simp; ring
      · have hre : (v0.position.add (v0.velocity.smul
            (min v0.initialTime v1.initialTime - v0.initialTime))).y +
            t * v0.velocity.y -
            ((v1.position.add (v1.velocity.smul
              (min v0.initialTime v1.initialTime - v1.initialTime))).y +
            t * v1.velocity.y) =
            (v0.position.add (v0.velocity.smul
              (min v0.initialTime v1.initialTime - v0.initialTime))).y +
            t * v0.velocity.y -
            (v1.position.add (v1.velocity.smul
              (min v0.initialTime v1.initialTime - v1.initialTime))).y -
            t * v1.velocity.y := by ring
        rw [hre]
        exact hsep
    · rw [if_neg hax] at hchar ⊢
      obtain ⟨heps, htv, hsep⟩ := hchar
      have hdy : v0.velocity.y - v1.velocity.y ≠ 0 := by
        intro hz
        rw [hz, abs_zero] at heps
        norm_num [eps] at heps
      refine ⟨heps, ?_, ?_⟩
      · rw [htv]; field_simp; ring
      · have hre : (v0.position.add (v0.velocity.smul
            (min v0.initialTime v1.initialTime - v0.initialTime))).x +
            t * v0.velocity.x -
            ((v1.position.add (v1.velocity.smul
              (min v0.initialTime v1.initialTime - v1.initialTime))).x +
            t * v1.velocity.x) =
            (v0.position.add (v0.velocity.smul
              (min v0.initialTime v1.initialTime - v0.initialTime))).x +
            t * v0.velocity.x -
            (v1.position.add (v1.velocity.smul
              (min v0.initialTime v1.initialTime - v1.initialTime))).x -
            t * v1.velocity.x := by ring
        rw [hre]
        exact hsep
  · intro h0 h1 hnm
    simp only [calculateCollapseTime]
    rw [if_neg h0, if_neg h1]
    have hP := collapseP_none_char
      (v0.position.add (v0.velocity.smul (min v0.initialTime v1.initialTime - v0.initialTime)))
      v0.velocity
      (v1.position.add (v1.velocity.smul (min v0.initialTime v1.initialTime - v1.initialTime)))
      v1.velocity
      (by simpa only [neverMeets, collapseCalcTime, positionAtTime] using hnm)
    rw [hP]
    rfl

/-- Witness for C3: a frozen pair yields the sentinel, the bottom edge of the
unit square collapses at `T = 1/2` solving the major-axis equation, and a pair
with identical velocities (trajectories that never meet) yields the sentinel. -/
theorem collapse_time_characterisation_witness :
    calculateCollapseTime ⟨⟨0, 0⟩, 0, 0, ⟨0, 0⟩⟩ ⟨⟨1, 0⟩, 0, 0, ⟨-1, 1⟩⟩ = none ∧
    solvesOnMajorAxis ⟨⟨0, 0⟩, 2147483648, 0, ⟨1, 1⟩⟩ ⟨⟨1, 0⟩, 2147483649, 0, ⟨-1, 1⟩⟩ (1 / 2) ∧
    calculateCollapseTime ⟨⟨0, 0⟩, 0, 0, ⟨1, 0⟩⟩ ⟨⟨0, 5⟩, 0, 0, ⟨1, 0⟩⟩ = none := by
  refine ⟨?_, ?_, ?_⟩
  · exact (collapse_time_characterisation _ _).1 (Or.inl (by with_unfolding_all decide))
  · exact (((collapse_time_characterisation _ _).2.1 (1 / 2)) (by with_unfolding_all decide)).2.2
  · exact (collapse_time_characterisation _ _).2.2 (by with_unfolding_all decide)
      (by with_unfolding_all decide)
      (by simp only [neverMeets]; with_unfolding_all decide)

/-- Unfolding of the motorcycle-emission loop: it appends exactly the anchors
and motorcycles of the right-winding input vertices. -/
theorem buildLoopMotors_eq (pts : List Vec2) (n : Nat) (idxs : List Nat)
    (vs : List Vertex) (ms : List MotorcycleSegment) :
    buildLoopMotors pts n idxs vs ms =
      (vs ++ anchorsFor pts (idxs.filter (isReflexAt pts n)),
       ms ++ motorsFor n vs.length (idxs.filter (isReflexAt pts n))) := by
  induction idxs generalizing vs ms with
  | nil => simp [buildLoopMotors, anchorsFor, motorsFor]
  | cons v rest ih =>
    simp only [buildLoopMotors]
    by_cases hr : calculateWindingType (pts.getD ((v + n - 1) % n) Vec2.zero)
        (pts.getD v Vec2.zero) (pts.getD ((v + 1) % n) Vec2.zero) windingThreshold =
        WindingType.right
    · rw [if_pos hr, ih]
      have hb : isReflexAt pts n v = true := decide_eq_true hr
      have hf : (v :: rest).filter (isReflexAt pts n) =
          v :: rest.filter (isReflexAt pts n) := by
        simp [List.filter_cons, hb]
      rw [hf]
      simp [anchorsFor, motorsFor, List.append_assoc]
    · rw [if_neg hr, ih]
      have hb : isReflexAt pts n v = false := decide_eq_false hr
      have hf : (v :: rest).filter (isReflexAt pts n) =
          rest.filter (isReflexAt pts n) := by
        simp [List.filter_cons, hb]
      rw [hf]

/-- The vertex-construction loop appends one vertex per processed index. -/
theorem buildLoopVerts_length (pts : List Vec2) (n : Nat) (idxs : List Nat) :
    ∀ vs es vs' es', buildLoopVerts pts n idxs vs es = Except.ok (vs', es') →
      vs'.length = vs.length + idxs.length := by
  induction idxs with
  | nil =>
    intro vs es vs' es' h
    simp only [buildLoopVerts, pure, Except.pure, Except.ok.injEq, Prod.mk.injEq] at h
    rw [← h.1]
    simp
  | cons v rest ih =>
    intro vs es vs' es' h
    cases hvel : calculateVertexVelocity (pts.getD ((v + n - 1) % n) Vec2.zero)
        (pts.getD v Vec2.zero) (pts.getD ((v + 1) % n) Vec2.zero) with
    | error e =>
      simp only [buildLoopVerts, bind, Except.bind, hvel] at h
      exact Except.noConfusion h
    | ok vel =>
      simp only [buildLoopVerts, bind, Except.bind, hvel] at h
      by_cases hz : equivV2 vel Vec2.zero eps
      · rw [if_pos hz] at h; exact Except.noConfusion h
      · rw [if_neg hz] at h
        have := ih _ _ _ _ h
        simp only [List.length_append, List.length_cons, List.length_nil] at this ⊢
        omega

/-- Every motorcycle emitted by the builder points at its own anchor vertex:
the anchor sits at the reflex vertex's position with the boundary skeleton id,
initial time 0 and zero velocity, and the head is a right-winding vertex. -/
theorem motorsFor_anchors (pts : List Vec2) (n : Nat) :
    ∀ (rlist : List Nat) (vs : List Vertex) (m : MotorcycleSegment),
      m ∈ motorsFor n vs.length rlist →
      ((vs ++ anchorsFor pts rlist).getD m.tail dummyVertex =
        ⟨pts.getD m.head Vec2.zero, BoundaryVertexFlag + m.head, 0, Vec2.zero⟩ ∧
       m.head ∈ rlist) := by
  intro rlist
  induction rlist with
  | nil => intro vs m hm; simp [motorsFor] at hm
  | cons r rest ih =>
    intro vs m hm
    simp only [motorsFor, List.mem_cons] at hm
    rcases hm with hm | hm
    · subst hm
      refine ⟨?_, by simp⟩
      simp only [anchorsFor]
      rw [List.getD_append_right _ _ _ _ (le_refl vs.length)]
      simp
    · have h2 : m ∈ motorsFor n
          (vs ++ [(⟨pts.getD r Vec2.zero, BoundaryVertexFlag + r, 0, Vec2.zero⟩ : Vertex)]).length
          rest := by
        simpa [List.length_append] using hm
      have hres := ih
        (vs ++ [(⟨pts.getD r Vec2.zero, BoundaryVertexFlag + r, 0, Vec2.zero⟩ : Vertex)]) m h2
      refine ⟨?_, List.mem_cons_of_mem _ hres.2⟩
      have hass : vs ++ anchorsFor pts (r :: rest) =
          (vs ++ [(⟨pts.getD r Vec2.zero, BoundaryVertexFlag + r, 0, Vec2.zero⟩ : Vertex)]) ++
            anchorsFor pts rest := by
        simp [anchorsFor, List.append_assoc]
      rw [hass]
      exact hres.1

/-- Anchor count equals reflex count. -/
theorem anchorsFor_length (pts : List Vec2) (l : List Nat) :
    (anchorsFor pts l).length = l.length := by
  induction l with
  | nil => rfl
  | cons v rest ih => simp [anchorsFor, ih]

/-- C2.  In `BuildGraphFromVertexLoop`, the motorcycle list is exactly one
segment per right-winding (reflex) input vertex, each pointing from the reflex
vertex to a freshly appended anchor vertex that carries the reflex vertex's
position, the boundary skeleton id, initial time 0 and zero velocity; exactly
one anchor is appended per reflex vertex.  Consequently a convex
counter-clockwise polygon (no vertex winding Right) produces no motorcycle
segments. -/
theorem reflex_motorcycle_creation (pts : List Vec2) (g : Graph)
    (h : buildGraphFromVertexLoop pts = Except.ok g) :
    g.motorcycleSegments = motorsFor pts.length pts.length (reflexList pts) ∧
    g.vertices.length = pts.length + (reflexList pts).length ∧
    (∀ m ∈ g.motorcycleSegments,
      g.vertices.getD m.tail dummyVertex =
        ⟨pts.getD m.head Vec2.zero, BoundaryVertexFlag + m.head, 0, Vec2.zero⟩ ∧
      m.head ∈ reflexList pts) ∧
    ((∀ v ∈ List.range pts.length, ¬ isReflexAt pts pts.length v) →
      g.motorcycleSegments = []) := by
  by_cases hlen : pts.length < 2
  · simp [buildGraphFromVertexLoop, hlen, throw, throwThe, MonadExceptOf.throw, bind,
      Except.bind] at h
  · cases hbv : buildLoopVerts pts pts.length (List.range pts.length) [] [] with
    | error e => simp [buildGraphFromVertexLoop, hlen, hbv] at h
    | ok p =>
      obtain ⟨vs, es⟩ := p
      have hvslen := buildLoopVerts_length pts pts.length (List.range pts.length) _ _ _ _ hbv
      simp only [List.length_nil, List.length_range, Nat.zero_add] at hvslen
      simp only [buildGraphFromVertexLoop, hlen, if_false, bind, Except.bind, hbv,
        buildLoopMotors_eq, pure, Except.pure] at h
      injection h with h
      subst h
      refine ⟨?_, ?_, ?_, ?_⟩
      · simp only [reflexList]
        rw [hvslen]
        simp
      · simp only [reflexList, List.length_append, anchorsFor_length]
        rw [hvslen]
      · intro m hm
        simp only [List.nil_append] at hm
        have := motorsFor_anchors pts pts.length
          ((List.range pts.length).filter (isReflexAt pts pts.length)) vs m hm
        exact ⟨this.1, this.2⟩
      · intro hnone
        have hfil : (List.range pts.length).filter (isReflexAt pts pts.length) = [] := by
          rw [List.filter_eq_nil_iff]
          intro a ha
          exact hnone a ha
        simp [hfil, motorsFor]

/-- Witness for C2: the L-shaped hexagon has exactly one reflex vertex (index
3) and the builder creates exactly one motorcycle from it to anchor vertex 6. -/
theorem reflex_motorcycle_creation_witness :
    (buildGraphFromVertexLoop lshape).map (fun g => g.motorcycleSegments) =
      Except.ok [⟨3, 6, 2, 3⟩] := by
  have hok : (buildGraphFromVertexLoop lshape).toOption.isSome = true := by
    with_unfolding_all decide
  cases hg : buildGraphFromVertexLoop lshape with
  | error e => rw [hg] at hok; simp [Except.toOption] at hok
  | ok g =>
    simp only [Except.map]
    rw [(reflex_motorcycle_creation lshape g hg).1]
    with_unfolding_all decide

/-- C5.  `CalculateStraightSkeleton` on the counter-clockwise unit square with
the infinity sentinel for `maxInset` produces exactly one Steiner vertex, at
`(1/2, 1/2, 1/2)` (all four edges collapse simultaneously at time `1/2`), and
exactly 4 distinct undirected `VertexPath` skeleton edges, one per input
corner (boundary ids `2^31 + 0 .. 2^31 + 3`), all converging at that Steiner
vertex (index 0). -/
theorem unit_square_end_to_end :
    (calculateStraightSkeleton unitSquare none 10).map
      (fun sk => (sk.steinerVertices, undirectedVertexPathPairs sk)) =
    Except.ok ([⟨1 / 2, 1 / 2, 1 / 2⟩],
      [(0, 2147483649), (0, 2147483650), (0, 2147483648), (0, 2147483651)]) := by
  with_unfolding_all decide

/-- C6.  Running `CalculateStraightSkeleton` with `maxInset = 0` on the unit
square does not return the input loop: the very first Steiner vertex written
by `WriteWavefront` at time 0 trips the assertion `vertex[2] != 0` in
`AddSteinerVertex` (source line 255), so the computation fails instead of
producing loops. -/
theorem zero_inset_hits_steiner_assertion :
    calculateStraightSkeleton unitSquare (some 0) 10 =
      Except.error SSError.steinerTimeZero := by
  with_unfolding_all decide

/-- Every collapse candidate the scan accepts, and the running best collapse
time, are at or after `lastEventTime` (the monotonicity assertion guards the
scan). -/
theorem collapseScan_ge (g : Graph) (lastEventTime : ℚ) :
    ∀ (es : List (Nat × Segment)) (best : List (ℚ × Nat)) (bestTime : Option ℚ)
      (res : List (ℚ × Nat) × Option ℚ),
      (∀ c ∈ best, lastEventTime ≤ c.1) →
      (∀ b, bestTime = some b → lastEventTime ≤ b) →
      collapseScan g lastEventTime es best bestTime = Except.ok res →
      (∀ c ∈ res.1, lastEventTime ≤ c.1) ∧ (∀ b, res.2 = some b → lastEventTime ≤ b) := by
  intro es
  induction es with
  | nil =>
    intro best bestTime res hb ht h
    simp only [collapseScan, pure, Except.pure] at h
    injection h with h
    subst h
    exact ⟨hb, ht⟩
  | cons ie rest ih =>
    intro best bestTime res hb ht h
    obtain ⟨i, e⟩ := ie
    cases hct : calculateCollapseTime (g.vertices.getD e.head dummyVertex)
        (g.vertices.getD e.tail dummyVertex) with
    | none =>
      simp only [collapseScan, hct] at h
      exact ih _ _ _ hb ht h
    | some t =>
      simp only [collapseScan, hct] at h
      by_cases h0 : t < 0
      · rw [if_pos h0] at h
        exact ih _ _ _ hb ht h
      · rw [if_neg h0] at h
        by_cases h1 : t < lastEventTime
        · rw [if_pos h1] at h
          exact Except.noConfusion h
        · rw [if_neg h1] at h
          have hget : lastEventTime ≤ t := not_lt.mp h1
          split at h
          · refine ih _ _ _ ?_ ?_ h
            · intro c hc
              simp at hc
              rw [hc]
              exact hget
            · intro b hbb
              injection hbb with hbb
              rw [← hbb]
              exact hget
          · rename_i bt
            by_cases h2 : t < bt - eps
            · rw [if_pos h2] at h
              refine ih _ _ _ ?_ ?_ h
              · intro c hc
                simp at hc
                rw [hc]
                exact hget
              · intro b hbb
                injection hbb with hbb
                rw [← hbb]
                exact hget
            · rw [if_neg h2] at h
              by_cases h3 : t < bt + eps
              · rw [if_pos h3] at h
                refine ih _ _ _ ?_ ?_ h
                · intro c hc
                  rw [List.mem_append] at hc
                  rcases hc with hc | hc
                  · exact hb c hc
                  · simp at hc
                    rw [hc]
                    exact hget
                · intro b hbb
                  injection hbb with hbb
                  rw [← hbb]
                  exact le_min hget (ht bt rfl)
              · rw [if_neg h3] at h
                exact ih _ _ _ hb ht h

/-- Every crash candidate the scan accepts, and the running best crash time,
are at or after `lastEventTime`. -/
theorem crashScan_ge (g : Graph) (lastEventTime : ℚ) (bct : Option ℚ) :
    ∀ (ms : List (Nat × MotorcycleSegment)) (best : List (CrashEvent × Nat))
      (bestTime : Option ℚ) (res : List (CrashEvent × Nat) × Option ℚ),
      (∀ c ∈ best, lastEventTime ≤ c.1.time) →
      (∀ b, bestTime = some b → lastEventTime ≤ b) →
      crashScan g lastEventTime bct ms best bestTime = Except.ok res →
      (∀ c ∈ res.1, lastEventTime ≤ c.1.time) ∧ (∀ b, res.2 = some b → lastEventTime ≤ b) := by
  intro ms
  induction ms with
  | nil =>
    intro best bestTime res hb ht h
    simp only [crashScan, pure, Except.pure] at h
    injection h with h
    subst h
    exact ⟨hb, ht⟩
  | cons im rest ih =>
    intro best bestTime res hb ht h
    obtain ⟨i, m⟩ := im
    simp only [crashScan] at h
    by_cases hfr : equivV2 (g.vertices.getD m.head dummyVertex).velocity Vec2.zero eps
    · rw [if_pos hfr] at h
      exact ih _ _ _ hb ht h
    · rw [if_neg hfr] at h
      by_cases hit : (g.vertices.getD m.head dummyVertex).initialTime ≠ 0
      · rw [if_pos hit] at h
        exact Except.noConfusion h
      · rw [if_neg hit] at h
        cases hct : calculateCrashTime g (g.vertices.getD m.head dummyVertex) with
        | none =>
          simp only [hct] at h
          exact ih _ _ _ hb ht h
        | some ce =>
          simp only [hct] at h
          by_cases h0 : ce.time < 0
          · rw [if_pos h0] at h
            exact ih _ _ _ hb ht h
          · rw [if_neg h0] at h
            by_cases h1 : ce.time < lastEventTime
            · rw [if_pos h1] at h
              exact Except.noConfusion h
            · rw [if_neg h1] at h
              have hget : lastEventTime ≤ ce.time := not_lt.mp h1
              split at h
              · split at h
                · refine ih _ _ _ ?_ ?_ h
                  · intro c hc
                    simp at hc
                    rw [hc]
                    exact hget
                  · intro b hbb
                    injection hbb with hbb
                    rw [← hbb]
                    exact hget
                · rename_i bt
                  by_cases h2 : ce.time < bt - eps
                  · rw [if_pos h2] at h
                    refine ih _ _ _ ?_ ?_ h
                    · intro c hc
                      simp at hc
                      rw [hc]
                      exact hget
                    · intro b hbb
                      injection hbb with hbb
                      rw [← hbb]
                      exact hget
                  · rw [if_neg h2] at h
                    by_cases h3 : ce.time < bt + eps
                    · rw [if_pos h3] at h
                      refine ih _ _ _ ?_ ?_ h
                      · intro c hc
                        rw [List.mem_append] at hc
                        rcases hc with hc | hc
                        · exact hb c hc
                        · simp at hc
                          rw [hc]
                          exact hget
                      · intro b hbb
                        injection hbb with hbb
                        rw [← hbb]
                        exact le_min hget (ht bt rfl)
                    · rw [if_neg h3] at h
                      exact ih _ _ _ hb ht h
              · exact ih _ _ _ hb ht h

/-- Candidate collection inherits the scan bound, also through the re-filter. -/
theorem computeBestCollapse_ge (g : Graph) (lt : ℚ) (res : List (ℚ × Nat) × Option ℚ)
    (h : computeBestCollapse g lt = Except.ok res) :
    (∀ c ∈ res.1, lt ≤ c.1) ∧ (∀ b, res.2 = some b → lt ≤ b) := by
  simp only [computeBestCollapse, bind, Except.bind] at h
  cases hs : collapseScan g lt g.wavefrontEdges.enum [] none with
  | error e => simp only [hs] at h; exact Except.noConfusion h
  | ok p =>
    simp only [hs] at h
    have hp := collapseScan_ge g lt _ _ _ _ (by simp) (by simp) hs
    obtain ⟨cands, bt⟩ := p
    cases bt with
    | none =>
      simp only [pure, Except.pure] at h
      injection h with h
      rw [← h]
      exact hp
    | some b =>
      simp only [pure, Except.pure] at h
      injection h with h
      rw [← h]
      refine ⟨?_, hp.2⟩
      intro c hc
      rw [List.mem_filter] at hc
      exact hp.1 c hc.1

/-- Crash-candidate collection inherits the scan bound. -/
theorem computeBestCrashes_ge (g : Graph) (lt : ℚ) (bct : Option ℚ)
    (res : List (CrashEvent × Nat) × Option ℚ)
    (h : computeBestCrashes g lt bct = Except.ok res) :
    (∀ c ∈ res.1, lt ≤ c.1.time) ∧ (∀ b, res.2 = some b → lt ≤ b) :=
  crashScan_ge g lt bct _ _ _ _ (by simp) (by simp) h

/-- A successful crash processing reports the crash event's own time as the
new last event time. -/
theorem processCrash_time (g : Graph) (skel : Skeleton) (ce : CrashEvent) (mi : Nat)
    (res : Graph × Skeleton × ℚ) (h : processCrash g skel ce mi = Except.ok res) :
    res.2.2 = ce.time := by
  simp only [processCrash, bind, Except.bind] at h
  repeat
    first
    | exact Except.noConfusion h
    | split at h
  all_goals
    simp only [pure, Except.pure] at h
  all_goals
    injection h with h
  all_goals
    rw [← h]

/-- A successful collapse processing reports the best collapse time as the
new last event time. -/
theorem processCollapse_time (g : Graph) (skel : Skeleton) (bc : List (ℚ × Nat)) (bt : ℚ)
    (res : Graph × Skeleton × ℚ) (h : processCollapse g skel bc bt = Except.ok res) :
    res.2.2 = bt := by
  simp only [processCollapse, bind, Except.bind] at h
  repeat
    first
    | exact Except.noConfusion h
    | split at h
  all_goals
    simp only [pure, Except.pure] at h
  all_goals
    injection h with h
  all_goals
    rw [← h]

/-- One continuing iteration of the event loop never decreases the last event
time. -/
theorem skeletonStep_next_monotone (g : Graph) (skel : Skeleton) (lt : ℚ) (mt : Option ℚ)
    (g' : Graph) (skel' : Skeleton) (lt' : ℚ)
    (h : skeletonStep g skel lt mt = Except.ok (StepResult.next g' skel' lt')) : lt ≤ lt' := by
  simp only [skeletonStep, bind, Except.bind] at h
  cases hbc : computeBestCollapse g lt with
  | error e => simp only [hbc] at h; exact Except.noConfusion h
  | ok bcp =>
    simp only [hbc] at h
    obtain ⟨bc, bct⟩ := bcp
    cases hcr : computeBestCrashes g lt bct with
    | error e => simp only [hcr] at h; exact Except.noConfusion h
    | ok crp =>
      simp only [hcr] at h
      obtain ⟨crs, crt⟩ := crp
      have hcl := computeBestCollapse_ge g lt _ hbc
      have hcs := computeBestCrashes_ge g lt bct _ hcr
      by_cases hne : crs ≠ []
      · rw [if_pos hne] at h
        split at h
        · simp only [pure, Except.pure] at h
          injection h with h
          exact StepResult.noConfusion h
        · split at h
          · rename_i single heq
            cases hpc : processCrash g skel single.1 single.2 with
            | error e => simp only [hpc] at h; exact Except.noConfusion h
            | ok r =>
              obtain ⟨rg, rs, rt⟩ := r
              simp only [hpc, pure, Except.pure] at h
              injection h with h
              injection h with h1 h2 h3
              have hrt : rt = single.1.time := processCrash_time _ _ _ _ _ hpc
              have hmem : single ∈ crs := by
                have hm1 : single ∈ crs.filter
                    (fun e => decide (e.1.time < (match crt with
                      | some b => b
                      | none => 0) + eps)) := by
                  rw [heq]
                  exact List.mem_singleton_self _
                exact (List.mem_filter.mp hm1).1
              rw [← h3, hrt]
              exact hcs.1 single hmem
          · exact Except.noConfusion h
      · rw [if_neg hne] at h
        split at h
        · simp only [pure, Except.pure] at h
          injection h with h
          exact StepResult.noConfusion h
        · simp only [pure, Except.pure] at h
          injection h with h
          exact StepResult.noConfusion h
        · rename_i junk1 junk2 btv hbcne
          split at h
          · simp only [pure, Except.pure] at h
            injection h with h
            exact StepResult.noConfusion h
          · cases hpc : processCollapse g skel bc btv with
            | error e => simp only [hpc] at h; exact Except.noConfusion h
            | ok r =>
              obtain ⟨rg, rs, rt⟩ := r
              simp only [hpc, pure, Except.pure] at h
              injection h with h
              injection h with h1 h2 h3
              have hrt : rt = btv := processCollapse_time _ _ _ _ _ hpc
              rw [← h3, hrt]
              exact hcl.2 btv rfl

/-- A terminating iteration leaves the last event time unchanged. -/
theorem skeletonStep_finished_time (g : Graph) (skel : Skeleton) (lt : ℚ) (mt : Option ℚ)
    (g' : Graph) (skel' : Skeleton) (lt' : ℚ)
    (h : skeletonStep g skel lt mt = Except.ok (StepResult.finished g' skel' lt')) :
    lt' = lt := by
  simp only [skeletonStep, bind, Except.bind] at h
  repeat
    any_goals
      first
      | exact Except.noConfusion h
      | split at h
  all_goals simp only [pure, Except.pure] at h
  all_goals injection h with h
  all_goals
    first
    | exact StepResult.noConfusion h
    | (injection h with h1 h2 h3; exact h3.symm)

/-- The last event time never decreases across the whole event loop. -/
theorem skeletonLoop_monotone :
    ∀ (fuel : Nat) (g : Graph) (skel : Skeleton) (lt : ℚ) (mt : Option ℚ)
      (res : Graph × Skeleton × ℚ),
      skeletonLoop fuel g skel lt mt = Except.ok res → lt ≤ res.2.2 := by
  intro fuel
  induction fuel with
  | zero =>
    intro g skel lt mt res h
    simp only [skeletonLoop, throw, throwThe, MonadExceptOf.throw] at h
    exact Except.noConfusion h
  | succ n ih =>
    intro g skel lt mt res h
    simp only [skeletonLoop, bind, Except.bind] at h
    cases hs : skeletonStep g skel lt mt with
    | error e => simp only [hs] at h; exact Except.noConfusion h
    | ok sr =>
      simp only [hs] at h
      cases sr with
      | finished g2 s2 l2 =>
        simp only [pure, Except.pure] at h
        injection h with h
        have hft := skeletonStep_finished_time _ _ _ _ _ _ _ hs
        rw [← h, hft]
      | next g2 s2 l2 =>
        have h1 := skeletonStep_next_monotone _ _ _ _ _ _ _ hs
        exact le_trans h1 (ih _ _ _ _ _ h)

/-- C1.  Event-time monotonicity: in a run of `Graph::CalculateSkeleton`,
every collapse candidate and crash candidate accepted into the candidate sets
has time `>= lastEventTime` (as asserted by the code), the best candidate
times likewise; every processed event advances `lastEventTime` to the
processed event's time, which is `>= ` the previous `lastEventTime`; and
`lastEventTime` never decreases across the iterations of the loop. -/
theorem event_time_monotonicity (g : Graph) (skel : Skeleton) (lt : ℚ) (mt : Option ℚ) :
    (∀ res, computeBestCollapse g lt = Except.ok res →
      (∀ c ∈ res.1, lt ≤ c.1) ∧ (∀ b, res.2 = some b → lt ≤ b)) ∧
    (∀ bct res, computeBestCrashes g lt bct = Except.ok res →
      (∀ c ∈ res.1, lt ≤ c.1.time) ∧ (∀ b, res.2 = some b → lt ≤ b)) ∧
    (∀ g' skel' lt', skeletonStep g skel lt mt = Except.ok (StepResult.next g' skel' lt') →
      lt ≤ lt') ∧
    (∀ fuel res, skeletonLoop fuel g skel lt mt = Except.ok res → lt ≤ res.2.2) := by
  refine ⟨?_, ?_, ?_, ?_⟩
  · intro res h
    exact computeBestCollapse_ge g lt res h
  · intro bct res h
    exact computeBestCrashes_ge g lt bct res h
  · intro g' skel' lt' h
    exact skeletonStep_next_monotone g skel lt mt g' skel' lt' h
  · intro fuel res h
    exact skeletonLoop_monotone fuel g skel lt mt res h

/-- Witness for C1: the unit-square run starting at `lastEventTime = 0`
finishes with a final last event time at or after 0. -/
theorem event_time_monotonicity_witness :
    (skeletonLoop 10 sqGraph sqSkel0 0 none).toOption.isSome = true ∧
    (skeletonLoop 10 sqGraph sqSkel0 0 none).toOption.elim True
      (fun r => (0 : ℚ) ≤ r.2.2) := by
  refine ⟨by with_unfolding_all decide, ?_⟩
  cases hs : skeletonLoop 10 sqGraph sqSkel0 0 none with
  | error e => simp [Except.toOption]
  | ok r =>
    simp only [Except.toOption, Option.elim]
    exact (event_time_monotonicity sqGraph sqSkel0 0 none).2.2.2 10 r hs

/-- Every crash candidate the scan accepts is strictly earlier than the best
collapse time plus epsilon (the crash-priority filter). -/
theorem crashScan_within (g : Graph) (lt : ℚ) (bct : Option ℚ) :
    ∀ (ms : List (Nat × MotorcycleSegment)) (best : List (CrashEvent × Nat))
      (bestTime : Option ℚ) (res : List (CrashEvent × Nat) × Option ℚ),
      (∀ b, bct = some b → ∀ c ∈ best, c.1.time < b + eps) →
      crashScan g lt bct ms best bestTime = Except.ok res →
      (∀ b, bct = some b → ∀ c ∈ res.1, c.1.time < b + eps) := by
  intro ms
  induction ms with
  | nil =>
    intro best bestTime res hb h
    simp only [crashScan, pure, Except.pure] at h
    injection h with h
    subst h
    exact hb
  | cons im rest ih =>
    intro best bestTime res hb h
    obtain ⟨i, m⟩ := im
    simp only [crashScan] at h
    by_cases hfr : equivV2 (g.vertices.getD m.head dummyVertex).velocity Vec2.zero eps
    · rw [if_pos hfr] at h
      exact ih _ _ _ hb h
    · rw [if_neg hfr] at h
      by_cases hit : (g.vertices.getD m.head dummyVertex).initialTime ≠ 0
      · rw [if_pos hit] at h
        exact Except.noConfusion h
      · rw [if_neg hit] at h
        cases hct : calculateCrashTime g (g.vertices.getD m.head dummyVertex) with
        | none =>
          simp only [hct] at h
          exact ih _ _ _ hb h
        | some ce =>
          simp only [hct] at h
          by_cases h0 : ce.time < 0
          · rw [if_pos h0] at h
            exact ih _ _ _ hb h
          · rw [if_neg h0] at h
            by_cases h1 : ce.time < lt
            · rw [if_pos h1] at h
              exact Except.noConfusion h
            · rw [if_neg h1] at h
              split at h
              next hwc =>
                have hwithin : ∀ b, bct = some b → ce.time < b + eps := by
                  intro b hbb
                  subst hbb
                  simpa using hwc
                split at h
                · refine ih _ _ _ ?_ h
                  intro b hbb c hc
                  simp at hc
                  rw [hc]
                  exact hwithin b hbb
                · rename_i bt
                  by_cases h2 : ce.time < bt - eps
                  · rw [if_pos h2] at h
                    refine ih _ _ _ ?_ h
                    intro b hbb c hc
                    simp at hc
                    rw [hc]
                    exact hwithin b hbb
                  · rw [if_neg h2] at h
                    by_cases h3 : ce.time < bt + eps
                    · rw [if_pos h3] at h
                      refine ih _ _ _ ?_ h
                      intro b hbb c hc
                      rw [List.mem_append] at hc
                      rcases hc with hc | hc
                      · exact hb b hbb c hc
                      · simp at hc
                        rw [hc]
                        exact hwithin b hbb
                    · rw [if_neg h3] at h
                      exact ih _ _ _ hb h
              next hwc =>
                exact ih _ _ _ hb h

/-- A nonempty crash-candidate set always carries a best crash time. -/
theorem crashScan_some (g : Graph) (lt : ℚ) (bct : Option ℚ) :
    ∀ (ms : List (Nat × MotorcycleSegment)) (best : List (CrashEvent × Nat))
      (bestTime : Option ℚ) (res : List (CrashEvent × Nat) × Option ℚ),
      (best ≠ [] → bestTime.isSome) →
      crashScan g lt bct ms best bestTime = Except.ok res →
      (res.1 ≠ [] → res.2.isSome) := by
  intro ms
  induction ms with
  | nil =>
    intro best bestTime res hb h
    simp only [crashScan, pure, Except.pure] at h
    injection h with h
    subst h
    exact hb
  | cons im rest ih =>
    intro best bestTime res hb h
    obtain ⟨i, m⟩ := im
    simp only [crashScan] at h
    by_cases hfr : equivV2 (g.vertices.getD m.head dummyVertex).velocity Vec2.zero eps
    · rw [if_pos hfr] at h
      exact ih _ _ _ hb h
    · rw [if_neg hfr] at h
      by_cases hit : (g.vertices.getD m.head dummyVertex).initialTime ≠ 0
      · rw [if_pos hit] at h
        exact Except.noConfusion h
      · rw [if_neg hit] at h
        cases hct : calculateCrashTime g (g.vertices.getD m.head dummyVertex) with
        | none =>
          simp only [hct] at h
          exact ih _ _ _ hb h
        | some ce =>
          simp only [hct] at h
          by_cases h0 : ce.time < 0
          · rw [if_pos h0] at h
            exact ih _ _ _ hb h
          · rw [if_neg h0] at h
            by_cases h1 : ce.time < lt
            · rw [if_pos h1] at h
              exact Except.noConfusion h
            · rw [if_neg h1] at h
              split at h
              next hwc =>
                split at h
                · exact ih _ _ _ (fun _ => Option.isSome_some) h
                · rename_i bt
                  by_cases h2 : ce.time < bt - eps
                  · rw [if_pos h2] at h
                    exact ih _ _ _ (fun _ => Option.isSome_some) h
                  · rw [if_neg h2] at h
                    by_cases h3 : ce.time < bt + eps
                    · rw [if_pos h3] at h
                      exact ih _ _ _ (fun _ => Option.isSome_some) h
                    · rw [if_neg h3] at h
                      exact ih _ _ _ hb h
              next hwc =>
                exact ih _ _ _ hb h

/-- C4.  Tie-break policy of the event loop: whenever the crash-candidate set
is nonempty (every member of which is strictly earlier than
`bestCollapseTime + eps`), the iteration processes no collapse; the tied set
of crashes within epsilon of the earliest crash is formed, and if it contains
exactly one crash the iteration is exactly the processing of that single
crash, while any other size fails the `bestMotorcycleCrash.size() == 1`
assertion (fails loudly) rather than silently dropping events. -/
theorem crash_tie_break (g : Graph) (skel : Skeleton) (lt : ℚ) (mt : Option ℚ)
    (bc : List (ℚ × Nat)) (bct : Option ℚ) (crs : List (CrashEvent × Nat)) (crt : Option ℚ)
    (hbc : computeBestCollapse g lt = Except.ok (bc, bct))
    (hcr : computeBestCrashes g lt bct = Except.ok (crs, crt))
    (hne : crs ≠ []) :
    (∀ b, bct = some b → ∀ c ∈ crs, c.1.time < b + eps) ∧
    (∃ b, crt = some b) ∧
    (∀ b, crt = some b →
      (match mt with | none => True | some m => b ≤ m) →
      ((∀ single, crs.filter (fun e => decide (e.1.time < b + eps)) = [single] →
        skeletonStep g skel lt mt =
          (processCrash g skel single.1 single.2).map
            (fun r => StepResult.next r.1 r.2.1 r.2.2)) ∧
       ((crs.filter (fun e => decide (e.1.time < b + eps))).length ≠ 1 →
        skeletonStep g skel lt mt = Except.error SSError.multipleCrashes))) := by
  refine ⟨?_, ?_, ?_⟩
  · exact crashScan_within g lt bct _ _ _ _ (by simp) hcr
  · have := crashScan_some g lt bct _ _ _ _ (by simp) hcr hne
    exact Option.isSome_iff_exists.mp this
  · intro b hb hmax
    subst hb
    constructor
    · intro single hf
      simp only [skeletonStep, bind, Except.bind, hbc, hcr]
      rw [if_pos hne]
      split
      next hovT =>
        exfalso
        cases mt with
        | none => simp at hovT
        | some m =>
          simp only [decide_eq_true_eq] at hovT
          exact absurd hovT (not_lt.mpr hmax)
      next hovF =>
        simp only [hf]
        cases hpc : processCrash g skel single.1 single.2 with
        | error e => simp [Except.map]
        | ok r => simp [Except.map]; rfl
    · intro hlen
      simp only [skeletonStep, bind, Except.bind, hbc, hcr]
      rw [if_pos hne]
      split
      next hovT =>
        exfalso
        cases mt with
        | none => simp at hovT
        | some m =>
          simp only [decide_eq_true_eq] at hovT
          exact absurd hovT (not_lt.mpr hmax)
      next hovF =>
        cases hfq : crs.filter (fun e => decide (e.1.time < b + eps)) with
        | nil => simp only [hfq]; rfl
        | cons a tl =>
          cases tl with
          | nil =>
            rw [hfq] at hlen
            simp at hlen
          | cons a2 tl2 => simp only [hfq]; rfl

/-- Witness for C4: in the first iteration of the L-shape run the single
motorcycle crash (time 1/2 against edge 5) pre-empts the two tied edge
collapses at time 1/2, and the step is exactly that crash processing. -/
theorem crash_tie_break_witness :
    ((⟨1 / 2, 5⟩ : CrashEvent), 0).1.time < 1 / 2 + eps ∧
    skeletonStep lGraph lSkel0 0 none =
      (processCrash lGraph lSkel0 ⟨1 / 2, 5⟩ 0).map
        (fun r => StepResult.next r.1 r.2.1 r.2.2) := by
  have h := crash_tie_break lGraph lSkel0 0 none [(1 / 2, 1), (1 / 2, 4)] (some (1 / 2))
    [(⟨1 / 2, 5⟩, 0)] (some (1 / 2))
    (by with_unfolding_all decide) (by with_unfolding_all decide) (by simp)
  constructor
  · exact h.1 (1 / 2) rfl ((⟨1 / 2, 5⟩ : CrashEvent), 0) (by simp)
  · exact (h.2.2 (1 / 2) rfl trivial).1 ((⟨1 / 2, 5⟩ : CrashEvent), 0)
      (by with_unfolding_all decide)

theorem addUnique_mem (l : List SkelEdge) (e : SkelEdge) (l' : List SkelEdge)
    (h : addUnique l e = Except.ok l') : ∀ x ∈ l', x ∈ l ∨ x = e := by
  simp only [addUnique] at h
  cases hf : l.find? (fun x => x.head == e.head && x.tail == e.tail) with
  | none =>
    simp only [hf, pure, Except.pure] at h
    injection h with h
    subst h
    intro x hx
    rw [List.mem_append] at hx
    rcases hx with hx | hx
    · exact Or.inl hx
    · simp at hx
      exact Or.inr hx
  | some ex =>
    simp only [hf] at h
    split at h
    · injection h with h
      subst h
      intro x hx
      exact Or.inl hx
    · exact Except.noConfusion h

theorem addUnique_keys (l : List SkelEdge) (e : SkelEdge) (l' : List SkelEdge)
    (h : addUnique l e = Except.ok l') (hk : keysUnique l) : keysUnique l' := by
  simp only [addUnique] at h
  cases hf : l.find? (fun x => x.head == e.head && x.tail == e.tail) with
  | none =>
    simp only [hf, pure, Except.pure] at h
    injection h with h
    subst h
    simp only [keysUnique, List.map_append, List.map_cons, List.map_nil]
    rw [List.nodup_append]
    refine ⟨hk, List.nodup_singleton _, ?_⟩
    intro k hkmem
    simp only [List.mem_map] at hkmem
    obtain ⟨x, hx, hxe⟩ := hkmem
    have hnf := List.find?_eq_none.mp hf x hx
    simp only [Bool.and_eq_true, beq_iff_eq, not_and] at hnf
    simp only [List.mem_singleton]
    intro hke
    rw [hke] at hxe
    injection hxe with h1 h2
    exact hnf h1 h2
  | some ex =>
    simp only [hf] at h
    split at h
    · injection h with h
      subst h
      exact hk
    · exact Except.noConfusion h

theorem addUnique_existing_same (l : List SkelEdge) (e ex : SkelEdge)
    (hf : l.find? (fun x => x.head == e.head && x.tail == e.tail) = some ex)
    (hty : ex.type = e.type) : addUnique l e = Except.ok l := by
  simp only [addUnique, hf]
  rw [if_pos hty]
  rfl

theorem addUnique_existing_mismatch (l : List SkelEdge) (e ex : SkelEdge)
    (hf : l.find? (fun x => x.head == e.head && x.tail == e.tail) = some ex)
    (hty : ex.type ≠ e.type) :
    addUnique l e = Except.error SSError.addUniqueTypeMismatch := by
  simp only [addUnique, hf]
  rw [if_neg hty]
  rfl

theorem getD_face_inv (sk : Skeleton) (i : Nat) (hinv : SkeletonInv sk) :
    (∀ x ∈ (sk.faces.getD i ⟨[]⟩).edges, x.head ≠ x.tail) ∧
    keysUnique (sk.faces.getD i ⟨[]⟩).edges := by
  by_cases hi : i < sk.faces.length
  · have hmem : sk.faces.getD i ⟨[]⟩ ∈ sk.faces := by
      rw [List.getD_eq_getElem _ _ hi]
      exact List.getElem_mem hi
    exact hinv.1 _ hmem
  · rw [List.getD_eq_default _ _ (not_lt.mp hi)]
    exact ⟨by intro x hx; simp at hx, by simp [keysUnique]⟩

theorem inv_face_update (sk : Skeleton) (i : Nat) (e : SkelEdge) (es : List SkelEdge)
    (h : addUnique (sk.faces.getD i ⟨[]⟩).edges e = Except.ok es)
    (hinv : SkeletonInv sk) (hnd : e.head ≠ e.tail) :
    SkeletonInv { sk with faces := sk.faces.set i ⟨es⟩ } := by
  obtain ⟨hfaces, hunp, hunk⟩ := hinv
  refine ⟨?_, hunp, hunk⟩
  intro f hf
  rcases List.mem_or_eq_of_mem_set hf with hf | hf
  · exact hfaces f hf
  · subst hf
    have hbase := getD_face_inv sk i ⟨hfaces, hunp, hunk⟩
    constructor
    · intro x hx
      rcases addUnique_mem _ _ _ h x hx with hx | hx
      · exact hbase.1 x hx
      · subst hx
        exact hnd
    · exact addUnique_keys _ _ _ h hbase.2

theorem inv_unplaced_update (sk : Skeleton) (e : SkelEdge) (es : List SkelEdge)
    (h : addUnique sk.unplacedEdges e = Except.ok es)
    (hinv : SkeletonInv sk) (hnd : e.head ≠ e.tail) :
    SkeletonInv { sk with unplacedEdges := es } := by
  obtain ⟨hfaces, hunp, hunk⟩ := hinv
  refine ⟨hfaces, ?_, addUnique_keys _ _ _ h hunk⟩
  intro x hx
  rcases addUnique_mem _ _ _ h x hx with hx | hx
  · exact hunp x hx
  · subst hx
    exact hnd

theorem addEdge_inv (sk : Skeleton) (hv tv l r : Nat) (ty : EdgeType) (sk' : Skeleton)
    (h : addEdge sk hv tv l r ty = Except.ok sk') (hinv : SkeletonInv sk) :
    SkeletonInv sk' := by
  simp only [addEdge] at h
  by_cases hvt : hv = tv
  · rw [if_pos hvt] at h
    injection h with h
    subst h
    exact hinv
  · rw [if_neg hvt] at h
    simp only [bind, Except.bind] at h
    have hnd1 : (⟨hv, tv, ty⟩ : SkelEdge).head ≠ (⟨hv, tv, ty⟩ : SkelEdge).tail := hvt
    have hnd2 : (⟨tv, hv, ty⟩ : SkelEdge).head ≠ (⟨tv, hv, ty⟩ : SkelEdge).tail :=
      fun hh => hvt hh.symm
    by_cases hr : r ≠ UINT32MAX
    · rw [if_pos hr] at h
      cases hau : addUnique (sk.faces.getD r ⟨[]⟩).edges ⟨hv, tv, ty⟩ with
      | error e => simp only [hau] at h; exact Except.noConfusion h
      | ok es =>
        simp only [hau, pure, Except.pure] at h
        have hinv1 := inv_face_update sk r _ _ hau hinv hnd1
        set sk1 : Skeleton := { sk with faces := sk.faces.set r ⟨es⟩ } with hsk1
        by_cases hl : l ≠ UINT32MAX
        · rw [if_pos hl] at h
          cases hau2 : addUnique (sk1.faces.getD l ⟨[]⟩).edges ⟨tv, hv, ty⟩ with
          | error e => simp only [hau2] at h; exact Except.noConfusion h
          | ok es2 =>
            simp only [hau2, pure, Except.pure] at h
            injection h with h
            subst h
            exact inv_face_update sk1 l _ _ hau2 hinv1 hnd2
        · rw [if_neg hl] at h
          cases hau2 : addUnique sk1.unplacedEdges ⟨tv, hv, ty⟩ with
          | error e => simp only [hau2] at h; exact Except.noConfusion h
          | ok es2 =>
            simp only [hau2, pure, Except.pure] at h
            injection h with h
            subst h
            exact inv_unplaced_update sk1 _ _ hau2 hinv1 hnd2
    · rw [if_neg hr] at h
      cases hau : addUnique sk.unplacedEdges ⟨hv, tv, ty⟩ with
      | error e => simp only [hau] at h; exact Except.noConfusion h
      | ok es =>
        simp only [hau, pure, Except.pure] at h
        have hinv1 := inv_unplaced_update sk _ _ hau hinv hnd1
        set sk1 : Skeleton := { sk with unplacedEdges := es } with hsk1
        by_cases hl : l ≠ UINT32MAX
        · rw [if_pos hl] at h
          cases hau2 : addUnique (sk1.faces.getD l ⟨[]⟩).edges ⟨tv, hv, ty⟩ with
          | error e => simp only [hau2] at h; exact Except.noConfusion h
          | ok es2 =>
            simp only [hau2, pure, Except.pure] at h
            injection h with h
            subst h
            exact inv_face_update sk1 l _ _ hau2 hinv1 hnd2
        · rw [if_neg hl] at h
          cases hau2 : addUnique sk1.unplacedEdges ⟨tv, hv, ty⟩ with
          | error e => simp only [hau2] at h; exact Except.noConfusion h
          | ok es2 =>
            simp only [hau2, pure, Except.pure] at h
            injection h with h
            subst h
            exact inv_unplaced_update sk1 _ _ hau2 hinv1 hnd2

theorem except_bind_ok {ε α β : Type} {x : Except ε α} {f : α → Except ε β} {b : β}
    (h : x.bind f = Except.ok b) : ∃ a, x = Except.ok a ∧ f a = Except.ok b := by
  cases x with
  | error e => exact absurd h (by simp [Except.bind])
  | ok a => exact ⟨a, rfl, by simpa [Except.bind] using h⟩

theorem inv_of_fields {s s' : Skeleton} (hf : s'.faces = s.faces)
    (hu : s'.unplacedEdges = s.unplacedEdges) (hinv : SkeletonInv s) : SkeletonInv s' := by
  unfold SkeletonInv
  rw [hf, hu]
  exact hinv

theorem addSteinerVertex_fields (sk : Skeleton) (vtx : Vec3) (p : Nat × Skeleton)
    (h : addSteinerVertex sk vtx = Except.ok p) :
    p.2.faces = sk.faces ∧ p.2.unplacedEdges = sk.unplacedEdges := by
  simp only [addSteinerVertex] at h
  split at h
  · exact Except.noConfusion h
  · split at h
    · simp only [pure, Except.pure] at h
      injection h with h
      rw [← h]
      exact ⟨rfl, rfl⟩
    · split at h
      · exact Except.noConfusion h
      · simp only [pure, Except.pure] at h
        injection h with h
        rw [← h]
        exact ⟨rfl, rfl⟩

theorem addEdgeForVertexPath_inv (g : Graph) (sk : Skeleton) (v fid : Nat) (sk' : Skeleton)
    (h : addEdgeForVertexPath g sk v fid = Except.ok sk') (hinv : SkeletonInv sk) :
    SkeletonInv sk' := by
  simp only [addEdgeForVertexPath] at h
  obtain ⟨io, hio, h⟩ := except_bind_ok h
  split at h
  · obtain ⟨d1, hd1, h⟩ := except_bind_ok h
    have hinv1 : SkeletonInv d1 := by
      split at hd1
      · exact addEdge_inv _ _ _ _ _ _ _ hd1 hinv
      · simp only [pure, Except.pure] at hd1
        injection hd1 with hd1
        rw [← hd1]
        exact hinv
    exact addEdge_inv _ _ _ _ _ _ _ h hinv1
  · obtain ⟨p, hp, h⟩ := except_bind_ok h
    obtain ⟨nid, dst⟩ := p
    have hf := addSteinerVertex_fields _ _ _ hp
    exact addEdge_inv _ _ _ _ _ _ _ h (inv_of_fields hf.1 hf.2 hinv)

theorem crashToutSide_inv (g : Graph) (sk : Skeleton) (motor : MotorcycleSegment)
    (cs : Segment) (cp : Vec2) (cps : Nat) (ct : ℚ) (res : Graph × Skeleton)
    (h : crashToutSide g sk motor cs cp cps ct = Except.ok res) (hinv : SkeletonInv sk) :
    SkeletonInv res.2 := by
  simp only [crashToutSide] at h
  obtain ⟨io, hio, h⟩ := except_bind_ok h
  split at h
  · exact Except.noConfusion h
  · split at h
    · split at h
      · exact Except.noConfusion h
      · obtain ⟨u, hu, h⟩ := except_bind_ok h
        obtain ⟨p, hp, h⟩ := except_bind_ok h
        obtain ⟨sk2, h2, h⟩ := except_bind_ok h
        obtain ⟨sk3, h3, h⟩ := except_bind_ok h
        obtain ⟨sk4, h4, h⟩ := except_bind_ok h
        have hres := Except.ok.inj h
        rw [← hres]
        have hf := addSteinerVertex_fields _ _ _ hp
        have i1 := inv_of_fields hf.1 hf.2 hinv
        have i2 := addEdge_inv _ _ _ _ _ _ _ h2 i1
        have i3 := addEdgeForVertexPath_inv _ _ _ _ _ h3 i2
        exact addEdgeForVertexPath_inv _ _ _ _ _ h4 i3
    · obtain ⟨vel, hv, h⟩ := except_bind_ok h
      have hres := Except.ok.inj h
      rw [← hres]
      exact hinv

theorem crashTinSide_inv (g : Graph) (sk : Skeleton) (motor : MotorcycleSegment)
    (cs : Segment) (cp : Vec2) (cps : Nat) (ct : ℚ) (res : Graph × Skeleton)
    (h : crashTinSide g sk motor cs cp cps ct = Except.ok res) (hinv : SkeletonInv sk) :
    SkeletonInv res.2 := by
  simp only [crashTinSide] at h
  obtain ⟨io, hio, h⟩ := except_bind_ok h
  split at h
  · exact Except.noConfusion h
  · split at h
    · split at h
      · exact Except.noConfusion h
      · obtain ⟨u, hu, h⟩ := except_bind_ok h
        obtain ⟨p, hp, h⟩ := except_bind_ok h
        obtain ⟨sk2, h2, h⟩ := except_bind_ok h
        obtain ⟨sk3, h3, h⟩ := except_bind_ok h
        obtain ⟨sk4, h4, h⟩ := except_bind_ok h
        have hres := Except.ok.inj h
        rw [← hres]
        have hf := addSteinerVertex_fields _ _ _ hp
        have i1 := inv_of_fields hf.1 hf.2 hinv
        have i2 := addEdge_inv _ _ _ _ _ _ _ h2 i1
        have i3 := addEdgeForVertexPath_inv _ _ _ _ _ h3 i2
        exact addEdgeForVertexPath_inv _ _ _ _ _ h4 i3
    · obtain ⟨vel, hv, h⟩ := except_bind_ok h
      have hres := Except.ok.inj h
      rw [← hres]
      exact hinv

theorem processCrash_inv (g : Graph) (sk : Skeleton) (ce : CrashEvent) (mi : Nat)
    (res : Graph × Skeleton × ℚ)
    (h : processCrash g sk ce mi = Except.ok res) (hinv : SkeletonInv sk) :
    SkeletonInv res.2.1 := by
  simp only [processCrash] at h
  split at h
  · exact Except.noConfusion h
  · obtain ⟨u, hu, h⟩ := except_bind_ok h
    obtain ⟨p, hp, h⟩ := except_bind_ok h
    obtain ⟨q1, h1, h⟩ := except_bind_ok h
    obtain ⟨q2, h2, h⟩ := except_bind_ok h
    split at h
    · exact Except.noConfusion h
    · obtain ⟨u2, hu2, h⟩ := except_bind_ok h
      obtain ⟨sk4, h4, h⟩ := except_bind_ok h
      obtain ⟨fv, hfv, h⟩ := except_bind_ok h
      have hres := Except.ok.inj h
      rw [← hres]
      have hf := addSteinerVertex_fields _ _ _ hp
      have i1 := inv_of_fields hf.1 hf.2 hinv
      have i2 := crashToutSide_inv _ _ _ _ _ _ _ _ h1 i1
      have i3 := crashTinSide_inv _ _ _ _ _ _ _ _ h2 i2
      exact addEdge_inv _ _ _ _ _ _ _ h4 i3

theorem collapseGroupEmit_inv (groups : List Nat) (bc : List (ℚ × Nat)) (cg cv : Nat)
    (t : ℚ) (l : List Nat) : ∀ (g : Graph) (sk : Skeleton) (res : Graph × Skeleton),
    collapseGroupEmit groups bc cg cv t l g sk = Except.ok res → SkeletonInv sk →
    SkeletonInv res.2 := by
  induction l with
  | nil =>
    intro g sk res h hinv
    simp only [collapseGroupEmit] at h
    have hres := Except.ok.inj h
    rw [← hres]
    exact hinv
  | cons c rest ih =>
    intro g sk res h hinv
    simp only [collapseGroupEmit] at h
    split at h
    · exact ih _ _ _ h hinv
    · obtain ⟨sk1, h1, h⟩ := except_bind_ok h
      obtain ⟨sk2, h2, h⟩ := except_bind_ok h
      obtain ⟨ft, hft, h⟩ := except_bind_ok h
      obtain ⟨fh, hfh, h⟩ := except_bind_ok h
      have i1 := addEdgeForVertexPath_inv _ _ _ _ _ h1 hinv
      have i2 := addEdgeForVertexPath_inv _ _ _ _ _ h2 i1
      exact ih _ _ _ h i2

theorem processCollapseGroups_inv (groups : List Nat) (bc : List (ℚ × Nat)) (t : ℚ)
    (l : List Nat) : ∀ (g : Graph) (sk : Skeleton) (infos : List CollapseGroupInfo)
    (res : Graph × Skeleton × List CollapseGroupInfo),
    processCollapseGroups groups bc t l g sk infos = Except.ok res → SkeletonInv sk →
    SkeletonInv res.2.1 := by
  induction l with
  | nil =>
    intro g sk infos res h hinv
    simp only [processCollapseGroups] at h
    have hres := Except.ok.inj h
    rw [← hres]
    exact hinv
  | cons cg rest ih =>
    intro g sk infos res h hinv
    simp only [processCollapseGroups] at h
    obtain ⟨p, hp, h⟩ := except_bind_ok h
    obtain ⟨u, hu, h⟩ := except_bind_ok h
    obtain ⟨q, hq, h⟩ := except_bind_ok h
    obtain ⟨r2, hr2, h⟩ := except_bind_ok h
    have hf := addSteinerVertex_fields _ _ _ hq
    have i1 := inv_of_fields hf.1 hf.2 hinv
    have i2 := collapseGroupEmit_inv _ _ _ _ _ _ _ _ _ hr2 i1
    exact ih _ _ _ _ h i2

theorem processCollapse_inv (g : Graph) (sk : Skeleton) (bc : List (ℚ × Nat)) (t : ℚ)
    (res : Graph × Skeleton × ℚ)
    (h : processCollapse g sk bc t = Except.ok res) (hinv : SkeletonInv sk) :
    SkeletonInv res.2.1 := by
  simp only [processCollapse] at h
  obtain ⟨p, hp, h⟩ := except_bind_ok h
  obtain ⟨q, hq, h⟩ := except_bind_ok h
  obtain ⟨g2, hg2, h⟩ := except_bind_ok h
  have hres := Except.ok.inj h
  rw [← hres]
  exact processCollapseGroups_inv _ _ _ _ _ _ _ _ hq hinv

theorem skeletonStep_inv (g : Graph) (sk : Skeleton) (lt : ℚ) (mt : Option ℚ)
    (r : StepResult) (h : skeletonStep g sk lt mt = Except.ok r) (hinv : SkeletonInv sk) :
    SkeletonInv r.skel := by
  simp only [skeletonStep] at h
  obtain ⟨p, hp, h⟩ := except_bind_ok h
  obtain ⟨q, hq, h⟩ := except_bind_ok h
  split at h
  · split at h
    · have hres := Except.ok.inj h
      rw [← hres]
      exact hinv
    · split at h
      all_goals try exact Except.noConfusion h
      obtain ⟨w, hw, h⟩ := except_bind_ok h
      have hres := Except.ok.inj h
      rw [← hres]
      exact processCrash_inv _ _ _ _ _ hw hinv
  · split at h
    all_goals try (have hres := Except.ok.inj h; rw [← hres]; exact hinv)
    split at h
    · have hres := Except.ok.inj h
      rw [← hres]
      exact hinv
    · obtain ⟨w, hw, h⟩ := except_bind_ok h
      have hres := Except.ok.inj h
      rw [← hres]
      exact processCollapse_inv _ _ _ _ _ hw hinv

theorem skeletonLoop_inv (fuel : Nat) : ∀ (g : Graph) (sk : Skeleton) (lt : ℚ)
    (mt : Option ℚ) (res : Graph × Skeleton × ℚ),
    skeletonLoop fuel g sk lt mt = Except.ok res → SkeletonInv sk → SkeletonInv res.2.1 := by
  induction fuel with
  | zero =>
    intro g sk lt mt res h hinv
    exact Except.noConfusion h
  | succ n ih =>
    intro g sk lt mt res h hinv
    simp only [skeletonLoop] at h
    obtain ⟨r, hr, h⟩ := except_bind_ok h
    have hstep := skeletonStep_inv _ _ _ _ _ hr hinv
    cases r with
    | finished g2 s2 t2 =>
      have hres := Except.ok.inj h
      rw [← hres]
      exact hstep
    | next g2 s2 t2 => exact ih _ _ _ _ _ h hstep

theorem wwInitSegs_inv (g : Graph) (t : ℚ) (l : List Segment) :
    ∀ (sk : Skeleton) (acc : List Segment) (res : Skeleton × List Segment),
    wwInitSegs g t l sk acc = Except.ok res → SkeletonInv sk → SkeletonInv res.1 := by
  induction l with
  | nil =>
    intro sk acc res h hinv
    simp only [wwInitSegs] at h
    have hres := Except.ok.inj h
    rw [← hres]
    exact hinv
  | cons e rest ih =>
    intro sk acc res h hinv
    simp only [wwInitSegs] at h
    obtain ⟨p, hp, h⟩ := except_bind_ok h
    obtain ⟨q, hq, h⟩ := except_bind_ok h
    have hf1 := addSteinerVertex_fields _ _ _ hp
    have hf2 := addSteinerVertex_fields _ _ _ hq
    have i2 := inv_of_fields hf2.1 hf2.2 (inv_of_fields hf1.1 hf1.2 hinv)
    split at h
    · exact ih _ _ _ h i2
    · exact ih _ _ _ h i2

theorem wwEmitSegs_inv (l : List Segment) : ∀ (sk : Skeleton) (res : Skeleton),
    wwEmitSegs l sk = Except.ok res → SkeletonInv sk → SkeletonInv res := by
  induction l with
  | nil =>
    intro sk res h hinv
    simp only [wwEmitSegs] at h
    have hres := Except.ok.inj h
    rw [← hres]
    exact hinv
  | cons seg rest ih =>
    intro sk res h hinv
    simp only [wwEmitSegs] at h
    split at h
    · exact Except.noConfusion h
    · obtain ⟨u, hu, h⟩ := except_bind_ok h
      obtain ⟨sk1, h1, h⟩ := except_bind_ok h
      exact ih _ _ h (addEdge_inv _ _ _ _ _ _ _ h1 hinv)

theorem wwVertexPaths_inv (g : Graph) (t : ℚ) (l : List Segment) :
    ∀ (sk : Skeleton) (res : Skeleton),
    wwVertexPaths g t l sk = Except.ok res → SkeletonInv sk → SkeletonInv res := by
  induction l with
  | nil =>
    intro sk res h hinv
    simp only [wwVertexPaths] at h
    have hres := Except.ok.inj h
    rw [← hres]
    exact hinv
  | cons seg rest ih =>
    intro sk res h hinv
    simp only [wwVertexPaths] at h
    obtain ⟨p, hp, h⟩ := except_bind_ok h
    obtain ⟨sk1, h1, h⟩ := except_bind_ok h
    obtain ⟨q, hq, h⟩ := except_bind_ok h
    obtain ⟨sk2, h2, h⟩ := except_bind_ok h
    have hf1 := addSteinerVertex_fields _ _ _ hp
    have i1 := addEdgeForVertexPath_inv _ _ _ _ _ h1 (inv_of_fields hf1.1 hf1.2 hinv)
    have hf2 := addSteinerVertex_fields _ _ _ hq
    have i3 := addEdgeForVertexPath_inv _ _ _ _ _ h2 (inv_of_fields hf2.1 hf2.2 i1)
    exact ih _ _ h i3

theorem writeWavefront_inv (g : Graph) (sk : Skeleton) (t : ℚ) (fuel : Nat) (res : Skeleton)
    (h : writeWavefront g sk t fuel = Except.ok res) (hinv : SkeletonInv sk) :
    SkeletonInv res := by
  simp only [writeWavefront] at h
  obtain ⟨p, hp, h⟩ := except_bind_ok h
  obtain ⟨f, hf, h⟩ := except_bind_ok h
  obtain ⟨sk1, h1, h⟩ := except_bind_ok h
  have i1 := wwInitSegs_inv _ _ _ _ _ _ hp hinv
  have i2 := wwEmitSegs_inv _ _ _ h1 i1
  exact wwVertexPaths_inv _ _ _ _ _ h i2

theorem skeletonInv_init (n : Nat) :
    SkeletonInv ⟨[], List.replicate n ⟨[]⟩, []⟩ := by
  refine ⟨?_, ?_, ?_⟩
  · intro f hf
    have hf' : f = ⟨[]⟩ := List.eq_of_mem_replicate hf
    rw [hf']
    exact ⟨fun e he => absurd he (List.not_mem_nil e), List.nodup_nil⟩
  · intro e he
    exact absurd he (List.not_mem_nil e)
  · exact List.nodup_nil

theorem calculateSkeleton_inv (g : Graph) (mt : Option ℚ) (fuel : Nat) (res : Skeleton)
    (h : Graph.calculateSkeleton g mt fuel = Except.ok res) : SkeletonInv res := by
  simp only [Graph.calculateSkeleton] at h
  obtain ⟨p, hp, h⟩ := except_bind_ok h
  have i1 := skeletonLoop_inv _ _ _ _ _ _ hp (skeletonInv_init _)
  exact writeWavefront_inv _ _ _ _ _ h i1

theorem calculateStraightSkeleton_inv (pts : List Vec2) (mi : Option ℚ) (fuel : Nat)
    (res : Skeleton) (h : calculateStraightSkeleton pts mi fuel = Except.ok res) :
    SkeletonInv res := by
  simp only [calculateStraightSkeleton] at h
  obtain ⟨g, hg, h⟩ := except_bind_ok h
  exact calculateSkeleton_inv _ _ _ _ h

theorem isFrozen_equiv (v : Vertex) (h : isFrozen v = true) :
    equivV2 v.velocity Vec2.zero eps = true := by
  simp only [isFrozen, equivV2, equivQ, Bool.and_eq_true, decide_eq_true_eq] at h ⊢
  obtain ⟨⟨h1, h2⟩, h3, h4⟩ := h
  have heps : (0 : ℚ) ≤ eps := by norm_num [eps]
  exact ⟨⟨le_trans h1 heps, le_trans h2 heps⟩, le_trans h3 heps, le_trans h4 heps⟩

theorem freezeInPlace_ok (v : Vertex) (t : ℚ) (fv : Vertex)
    (h : freezeInPlace v t = Except.ok fv) :
    fv.velocity = Vec2.zero ∧ isFrozen fv = true ∧ fv.skeletonVertexId = UINT32MAX ∧
    fv.initialTime = t ∧ fv.position = positionAtTime v t := by
  simp only [freezeInPlace] at h
  split at h
  · exact Except.noConfusion h
  · have hres := Except.ok.inj h
    rw [← hres]
    refine ⟨rfl, ?_, rfl, rfl, rfl⟩
    show equivV2 Vec2.zero Vec2.zero 0 = true
    with_unfolding_all decide

theorem calculateCollapseTime_frozen (v0 v1 : Vertex) (h : isFrozen v0 = true) :
    calculateCollapseTime v0 v1 = none ∧ calculateCollapseTime v1 v0 = none := by
  have he := isFrozen_equiv v0 h
  constructor
  · simp only [calculateCollapseTime]
    rw [if_pos he]
  · simp only [calculateCollapseTime]
    by_cases h1 : equivV2 v1.velocity Vec2.zero eps = true
    · rw [if_pos h1]
    · rw [if_neg h1, if_pos he]

theorem crashScan_skips_frozen (g : Graph) (lt : ℚ) (bct : Option ℚ) (i : Nat)
    (m : MotorcycleSegment) (rest : List (Nat × MotorcycleSegment))
    (best : List (CrashEvent × Nat)) (bt : Option ℚ)
    (h : isFrozen (g.vertices.getD m.head dummyVertex) = true) :
    crashScan g lt bct ((i, m) :: rest) best bt = crashScan g lt bct rest best bt := by
  simp only [crashScan]
  rw [if_pos (isFrozen_equiv _ h)]

/-- C7 (counterexample to the original claim): `FreezeInPlace` does not retain
the frozen vertex's skeleton-vertex id; it overwrites it with the invalid
marker `~0u`.  A vertex with skeleton-vertex id `5` frozen at time `1` comes
back with id `UINT32MAX ≠ 5`. -/
theorem frozen_vertex_id_not_retained :
    (freezeInPlace ⟨⟨0, 0⟩, 5, 0, ⟨1, 1⟩⟩ 1).map (fun fv => fv.skeletonVertexId) =
      Except.ok UINT32MAX ∧ UINT32MAX ≠ 5 := by
  with_unfolding_all decide

/-- C9: `AddEdge` with equal head and tail vertex returns without modifying the
skeleton, and consequently every edge stored in any face's edge list or in
`unplacedEdges` of any skeleton produced by `CalculateStraightSkeleton` has
head index different from tail index. -/
theorem no_degenerate_skeleton_edges :
    (∀ (sk : Skeleton) (v l r : Nat) (ty : EdgeType), addEdge sk v v l r ty = Except.ok sk) ∧
    (∀ (pts : List Vec2) (maxInset : Option ℚ) (fuel : Nat) (sk : Skeleton),
      calculateStraightSkeleton pts maxInset fuel = Except.ok sk →
      (∀ f ∈ sk.faces, ∀ e ∈ f.edges, e.head ≠ e.tail) ∧
      ∀ e ∈ sk.unplacedEdges, e.head ≠ e.tail) := by
  constructor
  · intro sk v l r ty
    simp only [addEdge]
    rw [if_pos trivial]
    rfl
  · intro pts mi fuel sk h
    have hinv := calculateStraightSkeleton_inv pts mi fuel sk h
    exact ⟨fun f hf => (hinv.1 f hf).1, hinv.2.1⟩

/-- C9 witness: the no-op at a concrete degenerate edge, and the invariant
evaluated on the unit-square run. -/
theorem no_degenerate_skeleton_edges_witness :
    addEdge sqSkel0 2 2 0 1 EdgeType.wavefront = Except.ok sqSkel0 ∧
    (calculateStraightSkeleton unitSquare none 10).map
      (fun sk => decide ((∀ f ∈ sk.faces, ∀ e ∈ f.edges, e.head ≠ e.tail) ∧
        ∀ e ∈ sk.unplacedEdges, e.head ≠ e.tail)) = Except.ok true := by
  constructor
  · exact no_degenerate_skeleton_edges.1 sqSkel0 2 0 1 EdgeType.wavefront
  · have hsome : (calculateStraightSkeleton unitSquare none 10).toOption.isSome = true := by
      with_unfolding_all decide
    cases hg : calculateStraightSkeleton unitSquare none 10 with
    | error e =>
      rw [hg] at hsome
      exact absurd hsome (by simp [Except.toOption])
    | ok sk =>
      have hprop := no_degenerate_skeleton_edges.2 unitSquare none 10 sk hg
      simp only [Except.map]
      rw [decide_eq_true hprop]

/-- C10: an insertion whose ordered (head, tail) pair already exists leaves the
list unchanged when the edge type matches and fails the assertion when it does
not; `AddUnique` preserves key-uniqueness; and every face edge list and the
unplaced bucket of any skeleton produced by `CalculateStraightSkeleton`
contains at most one edge per ordered (head, tail) pair. -/
theorem per_face_edge_uniqueness :
    (∀ (l : List SkelEdge) (e ex : SkelEdge),
      l.find? (fun x => x.head == e.head && x.tail == e.tail) = some ex →
      (ex.type = e.type → addUnique l e = Except.ok l) ∧
      (ex.type ≠ e.type → addUnique l e = Except.error SSError.addUniqueTypeMismatch)) ∧
    (∀ (l : List SkelEdge) (e : SkelEdge) (l' : List SkelEdge),
      addUnique l e = Except.ok l' → keysUnique l → keysUnique l') ∧
    (∀ (pts : List Vec2) (maxInset : Option ℚ) (fuel : Nat) (sk : Skeleton),
      calculateStraightSkeleton pts maxInset fuel = Except.ok sk →
      (∀ f ∈ sk.faces, keysUnique f.edges) ∧ keysUnique sk.unplacedEdges) := by
  refine ⟨?_, addUnique_keys, ?_⟩
  · intro l e ex hf
    exact ⟨fun hty => addUnique_existing_same l e ex hf hty,
           fun hty => addUnique_existing_mismatch l e ex hf hty⟩
  · intro pts mi fuel sk h
    have hinv := calculateStraightSkeleton_inv pts mi fuel sk h
    exact ⟨fun f hf => (hinv.1 f hf).2, hinv.2.2⟩

/-- C10 witness: duplicate insertion with matching and mismatching type at a
concrete list, key-uniqueness preservation at a concrete insertion, and the
run-level uniqueness evaluated on the unit-square run. -/
theorem per_face_edge_uniqueness_witness :
    addUnique [⟨0, 1, EdgeType.wavefront⟩] ⟨0, 1, EdgeType.wavefront⟩ =
      Except.ok [⟨0, 1, EdgeType.wavefront⟩] ∧
    addUnique [⟨0, 1, EdgeType.wavefront⟩] ⟨0, 1, EdgeType.vertexPath⟩ =
      Except.error SSError.addUniqueTypeMismatch ∧
    keysUnique [(⟨0, 1, EdgeType.wavefront⟩ : SkelEdge), ⟨1, 0, EdgeType.wavefront⟩] ∧
    (calculateStraightSkeleton unitSquare none 10).map
      (fun sk => decide ((∀ f ∈ sk.faces, keysUnique f.edges) ∧ keysUnique sk.unplacedEdges)) =
      Except.ok true := by
  refine ⟨?_, ?_, ?_, ?_⟩
  · exact (per_face_edge_uniqueness.1 [⟨0, 1, EdgeType.wavefront⟩] ⟨0, 1, EdgeType.wavefront⟩
      ⟨0, 1, EdgeType.wavefront⟩ (by with_unfolding_all rfl)).1 rfl
  · exact (per_face_edge_uniqueness.1 [⟨0, 1, EdgeType.wavefront⟩] ⟨0, 1, EdgeType.vertexPath⟩
      ⟨0, 1, EdgeType.wavefront⟩ (by with_unfolding_all rfl)).2 (by decide)
  · exact per_face_edge_uniqueness.2.1 [⟨0, 1, EdgeType.wavefront⟩] ⟨1, 0, EdgeType.wavefront⟩
      [⟨0, 1, EdgeType.wavefront⟩, ⟨1, 0, EdgeType.wavefront⟩]
      (by with_unfolding_all rfl) (by with_unfolding_all decide)
  · have hsome : (calculateStraightSkeleton unitSquare none 10).toOption.isSome = true := by
      with_unfolding_all decide
    cases hg : calculateStraightSkeleton unitSquare none 10 with
    | error e =>
      rw [hg] at hsome
      exact absurd hsome (by simp [Except.toOption])
    | ok sk =>
      have hprop := per_face_edge_uniqueness.2.2 unitSquare none 10 sk hg
      simp only [Except.map]
      rw [decide_eq_true hprop]

theorem perm_getElem_cons_eraseIdx {α : Type} [DecidableEq α] (l : List α) (i : Nat)
    (h : i < l.length) : l.Perm (l[i] :: l.eraseIdx i) :=
  (List.perm_cons_erase (l.getElem_mem h)).trans ((List.erase_getElem h).cons _)

theorem mem_dropLast_or_getLastD (l : List Nat) (hne : l ≠ []) (v : Nat) (hv : v ∈ l) :
    v ∈ l.dropLast ∨ v = l.getLastD 0 := by
  have hdec := List.dropLast_append_getLast hne
  rw [← hdec] at hv
  rcases List.mem_append.mp hv with h | h
  · exact Or.inl h
  · refine Or.inr ?_
    rw [List.getLastD_eq_getLast?, List.getLast?_eq_getLast l hne]
    simpa using h

theorem getLastD_mem (l : List Nat) (hne : l ≠ []) : l.getLastD 0 ∈ l := by
  rw [List.getLastD_eq_getLast?, List.getLast?_eq_getLast l hne]
  exact List.getLast_mem hne

theorem getLastD_pair_mem (l : List (Nat × Nat)) (hne : l ≠ []) : l.getLastD (0, 0) ∈ l := by
  rw [List.getLastD_eq_getLast?, List.getLast?_eq_getLast l hne]
  exact List.getLast_mem hne

theorem getLastD_not_mem_dropLast (l : List Nat) (hnd : l.Nodup) (hne : l ≠ []) :
    l.getLastD 0 ∉ l.dropLast := by
  have hdec := List.dropLast_append_getLast hne
  have hlast : l.getLastD 0 = l.getLast hne := by
    rw [List.getLastD_eq_getLast?, List.getLast?_eq_getLast l hne]
    rfl
  rw [hlast]
  intro hmem
  rw [← hdec] at hnd
  rcases List.nodup_append.mp hnd with ⟨_, _, hdisj⟩
  exact hdisj hmem (by simp)

theorem findHitAux_skip (searching : Nat) :
    ∀ (l : List (Nat × (Nat × Nat))) (acc : Option Nat),
    (∀ q ∈ l, q.2.1 ≠ searching) → findHitAux searching l acc = Except.ok acc := by
  intro l
  induction l with
  | nil => intro acc _; rfl
  | cons q rest ih =>
    obtain ⟨i, p⟩ := q
    intro acc h
    simp only [findHitAux]
    rw [if_neg (h (i, p) (List.mem_cons_self _ _))]
    exact ih acc (fun x hx => h x (List.mem_cons_of_mem _ hx))

theorem findHitAux_some_char (searching : Nat) :
    ∀ (l : List (Nat × (Nat × Nat))) (acc : Option Nat) (hi : Nat),
    findHitAux searching l acc = Except.ok (some hi) →
    acc = some hi ∨ ∃ p, (hi, p) ∈ l ∧ p.1 = searching := by
  intro l
  induction l with
  | nil =>
    intro acc hi h
    exact Or.inl (Except.ok.inj h)
  | cons q rest ih =>
    obtain ⟨i, p⟩ := q
    intro acc hi h
    simp only [findHitAux] at h
    split at h
    · rename_i hps
      split at h
      · exact Except.noConfusion h
      · rcases ih (some i) hi h with hacc | ⟨p', hp', hps'⟩
        · have hieq : i = hi := by injection hacc
          exact Or.inr ⟨p, by rw [← hieq]; exact List.mem_cons_self _ _, hps⟩
        · exact Or.inr ⟨p', List.mem_cons_of_mem _ hp', hps'⟩
    · rcases ih acc hi h with hacc | ⟨p', hp', hps'⟩
      · exact Or.inl hacc
      · exact Or.inr ⟨p', List.mem_cons_of_mem _ hp', hps'⟩

theorem findHit_pool (pool : List (Nat × Nat)) (searching : Nat) (hi : Nat)
    (h : findHitAux searching pool.enum none = Except.ok (some hi)) :
    ∃ hlt : hi < pool.length, (pool.getD hi (0, 0)).1 = searching := by
  rcases findHitAux_some_char searching pool.enum none hi h with hc | ⟨p, hp, hps⟩
  · exact Option.noConfusion hc
  · have hg := List.mk_mem_enum_iff_getElem?.mp hp
    have hlt : hi < pool.length := by
      by_contra hge
      rw [List.getElem?_eq_none (not_lt.mp hge)] at hg
      exact Option.noConfusion hg
    refine ⟨hlt, ?_⟩
    rw [List.getElem?_eq_getElem hlt] at hg
    have hpe : pool[hi] = p := by injection hg
    rw [List.getD_eq_getElem _ _ hlt, hpe]
    exact hps

theorem buildWorkingLoop_openchain (P0 : List (Nat × Nat))
    (hns : ∀ s ∈ P0, s.1 ≠ s.2) :
    ∀ (fuel : Nat) (pool : List (Nat × Nat)) (wl : List Nat) (loop : List Nat)
    (rest : List (Nat × Nat)),
    buildWorkingLoop fuel pool wl = Except.ok (loop, rest) →
    (∀ x ∈ pool, x ∈ P0) →
    wl ≠ [] →
    (∀ v ∈ wl.dropLast, ∃ t ∈ P0, t.1 = v) →
    (∀ x ∈ rest, x ∈ pool) ∧
    (∃ t ∈ P0, t.1 = wl.getLastD 0) ∧
    (∀ s ∈ pool, s ∈ rest ∨ ∃ t ∈ P0, t.1 = s.2 ∧ t ≠ s) := by
  intro fuel
  induction fuel with
  | zero =>
    intro pool wl loop rest h
    exact fun _ _ _ => absurd h (by simp [buildWorkingLoop])
  | succ n ih =>
    intro pool wl loop rest h hsub hwlne hwit
    simp only [buildWorkingLoop] at h
    split at h
    · exact Except.noConfusion h
    · rename_i hpne
      obtain ⟨u, hu, h⟩ := except_bind_ok h
      obtain ⟨hit, hhit, h⟩ := except_bind_ok h
      split at h
      · exact Except.noConfusion h
      · rename_i hi
        obtain ⟨hlt, hheadeq⟩ := findHit_pool pool (wl.getLastD 0) hi hhit
        have hsegmem : pool.getD hi (0, 0) ∈ pool := by
          rw [List.getD_eq_getElem _ _ hlt]
          exact pool.getElem_mem hlt
        have hsegP0 : pool.getD hi (0, 0) ∈ P0 := hsub _ hsegmem
        have hperm : pool.Perm (pool.getD hi (0, 0) :: pool.eraseIdx hi) := by
          rw [List.getD_eq_getElem _ _ hlt]
          exact perm_getElem_cons_eraseIdx pool hi hlt
        have hmemsplit : ∀ s ∈ pool, s = pool.getD hi (0, 0) ∨ s ∈ pool.eraseIdx hi := by
          intro s hs
          have := hperm.mem_iff.mp hs
          rcases List.mem_cons.mp this with h1 | h1
          · exact Or.inl h1
          · exact Or.inr h1
        have herasesub : ∀ x ∈ pool.eraseIdx hi, x ∈ pool := by
          intro x hx
          exact hperm.mem_iff.mpr (List.mem_cons_of_mem _ hx)
        split at h
        · rename_i hcont
          have hres := Except.ok.inj h
          have hloop : wl = loop := congrArg Prod.fst hres
          have hrest : pool.eraseIdx hi = rest := congrArg Prod.snd hres
          refine ⟨?_, ?_, ?_⟩
          · intro x hx
            rw [← hrest] at hx
            exact herasesub x hx
          · exact ⟨pool.getD hi (0, 0), hsegP0, hheadeq⟩
          · intro s hs
            rcases hmemsplit s hs with hseq | hsrest
            · refine Or.inr ?_
              have hnewmem : (pool.getD hi (0, 0)).2 ∈ wl := by
                have : wl.contains (pool.getD hi (0, 0)).2 = true := by
                  rw [← hseq] at hcont ⊢
                  exact hcont
                simpa using this
              have hnewne : (pool.getD hi (0, 0)).2 ≠ wl.getLastD 0 := by
                intro heq
                exact hns _ hsegP0 (by rw [hheadeq, heq])
              have hnewdl : (pool.getD hi (0, 0)).2 ∈ wl.dropLast := by
                rcases mem_dropLast_or_getLastD wl hwlne _ hnewmem with hm | hm
                · exact hm
                · exact absurd hm hnewne
              obtain ⟨t, htP0, ht1⟩ := hwit _ hnewdl
              refine ⟨t, htP0, by rw [ht1, hseq], ?_⟩
              intro hts
              rw [hts, hseq] at ht1
              exact hns _ hsegP0 ht1
            · rw [hrest] at hsrest
              exact Or.inl hsrest
        · rename_i hncont
          have hbw := h
          have hrec := ih (pool.eraseIdx hi) (wl ++ [(pool.getD hi (0, 0)).2]) loop rest hbw
            (fun x hx => hsub x (herasesub x hx))
            (by simp)
            (by
              intro v hv
              rw [List.dropLast_concat] at hv
              rcases mem_dropLast_or_getLastD wl hwlne v hv with hm | hm
              · exact hwit v hm
              · exact ⟨pool.getD hi (0, 0), hsegP0, by rw [hheadeq, hm]⟩)
          obtain ⟨hrsub, hlast, hall⟩ := hrec
          refine ⟨fun x hx => herasesub x (hrsub x hx), ⟨pool.getD hi (0, 0), hsegP0, hheadeq⟩, ?_⟩
          intro s hs
          rcases hmemsplit s hs with hseq | hsrest
          · refine Or.inr ?_
            rw [List.getLastD_concat] at hlast
            obtain ⟨t, htP0, ht1⟩ := hlast
            refine ⟨t, htP0, by rw [ht1, hseq], ?_⟩
            intro hts
            rw [hts, hseq] at ht1
            exact hns _ hsegP0 ht1
          · rcases hall s hsrest with hr | hw
            · exact Or.inl hr
            · exact Or.inr hw

theorem mem_dropLast_or_getLastD_pair (l : List (Nat × Nat)) (hne : l ≠ []) (v : Nat × Nat)
    (hv : v ∈ l) : v ∈ l.dropLast ∨ v = l.getLastD (0, 0) := by
  have hdec := List.dropLast_append_getLast hne
  rw [← hdec] at hv
  rcases List.mem_append.mp hv with h | h
  · exact Or.inl h
  · refine Or.inr ?_
    rw [List.getLastD_eq_getLast?, List.getLast?_eq_getLast l hne]
    simpa using h

theorem asVertexLoopsAux_openchain (P0 : List (Nat × Nat)) (hns : ∀ s ∈ P0, s.1 ≠ s.2) :
    ∀ (fuel : Nat) (pool : List (Nat × Nat)) (acc res : List (List Nat)),
    asVertexLoopsAux fuel pool acc = Except.ok res →
    (∀ x ∈ pool, x ∈ P0) →
    ∀ s ∈ pool, ∃ t ∈ P0, t.1 = s.2 ∧ t ≠ s := by
  intro fuel
  induction fuel with
  | zero =>
    intro pool acc res h hsub s hs
    cases pool with
    | nil => exact absurd hs (List.not_mem_nil s)
    | cons a rest => exact Except.noConfusion h
  | succ n ih =>
    intro pool acc res h hsub s hs
    cases pool with
    | nil => exact absurd hs (List.not_mem_nil s)
    | cons p0 ptail =>
      simp only [asVertexLoopsAux] at h
      obtain ⟨pr, hpr, h⟩ := except_bind_ok h
      obtain ⟨loop, rest⟩ := pr
      have hpoolne : (p0 :: ptail) ≠ ([] : List (Nat × Nat)) := by simp
      have hseedmem : (p0 :: ptail).getLastD (0, 0) ∈ p0 :: ptail :=
        getLastD_pair_mem _ hpoolne
      have hseedP0 : (p0 :: ptail).getLastD (0, 0) ∈ P0 := hsub _ hseedmem
      have hdlsub : ∀ x ∈ (p0 :: ptail).dropLast, x ∈ p0 :: ptail := fun x hx =>
        (List.dropLast_sublist (p0 :: ptail)).subset hx
      have hbw := buildWorkingLoop_openchain P0 hns ((p0 :: ptail).dropLast.length + 1)
        (p0 :: ptail).dropLast
        [((p0 :: ptail).getLastD (0, 0)).1, ((p0 :: ptail).getLastD (0, 0)).2]
        loop rest hpr (fun x hx => hsub x (hdlsub x hx)) (by simp)
        (by
          intro v hv
          simp only [List.dropLast_cons₂, List.dropLast_nil] at hv
          have hv1 : v = ((p0 :: ptail).getLastD (0, 0)).1 := by
            simpa using hv
          exact ⟨(p0 :: ptail).getLastD (0, 0), hseedP0, hv1.symm⟩)
      obtain ⟨hrsub, hlast, hall⟩ := hbw
      have hseedtail :
          ([((p0 :: ptail).getLastD (0, 0)).1, ((p0 :: ptail).getLastD (0, 0)).2]).getLastD 0 =
          ((p0 :: ptail).getLastD (0, 0)).2 := by rfl
      rcases mem_dropLast_or_getLastD_pair (p0 :: ptail) hpoolne s hs with hsd | hseq
      · rcases hall s hsd with hsrest | hw
        · exact ih rest (acc ++ [loop]) res h (fun x hx => hsub x (hdlsub x (hrsub x hx)))
            s hsrest
        · exact hw
      · rw [hseedtail] at hlast
        obtain ⟨t, htP0, ht1⟩ := hlast
        refine ⟨t, htP0, by rw [ht1, hseq], ?_⟩
        intro hts
        rw [hts, hseq] at ht1
        exact hns _ hseedP0 ht1

theorem ok_bind {ε α β : Type} (a : α) (f : α → Except ε β) :
    (Except.ok a : Except ε α) >>= f = f a := rfl

theorem findHitAux_closed (searching : Nat) :
    ∀ (pool : List (Nat × Nat)) (n : Nat) (j : Nat) (hj : j < pool.length),
    (pool.map (fun s => s.1)).Nodup →
    pool[j].1 = searching →
    findHitAux searching (List.enumFrom n pool) none = Except.ok (some (n + j)) := by
  intro pool
  induction pool with
  | nil =>
    intro n j hj
    exact absurd hj (by simp)
  | cons q rest ih =>
    intro n j hj hnd hjs
    simp only [List.enumFrom]
    have hndq : q.1 ∉ rest.map (fun s => s.1) := by
      simp only [List.map_cons, List.nodup_cons] at hnd
      exact hnd.1
    have hndrest : (rest.map (fun s => s.1)).Nodup := by
      simp only [List.map_cons, List.nodup_cons] at hnd
      exact hnd.2
    cases j with
    | zero =>
      simp only [List.getElem_cons_zero] at hjs
      have hnohit : ∀ x ∈ List.enumFrom (n + 1) rest, x.2.1 ≠ searching := by
        rw [List.forall_mem_enumFrom]
        intro i hi hcon
        apply hndq
        rw [hjs, ← hcon]
        exact List.mem_map_of_mem _ (rest.getElem_mem hi)
      simp only [findHitAux]
      rw [if_pos hjs, findHitAux_skip searching _ (some n) hnohit]
      rfl
    | succ j' =>
      have hj' : j' < rest.length := by simpa using hj
      have hjs' : rest[j'].1 = searching := by
        simpa using hjs
      have hqne : q.1 ≠ searching := by
        intro hcon
        apply hndq
        rw [hcon, ← hjs']
        exact List.mem_map_of_mem _ (rest.getElem_mem hj')
      simp only [findHitAux]
      rw [if_neg hqne]
      have := ih (n + 1) j' hj' hndrest hjs'
      rw [this]
      congr 2
      omega

theorem buildWorkingLoop_step (n : Nat) (pool : List (Nat × Nat)) (wl : List Nat)
    (hpne : ¬ pool = []) (j : Nat)
    (hfind : findHitAux (wl.getLastD 0) pool.enum none = Except.ok (some j)) :
    buildWorkingLoop (n + 1) pool wl =
      (if wl.contains ((pool.getD j (0, 0)).2) then pure (wl, pool.eraseIdx j)
       else buildWorkingLoop n (pool.eraseIdx j) (wl ++ [(pool.getD j (0, 0)).2])) := by
  simp only [buildWorkingLoop]
  rw [if_neg hpne, pure_bind, hfind, ok_bind]

theorem head_of_mem_not_drop_one (l : List Nat) (hne : l ≠ []) (v : Nat) (hv : v ∈ l)
    (hnd : v ∉ l.drop 1) : l = v :: l.drop 1 := by
  cases l with
  | nil => exact absurd rfl hne
  | cons w ws =>
    simp only [List.drop_one, List.tail_cons] at hnd ⊢
    rcases List.mem_cons.mp hv with h | h
    · rw [h]
    · exact absurd h hnd

theorem buildWorkingLoop_closed (V : List Nat) :
    ∀ (fuel : Nat), ∀ (pool : List (Nat × Nat)) (wl : List Nat),
    pool.length < fuel →
    (pool.map (fun s => s.1)).Nodup →
    (pool.map (fun s => s.2)).Nodup →
    wl.Nodup →
    wl ≠ [] →
    (∀ v ∈ wl, v ∈ V) →
    (∀ v, v ∈ pool.map (fun s => s.1) ↔ (v ∈ V ∧ v ∉ wl.dropLast)) →
    (∀ v, v ∈ pool.map (fun s => s.2) ↔ (v ∈ V ∧ v ∉ wl.drop 1)) →
    ∃ ext rest,
      buildWorkingLoop fuel pool wl = Except.ok (wl ++ ext, rest) ∧
      (wl ++ ext).Nodup ∧
      (∀ v ∈ wl ++ ext, v ∈ V) ∧
      (∀ x ∈ rest, x ∈ pool) ∧
      (rest.map (fun s => s.1)).Nodup ∧
      (rest.map (fun s => s.2)).Nodup ∧
      (∀ v, v ∈ rest.map (fun s => s.1) ↔ (v ∈ V ∧ v ∉ wl ++ ext)) ∧
      (∀ v, v ∈ rest.map (fun s => s.2) ↔ (v ∈ V ∧ v ∉ wl ++ ext)) ∧
      rest.length < pool.length := by
  intro fuel
  induction fuel with
  | zero =>
    intro pool wl hf
    exact absurd hf (by omega)
  | succ n ih =>
    intro pool wl hf hhnd htnd hwnd hwlne hwlV hheads htails
    have hlastmem : wl.getLastD 0 ∈ V := hwlV _ (getLastD_mem wl hwlne)
    have hlastnd : wl.getLastD 0 ∉ wl.dropLast := getLastD_not_mem_dropLast wl hwnd hwlne
    have hsheads : wl.getLastD 0 ∈ pool.map (fun s => s.1) :=
      (hheads _).mpr ⟨hlastmem, hlastnd⟩
    obtain ⟨s0, hs0mem, hs0head⟩ := List.mem_map.mp hsheads
    obtain ⟨j, hj, hjget⟩ := List.mem_iff_getElem.mp hs0mem
    have hpoolne : ¬ pool = [] := by
      intro hcon
      rw [hcon] at hs0mem
      exact List.not_mem_nil _ hs0mem
    have hfind : findHitAux (wl.getLastD 0) pool.enum none = Except.ok (some j) := by
      have hfc := findHitAux_closed (wl.getLastD 0) pool 0 j hj hhnd (by rw [hjget, hs0head])
      rw [Nat.zero_add] at hfc
      exact hfc
    have hstep := buildWorkingLoop_step n pool wl hpoolne j hfind
    have hsegeq : pool.getD j (0, 0) = s0 := by
      rw [List.getD_eq_getElem _ _ hj, hjget]
    rw [hsegeq] at hstep
    have hperm : pool.Perm (s0 :: pool.eraseIdx j) := by
      have hp := perm_getElem_cons_eraseIdx pool j hj
      rw [hjget] at hp
      exact hp
    have hpermh : (pool.map (fun s => s.1)).Perm
        (s0.1 :: (pool.eraseIdx j).map (fun s => s.1)) := by
      simpa using hperm.map (fun s => s.1)
    have hpermt : (pool.map (fun s => s.2)).Perm
        (s0.2 :: (pool.eraseIdx j).map (fun s => s.2)) := by
      simpa using hperm.map (fun s => s.2)
    have hhnd' := hpermh.nodup_iff.mp hhnd
    have htnd' := hpermt.nodup_iff.mp htnd
    rw [List.nodup_cons] at hhnd' htnd'
    have herasesub : ∀ x ∈ pool.eraseIdx j, x ∈ pool := by
      intro x hx
      exact hperm.mem_iff.mpr (List.mem_cons_of_mem _ hx)
    have hlen : (pool.eraseIdx j).length + 1 = pool.length :=
      List.length_eraseIdx_add_one hj
    have hs02V : s0.2 ∈ V ∧ s0.2 ∉ wl.drop 1 :=
      (htails s0.2).mp (List.mem_map_of_mem _ hs0mem)
    have hchar1 : ∀ v, v ∈ (pool.eraseIdx j).map (fun s => s.1) ↔ (v ∈ V ∧ v ∉ wl) := by
      intro v
      constructor
      · intro hv
        have hvh : v ∈ pool.map (fun s => s.1) :=
          hpermh.mem_iff.mpr (List.mem_cons_of_mem _ hv)
        have hVd := (hheads v).mp hvh
        refine ⟨hVd.1, ?_⟩
        intro hvwl
        rcases mem_dropLast_or_getLastD wl hwlne v hvwl with hm | hm
        · exact hVd.2 hm
        · rw [← hs0head] at hm
          rw [hm] at hv
          exact hhnd'.1 hv
      · rintro ⟨hvV, hvnwl⟩
        have hvh : v ∈ pool.map (fun s => s.1) := (hheads v).mpr
          ⟨hvV, fun hcon => hvnwl ((List.dropLast_sublist wl).subset hcon)⟩
        rcases List.mem_cons.mp (hpermh.mem_iff.mp hvh) with he | he
        · exfalso
          apply hvnwl
          rw [he, hs0head]
          exact getLastD_mem wl hwlne
        · exact he
    have hchar2 : ∀ v, v ∈ (pool.eraseIdx j).map (fun s => s.2) ↔
        (v ∈ V ∧ v ∉ wl.drop 1 ∧ v ≠ s0.2) := by
      intro v
      constructor
      · intro hv
        have hvt : v ∈ pool.map (fun s => s.2) :=
          hpermt.mem_iff.mpr (List.mem_cons_of_mem _ hv)
        have hVd := (htails v).mp hvt
        refine ⟨hVd.1, hVd.2, ?_⟩
        intro hcon
        rw [hcon] at hv
        exact htnd'.1 hv
      · rintro ⟨hvV, hvd, hvne⟩
        have hvt : v ∈ pool.map (fun s => s.2) := (htails v).mpr ⟨hvV, hvd⟩
        rcases List.mem_cons.mp (hpermt.mem_iff.mp hvt) with he | he
        · exact absurd he hvne
        · exact he
    by_cases hc : s0.2 ∈ wl
    · have hcb : wl.contains s0.2 = true := by
        simpa using hc
      rw [if_pos hcb] at hstep
      have hhead : wl = s0.2 :: wl.drop 1 :=
        head_of_mem_not_drop_one wl hwlne s0.2 hc hs02V.2
      refine ⟨[], pool.eraseIdx j, ?_, ?_, ?_, ?_, ?_, ?_, ?_, ?_, ?_⟩
      · rw [List.append_nil]
        exact hstep
      · rw [List.append_nil]
        exact hwnd
      · rw [List.append_nil]
        exact hwlV
      · exact herasesub
      · exact hhnd'.2
      · exact htnd'.2
      · intro v
        rw [List.append_nil]
        exact hchar1 v
      · intro v
        rw [List.append_nil, hchar2 v]
        constructor
        · rintro ⟨hvV, hvd, hvne⟩
          refine ⟨hvV, ?_⟩
          intro hvwl
          rw [hhead] at hvwl
          rcases List.mem_cons.mp hvwl with hm | hm
          · exact hvne hm
          · exact hvd hm
        · rintro ⟨hvV, hvnwl⟩
          refine ⟨hvV, ?_, ?_⟩
          · intro hcon
            exact hvnwl ((List.drop_sublist 1 wl).subset hcon)
          · intro hcon
            rw [hcon] at hvnwl
            exact hvnwl hc
      · omega
    · have hcb : ¬ wl.contains s0.2 = true := by
        simpa using hc
      rw [if_neg hcb] at hstep
      have hwnd2 : (wl ++ [s0.2]).Nodup := by
        rw [List.nodup_append]
        refine ⟨hwnd, List.nodup_singleton _, ?_⟩
        intro a ha hb
        rw [List.mem_singleton] at hb
        rw [hb] at ha
        exact hc ha
      have hdrop2 : (wl ++ [s0.2]).drop 1 = wl.drop 1 ++ [s0.2] :=
        List.drop_append_of_le_length (by
          cases wl with
          | nil => exact absurd rfl hwlne
          | cons w ws => simp)
      obtain ⟨ext', rest, hres, hnd2, hV2, hsub2, hh2, ht2, hch2, hct2, hlt2⟩ :=
        ih (pool.eraseIdx j) (wl ++ [s0.2]) (by omega) hhnd'.2 htnd'.2 hwnd2
          (by simp)
          (by
            intro v hv
            rcases List.mem_append.mp hv with hm | hm
            · exact hwlV v hm
            · rw [List.mem_singleton] at hm
              rw [hm]
              exact hs02V.1)
          (by
            intro v
            rw [List.dropLast_concat]
            exact hchar1 v)
          (by
            intro v
            rw [hdrop2, hchar2 v]
            constructor
            · rintro ⟨hvV, hvd, hvne⟩
              refine ⟨hvV, ?_⟩
              intro hcon
              rcases List.mem_append.mp hcon with hm | hm
              · exact hvd hm
              · rw [List.mem_singleton] at hm
                exact hvne hm
            · rintro ⟨hvV, hvnm⟩
              refine ⟨hvV, fun hm => hvnm (List.mem_append.mpr (Or.inl hm)), fun hm =>
                hvnm (List.mem_append.mpr (Or.inr (List.mem_singleton.mpr hm)))⟩)
      have happ : (wl ++ [s0.2]) ++ ext' = wl ++ (s0.2 :: ext') := by
        rw [List.append_assoc, List.singleton_append]
      rw [happ] at hres hnd2 hV2 hch2 hct2
      refine ⟨s0.2 :: ext', rest, ?_, hnd2, hV2, fun x hx => herasesub x (hsub2 x hx),
        hh2, ht2, hch2, hct2, by omega⟩
      rw [hstep]
      exact hres

theorem asVertexLoopsAux_closed :
    ∀ (fuel : Nat) (pool : List (Nat × Nat)) (acc : List (List Nat)),
    pool.length < fuel →
    (∀ s ∈ pool, s.1 ≠ s.2) →
    (pool.map (fun s => s.1)).Nodup →
    (pool.map (fun s => s.2)).Nodup →
    (∀ v, v ∈ pool.map (fun s => s.1) ↔ v ∈ pool.map (fun s => s.2)) →
    ∃ loops, asVertexLoopsAux fuel pool acc = Except.ok (acc ++ loops) ∧
      loops.flatten.Nodup ∧
      (∀ v, v ∈ loops.flatten ↔ v ∈ pool.map (fun s => s.1)) := by
  intro fuel
  induction fuel with
  | zero =>
    intro pool acc hf
    exact absurd hf (by omega)
  | succ n ih =>
    intro pool acc hf hns hhnd htnd hiff
    cases pool with
    | nil =>
      refine ⟨[], ?_, by simp, by simp⟩
      rw [List.append_nil]
      rfl
    | cons p0 ptail =>
      have hqne : (p0 :: ptail : List (Nat × Nat)) ≠ [] := by simp
      have hamem : (p0 :: ptail).getLastD (0, 0) ∈ p0 :: ptail := getLastD_pair_mem _ hqne
      have hgld : (p0 :: ptail).getLastD (0, 0) = (p0 :: ptail).getLast hqne := by
        rw [List.getLastD_eq_getLast?, List.getLast?_eq_getLast _ hqne]
        rfl
      have hq : (p0 :: ptail).dropLast ++ [(p0 :: ptail).getLastD (0, 0)] = p0 :: ptail := by
        rw [hgld]
        exact List.dropLast_append_getLast hqne
      have hmapsplit1 : (p0 :: ptail).map (fun s => s.1) =
          (p0 :: ptail).dropLast.map (fun s => s.1) ++ [((p0 :: ptail).getLastD (0, 0)).1] := by
        conv_lhs => rw [← hq]
        rw [List.map_append]
        rfl
      have hmapsplit2 : (p0 :: ptail).map (fun s => s.2) =
          (p0 :: ptail).dropLast.map (fun s => s.2) ++ [((p0 :: ptail).getLastD (0, 0)).2] := by
        conv_lhs => rw [← hq]
        rw [List.map_append]
        rfl
      have hhdec := hmapsplit1 ▸ hhnd
      have htdec := hmapsplit2 ▸ htnd
      rw [List.nodup_append] at hhdec htdec
      have hdlsub : ∀ x ∈ (p0 :: ptail).dropLast, x ∈ p0 :: ptail := fun x hx =>
        (List.dropLast_sublist (p0 :: ptail)).subset hx
      have hansl : ((p0 :: ptail).getLastD (0, 0)).1 ≠ ((p0 :: ptail).getLastD (0, 0)).2 :=
        hns _ hamem
      have ha1V : ((p0 :: ptail).getLastD (0, 0)).1 ∈ (p0 :: ptail).map (fun s => s.1) :=
        List.mem_map_of_mem _ hamem
      have ha2V : ((p0 :: ptail).getLastD (0, 0)).2 ∈ (p0 :: ptail).map (fun s => s.1) :=
        (hiff _).mpr (List.mem_map_of_mem _ hamem)
      have hwchar1 : ∀ v, v ∈ (p0 :: ptail).dropLast.map (fun s => s.1) ↔
          (v ∈ (p0 :: ptail).map (fun s => s.1) ∧
            v ∉ ([((p0 :: ptail).getLastD (0, 0)).1,
              ((p0 :: ptail).getLastD (0, 0)).2] : List Nat).dropLast) := by
        intro v
        constructor
        · intro hv
          refine ⟨by rw [hmapsplit1]; exact List.mem_append.mpr (Or.inl hv), ?_⟩
          intro hcon
          simp only [List.dropLast_cons₂, List.dropLast_single, List.mem_singleton] at hcon
          rw [hcon] at hv
          exact hhdec.2.2 hv (by simp)
        · rintro ⟨hvq, hvn⟩
          simp only [List.dropLast_cons₂, List.dropLast_single, List.mem_singleton] at hvn
          rw [hmapsplit1] at hvq
          rcases List.mem_append.mp hvq with hm | hm
          · exact hm
          · rw [List.mem_singleton] at hm
            exact absurd hm hvn
      have hwchar2 : ∀ v, v ∈ (p0 :: ptail).dropLast.map (fun s => s.2) ↔
          (v ∈ (p0 :: ptail).map (fun s => s.1) ∧
            v ∉ ([((p0 :: ptail).getLastD (0, 0)).1,
              ((p0 :: ptail).getLastD (0, 0)).2] : List Nat).drop 1) := by
        intro v
        constructor
        · intro hv
          have hvq2 : v ∈ (p0 :: ptail).map (fun s => s.2) := by
            rw [hmapsplit2]
            exact List.mem_append.mpr (Or.inl hv)
          refine ⟨(hiff v).mpr hvq2, ?_⟩
          intro hcon
          simp only [List.drop_one, List.tail_cons, List.mem_singleton] at hcon
          rw [hcon] at hv
          exact htdec.2.2 hv (by simp)
        · rintro ⟨hvq, hvn⟩
          simp only [List.drop_one, List.tail_cons, List.mem_singleton] at hvn
          have hvq2 : v ∈ (p0 :: ptail).map (fun s => s.2) := (hiff v).mp hvq
          rw [hmapsplit2] at hvq2
          rcases List.mem_append.mp hvq2 with hm | hm
          · exact hm
          · rw [List.mem_singleton] at hm
            exact absurd hm hvn
      obtain ⟨ext, rest, hbwres, hndloop, hloopV, hrestsub, hrh, hrt, hrch, hrct, hrlen⟩ :=
        buildWorkingLoop_closed ((p0 :: ptail).map (fun s => s.1))
          ((p0 :: ptail).dropLast.length + 1) (p0 :: ptail).dropLast
          [((p0 :: ptail).getLastD (0, 0)).1, ((p0 :: ptail).getLastD (0, 0)).2]
          (by omega) hhdec.1 htdec.1
          (by
            rw [List.nodup_cons]
            exact ⟨by simpa using hansl, List.nodup_singleton _⟩)
          (by simp)
          (by
            intro v hv
            rcases List.mem_cons.mp hv with hm | hm
            · rw [hm]; exact ha1V
            · rw [List.mem_singleton.mp hm]; exact ha2V)
          hwchar1 hwchar2
      have hlen1 : (p0 :: ptail).dropLast.length + 1 = (p0 :: ptail).length := by
        rw [List.length_dropLast]
        simp
      obtain ⟨loops', hres', hnd', hiff'⟩ :=
        ih rest (acc ++ [[((p0 :: ptail).getLastD (0, 0)).1,
            ((p0 :: ptail).getLastD (0, 0)).2] ++ ext])
          (by
            have h1 : rest.length < (p0 :: ptail).dropLast.length := hrlen
            have h2 : (p0 :: ptail).dropLast.length + 1 = (p0 :: ptail).length := hlen1
            have h3 : (p0 :: ptail).length < n + 1 := hf
            omega)
          (fun s hs => hns s (hdlsub s (hrestsub s hs)))
          hrh hrt
          (fun v => (hrch v).trans ((hrct v).symm))
      refine ⟨([((p0 :: ptail).getLastD (0, 0)).1, ((p0 :: ptail).getLastD (0, 0)).2] ++ ext)
          :: loops', ?_, ?_, ?_⟩
      · show (do
          let pr ← buildWorkingLoop ((p0 :: ptail).dropLast.length + 1) (p0 :: ptail).dropLast
            [((p0 :: ptail).getLastD (0, 0)).1, ((p0 :: ptail).getLastD (0, 0)).2]
          asVertexLoopsAux n pr.2 (acc ++ [pr.1])) = _
        rw [hbwres, ok_bind, hres', List.append_assoc]
        rfl
      · rw [List.flatten_cons, List.nodup_append]
        refine ⟨hndloop, hnd', ?_⟩
        intro a ha hb
        have := (hrch a).mp ((hiff' a).mp hb)
        exact this.2 ha
      · intro v
        rw [List.flatten_cons, List.mem_append]
        constructor
        · intro hv
          rcases hv with hm | hm
          · exact hloopV v hm
          · exact ((hrch v).mp ((hiff' v).mp hm)).1
        · intro hv
          by_cases hvw : v ∈ [((p0 :: ptail).getLastD (0, 0)).1,
              ((p0 :: ptail).getLastD (0, 0)).2] ++ ext
          · exact Or.inl hvw
          · exact Or.inr ((hiff' v).mpr ((hrch v).mpr ⟨hv, hvw⟩))

/-- C8 (counterexample to the original claim): the edge set
`[(1,1), (0,1)]` contains an open chain — the self-loop `(1,1)` has no
remaining segment whose head equals its tail — yet `AsVertexLoopsOrdered`
returns normally instead of failing; and the singleton self-loop `[(1,1)]`
forms a closed chain yet the reconstruction fails its pool-emptiness
assertion.  Both refutations go through segments with head equal to tail. -/
theorem loop_reconstruction_counterexample :
    (hasOpenChain [(1, 1), (0, 1)] ∧
      asVertexLoopsOrdered [(1, 1), (0, 1)] = Except.ok [[0, 1]]) ∧
    (closedChains [(1, 1)] ∧
      asVertexLoopsOrdered [(1, 1)] = Except.error SSError.loopPoolEmpty) := by
  with_unfolding_all decide

/-- C8 (amended): for edge sets whose segments all have head distinct from
tail, `AsVertexLoopsOrdered` fails loudly on every edge set containing an
open chain, and on every edge set forming only closed head-to-tail chains it
terminates normally with one vertex sequence per closed loop — the returned
sequences are disjoint and cover each segment head exactly once. -/
theorem loop_reconstruction (pool : List (Nat × Nat)) (hns : ∀ s ∈ pool, s.1 ≠ s.2) :
    (hasOpenChain pool → ∃ e, asVertexLoopsOrdered pool = Except.error e) ∧
    (closedChains pool → ∃ loops, asVertexLoopsOrdered pool = Except.ok loops ∧
      loops.flatten.Nodup ∧ loops.flatten.Perm (pool.map (fun s => s.1))) := by
  constructor
  · intro hopen
    cases hres : asVertexLoopsOrdered pool with
    | error e => exact ⟨e, rfl⟩
    | ok res =>
      obtain ⟨s, hs, hno⟩ := hopen
      obtain ⟨t, htP, ht1, htne⟩ := asVertexLoopsAux_openchain pool hns (pool.length + 1)
        pool [] res hres (fun x hx => hx) s hs
      exact absurd ht1 (hno t ((List.mem_erase_of_ne htne).mpr htP))
  · rintro ⟨hnd1, hnd2, hmem12, hmem21⟩
    obtain ⟨loops, hres, hnd, hiff⟩ := asVertexLoopsAux_closed (pool.length + 1) pool []
      (by omega) hns hnd1 hnd2 (fun v => ⟨hmem12 v, hmem21 v⟩)
    refine ⟨loops, ?_, hnd, ?_⟩
    · show asVertexLoopsAux (pool.length + 1) pool [] = Except.ok loops
      rw [hres]
      rfl
    · exact List.perm_of_nodup_nodup_toFinset_eq hnd hnd1 (by
        ext a
        simp only [List.mem_toFinset]
        exact hiff a)

/-- C8 witness: the amended theorem applied to a concrete open-chain pool and
a concrete closed two-cycle pool. -/
theorem loop_reconstruction_witness :
    (∃ e, asVertexLoopsOrdered [(0, 1), (1, 0), (2, 3)] = Except.error e) ∧
    (∃ loops, asVertexLoopsOrdered [(0, 1), (1, 2), (2, 0)] = Except.ok loops ∧
      loops.flatten.Nodup ∧
      loops.flatten.Perm (([(0, 1), (1, 2), (2, 0)] : List (Nat × Nat)).map (fun s => s.1))) :=
  ⟨(loop_reconstruction [(0, 1), (1, 0), (2, 3)] (by decide)).1 (by with_unfolding_all decide),
   (loop_reconstruction [(0, 1), (1, 2), (2, 0)] (by decide)).2 (by decide)⟩

theorem getD_set_ne {α : Type} (l : List α) (i j : Nat) (a : α) (d : α) (h : i ≠ j) :
    (l.set j a).getD i d = l.getD i d := by
  rw [List.getD_eq_getElem?_getD, List.getD_eq_getElem?_getD, List.getElem?_set_ne h.symm]

theorem getD_set_self {α : Type} (l : List α) (j : Nat) (a : α) (d : α) (h : j < l.length) :
    (l.set j a).getD j d = a := by
  rw [List.getD_eq_getElem?_getD, List.getElem?_set_self (by simpa using h)]
  rfl

theorem frozenPreserved_refl (g : Graph) : frozenPreserved g g :=
  ⟨le_refl _, fun _ _ _ => rfl⟩

theorem frozenPreserved_trans {g1 g2 g3 : Graph} (h12 : frozenPreserved g1 g2)
    (h23 : frozenPreserved g2 g3) : frozenPreserved g1 g3 := by
  refine ⟨le_trans h12.1 h23.1, ?_⟩
  intro i hi hf
  have he := h12.2 i hi hf
  have hi2 : i < g2.vertices.length := lt_of_lt_of_le hi h12.1
  have hf2 : isFrozen (g2.vertices.getD i dummyVertex) = true := by rw [he]; exact hf
  rw [h23.2 i hi2 hf2, he]

theorem collapseGroupAccum_not_frozen (g : Graph) (groups : List Nat) (bc : List (ℚ × Nat))
    (cgroup : Nat) (t : ℚ) :
    ∀ (l : List Nat) (acc : Vec2) (contrib : Nat) (res : Vec2 × Nat),
    collapseGroupAccum g groups bc cgroup t l acc contrib = Except.ok res →
    ∀ c ∈ l, groups.getD c UINT32MAX = cgroup →
      isFrozen (g.vertices.getD
        (g.wavefrontEdges.getD (bc.getD c dummyCand).2 dummySeg).tail dummyVertex) = false ∧
      isFrozen (g.vertices.getD
        (g.wavefrontEdges.getD (bc.getD c dummyCand).2 dummySeg).head dummyVertex) = false := by
  intro l
  induction l with
  | nil =>
    intro acc contrib res h c hc
    exact absurd hc (List.not_mem_nil c)
  | cons c0 rest ih =>
    intro acc contrib res h c hc hcg
    simp only [collapseGroupAccum] at h
    split at h
    · rename_i hne
      rcases List.mem_cons.mp hc with hce | hc'
      · rw [hce] at hcg
        exact absurd hcg hne
      · exact ih _ _ _ h c hc' hcg
    · split at h
      · exact Except.noConfusion h
      · rename_i htail
        split at h
        · exact Except.noConfusion h
        · rename_i hhead
          rcases List.mem_cons.mp hc with hce | hc'
          · rw [hce]
            exact ⟨by simpa using htail, by simpa using hhead⟩
          · exact ih _ _ _ h c hc' hcg

theorem collapseGroupEmit_frozen (g0 : Graph) (groups : List Nat) (bc : List (ℚ × Nat))
    (cgroup cv : Nat) (t : ℚ) :
    ∀ (l : List Nat) (g : Graph) (skel : Skeleton) (res : Graph × Skeleton),
    collapseGroupEmit groups bc cgroup cv t l g skel = Except.ok res →
    g.wavefrontEdges = g0.wavefrontEdges →
    g.vertices.length = g0.vertices.length →
    (∀ i, isFrozen (g0.vertices.getD i dummyVertex) = true →
      g.vertices.getD i dummyVertex = g0.vertices.getD i dummyVertex) →
    (∀ c ∈ l, groups.getD c UINT32MAX = cgroup →
      isFrozen (g0.vertices.getD
        (g0.wavefrontEdges.getD (bc.getD c dummyCand).2 dummySeg).tail dummyVertex) = false ∧
      isFrozen (g0.vertices.getD
        (g0.wavefrontEdges.getD (bc.getD c dummyCand).2 dummySeg).head dummyVertex) = false) →
    res.1.wavefrontEdges = g0.wavefrontEdges ∧
    res.1.vertices.length = g0.vertices.length ∧
    (∀ i, isFrozen (g0.vertices.getD i dummyVertex) = true →
      res.1.vertices.getD i dummyVertex = g0.vertices.getD i dummyVertex) := by
  intro l
  induction l with
  | nil =>
    intro g skel res h hw hl hrel hc
    have hres := Except.ok.inj h
    rw [← hres]
    exact ⟨hw, hl, hrel⟩
  | cons c0 rest ih =>
    intro g skel res h hw hl hrel hc
    simp only [collapseGroupEmit] at h
    split at h
    · exact ih _ _ _ h hw hl hrel (fun c hcm => hc c (List.mem_cons_of_mem _ hcm))
    · rename_i hcg0
      have hcg : groups.getD c0 UINT32MAX = cgroup := not_not.mp hcg0
      obtain ⟨hntail, hnhead⟩ := hc c0 (List.mem_cons_self _ _) hcg
      obtain ⟨sk1, h1, h⟩ := except_bind_ok h
      obtain ⟨sk2, h2, h⟩ := except_bind_ok h
      obtain ⟨ft, hft, h⟩ := except_bind_ok h
      obtain ⟨fh, hfh, h⟩ := except_bind_ok h
      refine ih _ _ _ h ?_ ?_ ?_ (fun c hcm => hc c (List.mem_cons_of_mem _ hcm))
      · exact hw
      · simpa using hl
      · intro i hfz
        have hseg : g.wavefrontEdges.getD (bc.getD c0 dummyCand).2 dummySeg =
            g0.wavefrontEdges.getD (bc.getD c0 dummyCand).2 dummySeg := by rw [hw]
        have hit : i ≠ (g.wavefrontEdges.getD (bc.getD c0 dummyCand).2 dummySeg).tail := by
          intro hcon
          rw [hcon, hseg] at hfz
          rw [hfz] at hntail
          exact Bool.noConfusion hntail
        have hih : i ≠ (g.wavefrontEdges.getD (bc.getD c0 dummyCand).2 dummySeg).head := by
          intro hcon
          rw [hcon, hseg] at hfz
          rw [hfz] at hnhead
          exact Bool.noConfusion hnhead
        show ((g.vertices.set _ ft).set _ fh).getD i dummyVertex = _
        rw [getD_set_ne _ _ _ _ _ hih, getD_set_ne _ _ _ _ _ hit]
        exact hrel i hfz

theorem processCollapseGroups_frozen (groups : List Nat) (bc : List (ℚ × Nat)) (t : ℚ) :
    ∀ (l : List Nat) (g : Graph) (skel : Skeleton) (infos : List CollapseGroupInfo)
      (res : Graph × Skeleton × List CollapseGroupInfo),
    processCollapseGroups groups bc t l g skel infos = Except.ok res →
    l.Nodup →
    g.vertices.length ≤ res.1.vertices.length ∧
    (∀ i, i < g.vertices.length → isFrozen (g.vertices.getD i dummyVertex) = true →
      res.1.vertices.getD i dummyVertex = g.vertices.getD i dummyVertex) ∧
    res.2.2.length = infos.length ∧
    (∀ j ∈ l, j < infos.length →
      g.vertices.length ≤ (res.2.2.getD j ⟨0, 0, 0⟩).newVertex) ∧
    (∀ j, j ∉ l → res.2.2.getD j ⟨0, 0, 0⟩ = infos.getD j ⟨0, 0, 0⟩) := by
  intro l
  induction l with
  | nil =>
    intro g skel infos res h hnd
    have hres := Except.ok.inj h
    rw [← hres]
    exact ⟨le_refl _, fun i _ _ => rfl, rfl,
      fun j hj => absurd hj (List.not_mem_nil j), fun j _ => rfl⟩
  | cons cgroup rest ih =>
    intro g skel infos res h hnd
    rw [List.nodup_cons] at hnd
    simp only [processCollapseGroups] at h
    obtain ⟨p, hp, h⟩ := except_bind_ok h
    obtain ⟨u, hu, h⟩ := except_bind_ok h
    obtain ⟨q, hq, h⟩ := except_bind_ok h
    obtain ⟨r2, hr2, h⟩ := except_bind_ok h
    have haccum := collapseGroupAccum_not_frozen g groups bc cgroup t
      (List.range bc.length) Vec2.zero 0 p hp
    have hemit := collapseGroupEmit_frozen g groups bc cgroup q.1 t
      (List.range bc.length) g q.2 r2 hr2 rfl rfl (fun i _ => rfl) haccum
    obtain ⟨hew, hel, hepres⟩ := hemit
    obtain ⟨ihlen, ihpres, ihilen, ihge, ihstable⟩ := ih _ _ _ _ h hnd.2
    refine ⟨?_, ?_, ?_, ?_, ?_⟩
    · have : r2.1.vertices.length + 1 ≤ res.1.vertices.length := by
        have := ihlen
        simpa using this
      omega
    · intro i hi hfz
      have hie : r2.1.vertices.getD i dummyVertex = g.vertices.getD i dummyVertex :=
        hepres i hfz
      have hia : (r2.1.vertices ++
          [(⟨(Vec2.smul (1 / ((p.2 : ℚ))) p.1), q.1, t, Vec2.zero⟩ : Vertex)]).getD i
          dummyVertex = r2.1.vertices.getD i dummyVertex :=
        List.getD_append _ _ _ _ (by omega)
      have hfz2 : isFrozen ((r2.1.vertices ++
          [(⟨(Vec2.smul (1 / ((p.2 : ℚ))) p.1), q.1, t, Vec2.zero⟩ : Vertex)]).getD i
          dummyVertex) = true := by
        rw [hia, hie]
        exact hfz
      have := ihpres i (by simp; omega) hfz2
      rw [this, hia, hie]
    · rw [ihilen]
      simp
    · intro j hj hjlt
      rcases List.mem_cons.mp hj with hje | hj'
      · subst hje
        have hst := ihstable j hnd.1
        rw [hst, getD_set_self _ _ _ _ (by simpa using hjlt)]
        show g.vertices.length ≤ r2.1.vertices.length
        rw [hel]
      · have hge2 := ihge j hj' (by simpa using hjlt)
        have hproj : ({ r2.1 with vertices := r2.1.vertices ++
            [(⟨(Vec2.smul (1 / ((p.2 : ℚ))) p.1), q.1, t, Vec2.zero⟩ : Vertex)] } :
            Graph).vertices.length = r2.1.vertices.length + 1 := by
          show (r2.1.vertices ++ _).length = _
          rw [List.length_append]
          rfl
        rw [hproj] at hge2
        have hlen3 : r2.1.vertices.length = g.vertices.length := hel
        omega
    · intro j hj
      rw [List.mem_cons, not_or] at hj
      rw [ihstable j hj.2, getD_set_ne _ _ _ _ _ hj.1]

theorem relinkGroup_frozen (g : Graph) (info : CollapseGroupInfo) (g' : Graph)
    (h : relinkGroup g info = Except.ok g') :
    g'.vertices.length = g.vertices.length ∧
    ∀ i, i ≠ info.newVertex → g'.vertices.getD i dummyVertex = g.vertices.getD i dummyVertex := by
  simp only [relinkGroup] at h
  split at h
  · have hres := Except.ok.inj h
    rw [← hres]
    exact ⟨rfl, fun i _ => rfl⟩
  · obtain ⟨io1, h1, h⟩ := except_bind_ok h
    obtain ⟨io2, h2, h⟩ := except_bind_ok h
    split at h
    · obtain ⟨vel, hv, h⟩ := except_bind_ok h
      have hres := Except.ok.inj h
      rw [← hres]
      constructor
      · show (g.vertices.set _ _).length = g.vertices.length
        simp
      · intro i hi
        exact getD_set_ne _ _ _ _ _ hi
    · exact Except.noConfusion h

theorem relinkGroups_frozen (N : Nat) :
    ∀ (infos : List CollapseGroupInfo) (g g' : Graph),
    relinkGroups infos g = Except.ok g' →
    (∀ info ∈ infos, N ≤ info.newVertex) →
    g'.vertices.length = g.vertices.length ∧
    ∀ i, i < N → g'.vertices.getD i dummyVertex = g.vertices.getD i dummyVertex := by
  intro infos
  induction infos with
  | nil =>
    intro g g' h hN
    have hres := Except.ok.inj h
    rw [← hres]
    exact ⟨rfl, fun i _ => rfl⟩
  | cons info rest ih =>
    intro g g' h hN
    simp only [relinkGroups] at h
    obtain ⟨g1, h1, h⟩ := except_bind_ok h
    obtain ⟨hlen1, hpres1⟩ := relinkGroup_frozen g info g1 h1
    obtain ⟨hlen2, hpres2⟩ := ih g1 g' h (fun x hx => hN x (List.mem_cons_of_mem _ hx))
    refine ⟨by rw [hlen2, hlen1], ?_⟩
    intro i hi
    rw [hpres2 i hi, hpres1 i ?_]
    intro hcon
    have := hN info (List.mem_cons_self _ _)
    omega

theorem processCollapse_frozen (g : Graph) (skel : Skeleton) (bc : List (ℚ × Nat)) (t : ℚ)
    (res : Graph × Skeleton × ℚ) (h : processCollapse g skel bc t = Except.ok res) :
    frozenPreserved g res.1 := by
  simp only [processCollapse] at h
  obtain ⟨p, hp, h⟩ := except_bind_ok h
  obtain ⟨q, hq, h⟩ := except_bind_ok h
  obtain ⟨g2, hg2, h⟩ := except_bind_ok h
  have hres := Except.ok.inj h
  obtain ⟨hlen, hpres, hilen, hge, _⟩ := processCollapseGroups_frozen p.1 bc t
    (List.range p.2.length) g skel p.2 q hq (List.nodup_range _)
  have hmem : ∀ info ∈ q.2.2, g.vertices.length ≤ info.newVertex := by
    intro info hmemi
    obtain ⟨j, hj, hjget⟩ := List.mem_iff_getElem.mp hmemi
    have hj2 : j < p.2.length := by rw [← hilen]; exact hj
    have := hge j (List.mem_range.mpr hj2) hj2
    rw [List.getD_eq_getElem _ _ hj, hjget] at this
    exact this
  obtain ⟨hlenr, hpresr⟩ := relinkGroups_frozen g.vertices.length q.2.2
    { q.1 with wavefrontEdges := removeCollapsedEdges q.1.wavefrontEdges bc } g2 hg2 hmem
  rw [← hres]
  constructor
  · show g.vertices.length ≤ g2.vertices.length
    have hmid : ({ q.1 with wavefrontEdges :=
        removeCollapsedEdges q.1.wavefrontEdges bc } : Graph).vertices.length =
        q.1.vertices.length := rfl
    rw [hlenr, hmid]
    exact hlen
  · intro i hi hfz
    show g2.vertices.getD i dummyVertex = g.vertices.getD i dummyVertex
    have hmid : ({ q.1 with wavefrontEdges :=
        removeCollapsedEdges q.1.wavefrontEdges bc } : Graph).vertices.getD i dummyVertex =
        q.1.vertices.getD i dummyVertex := rfl
    rw [hpresr i hi, hmid]
    exact hpres i hi hfz

theorem crashScan_not_frozen (g : Graph) (lt : ℚ) (bct : Option ℚ) :
    ∀ (ms : List (Nat × MotorcycleSegment)) (best : List (CrashEvent × Nat))
      (bt : Option ℚ) (res : List (CrashEvent × Nat) × Option ℚ),
    crashScan g lt bct ms best bt = Except.ok res →
    (∀ q ∈ ms, g.motorcycleSegments.getD q.1 dummyMotor = q.2) →
    (∀ e ∈ best, equivV2 (g.vertices.getD
      ((g.motorcycleSegments.getD e.2 dummyMotor).head) dummyVertex).velocity Vec2.zero eps
      = false) →
    ∀ e ∈ res.1, equivV2 (g.vertices.getD
      ((g.motorcycleSegments.getD e.2 dummyMotor).head) dummyVertex).velocity Vec2.zero eps
      = false := by
  intro ms
  induction ms with
  | nil =>
    intro best bt res h hms hbest
    simp only [crashScan, pure, Except.pure] at h
    injection h with h
    rw [← h]
    exact hbest
  | cons im rest ih =>
    intro best bt res h hms hbest
    obtain ⟨i, m⟩ := im
    have hm : g.motorcycleSegments.getD i dummyMotor = m :=
      hms (i, m) (List.mem_cons_self _ _)
    have hrest : ∀ q ∈ rest, g.motorcycleSegments.getD q.1 dummyMotor = q.2 :=
      fun q hq => hms q (List.mem_cons_of_mem _ hq)
    simp only [crashScan] at h
    by_cases hfr : equivV2 (g.vertices.getD m.head dummyVertex).velocity Vec2.zero eps
    · rw [if_pos hfr] at h
      exact ih _ _ _ h hrest hbest
    · have hprop : equivV2 (g.vertices.getD
          ((g.motorcycleSegments.getD i dummyMotor).head) dummyVertex).velocity Vec2.zero eps
          = false := by
        rw [hm]
        simpa using hfr
      rw [if_neg hfr] at h
      by_cases hit : (g.vertices.getD m.head dummyVertex).initialTime ≠ 0
      · rw [if_pos hit] at h
        exact Except.noConfusion h
      · rw [if_neg hit] at h
        cases hct : calculateCrashTime g (g.vertices.getD m.head dummyVertex) with
        | none =>
          simp only [hct] at h
          exact ih _ _ _ h hrest hbest
        | some ce =>
          simp only [hct] at h
          by_cases h0 : ce.time < 0
          · rw [if_pos h0] at h
            exact ih _ _ _ h hrest hbest
          · rw [if_neg h0] at h
            by_cases h1 : ce.time < lt
            · rw [if_pos h1] at h
              exact Except.noConfusion h
            · rw [if_neg h1] at h
              split at h
              · split at h
                · refine ih _ _ _ h hrest ?_
                  intro e he
                  rw [List.mem_singleton] at he
                  rw [he]
                  exact hprop
                · split at h
                  · refine ih _ _ _ h hrest ?_
                    intro e he
                    rw [List.mem_singleton] at he
                    rw [he]
                    exact hprop
                  · split at h
                    · refine ih _ _ _ h hrest ?_
                      intro e he
                      rcases List.mem_append.mp he with he' | he'
                      · exact hbest e he'
                      · rw [List.mem_singleton] at he'
                        rw [he']
                        exact hprop
                    · exact ih _ _ _ h hrest hbest
              · exact ih _ _ _ h hrest hbest

theorem crashToutSide_vertices (g : Graph) (sk : Skeleton) (motor : MotorcycleSegment)
    (cs : Segment) (cp : Vec2) (cps : Nat) (ct : ℚ) (res : Graph × Skeleton)
    (h : crashToutSide g sk motor cs cp cps ct = Except.ok res) :
    ∃ ext, res.1.vertices = g.vertices ++ ext := by
  simp only [crashToutSide] at h
  obtain ⟨io, hio, h⟩ := except_bind_ok h
  split at h
  · exact Except.noConfusion h
  · split at h
    · split at h
      · exact Except.noConfusion h
      · obtain ⟨u, hu, h⟩ := except_bind_ok h
        obtain ⟨p, hp, h⟩ := except_bind_ok h
        obtain ⟨sk2, h2, h⟩ := except_bind_ok h
        obtain ⟨sk3, h3, h⟩ := except_bind_ok h
        obtain ⟨sk4, h4, h⟩ := except_bind_ok h
        have hres := Except.ok.inj h
        rw [← hres]
        exact ⟨[], (List.append_nil _).symm⟩
    · obtain ⟨vel, hv, h⟩ := except_bind_ok h
      have hres := Except.ok.inj h
      rw [← hres]
      exact ⟨_, rfl⟩

theorem crashTinSide_vertices (g : Graph) (sk : Skeleton) (motor : MotorcycleSegment)
    (cs : Segment) (cp : Vec2) (cps : Nat) (ct : ℚ) (res : Graph × Skeleton)
    (h : crashTinSide g sk motor cs cp cps ct = Except.ok res) :
    ∃ ext, res.1.vertices = g.vertices ++ ext := by
  simp only [crashTinSide] at h
  obtain ⟨io, hio, h⟩ := except_bind_ok h
  split at h
  · exact Except.noConfusion h
  · split at h
    · split at h
      · exact Except.noConfusion h
      · obtain ⟨u, hu, h⟩ := except_bind_ok h
        obtain ⟨p, hp, h⟩ := except_bind_ok h
        obtain ⟨sk2, h2, h⟩ := except_bind_ok h
        obtain ⟨sk3, h3, h⟩ := except_bind_ok h
        obtain ⟨sk4, h4, h⟩ := except_bind_ok h
        have hres := Except.ok.inj h
        rw [← hres]
        exact ⟨[], (List.append_nil _).symm⟩
    · obtain ⟨vel, hv, h⟩ := except_bind_ok h
      have hres := Except.ok.inj h
      rw [← hres]
      exact ⟨_, rfl⟩

theorem processCrash_frozen (g : Graph) (sk : Skeleton) (ce : CrashEvent) (mi : Nat)
    (res : Graph × Skeleton × ℚ)
    (h : processCrash g sk ce mi = Except.ok res)
    (hnf : equivV2 (g.vertices.getD ((g.motorcycleSegments.getD mi dummyMotor).head)
      dummyVertex).velocity Vec2.zero eps = false) :
    frozenPreserved g res.1 := by
  simp only [processCrash] at h
  split at h
  · exact Except.noConfusion h
  · obtain ⟨u, hu, h⟩ := except_bind_ok h
    obtain ⟨p, hp, h⟩ := except_bind_ok h
    obtain ⟨q1, h1, h⟩ := except_bind_ok h
    obtain ⟨q2, h2, h⟩ := except_bind_ok h
    split at h
    · exact Except.noConfusion h
    · obtain ⟨u2, hu2, h⟩ := except_bind_ok h
      obtain ⟨sk4, h4, h⟩ := except_bind_ok h
      obtain ⟨fv, hfv, h⟩ := except_bind_ok h
      have hres := Except.ok.inj h
      obtain ⟨e1, he1⟩ := crashToutSide_vertices _ _ _ _ _ _ _ _ h1
      obtain ⟨e2, he2⟩ := crashTinSide_vertices _ _ _ _ _ _ _ _ h2
      have hvres : res.1.vertices =
          q2.1.vertices.set (g.motorcycleSegments.getD mi dummyMotor).head fv := by
        rw [← hres]
      have hv2 : q2.1.vertices = (g.vertices ++ e1) ++ e2 := by
        rw [he2, he1]
      constructor
      · rw [hvres, List.length_set, hv2, List.length_append, List.length_append]
        omega
      · intro i hi hfz
        have hine : i ≠ (g.motorcycleSegments.getD mi dummyMotor).head := by
          intro hcon
          have := isFrozen_equiv _ hfz
          rw [hcon] at this
          rw [this] at hnf
          exact Bool.noConfusion hnf
        rw [hvres, getD_set_ne _ _ _ _ _ hine, hv2,
          List.getD_append _ _ _ _ (by rw [List.length_append]; omega),
          List.getD_append _ _ _ _ hi]

theorem skeletonStep_frozen (g : Graph) (sk : Skeleton) (lt : ℚ) (mt : Option ℚ)
    (r : StepResult) (h : skeletonStep g sk lt mt = Except.ok r) :
    frozenPreserved g r.graph := by
  simp only [skeletonStep] at h
  obtain ⟨p, hp, h⟩ := except_bind_ok h
  obtain ⟨q, hq, h⟩ := except_bind_ok h
  split at h
  · split at h
    · have hres := Except.ok.inj h
      rw [← hres]
      exact frozenPreserved_refl g
    · split at h
      all_goals try exact Except.noConfusion h
      rename_i single heq
      obtain ⟨w, hw, h⟩ := except_bind_ok h
      have hres := Except.ok.inj h
      rw [← hres]
      have hq2 : crashScan g lt p.2 g.motorcycleSegments.enum [] none = Except.ok q := hq
      have hms : ∀ x ∈ g.motorcycleSegments.enum,
          g.motorcycleSegments.getD x.1 dummyMotor = x.2 := by
        intro x hx
        obtain ⟨i, m⟩ := x
        have hg := List.mk_mem_enum_iff_getElem?.mp hx
        have hlt : i < g.motorcycleSegments.length := by
          by_contra hge
          rw [List.getElem?_eq_none (not_lt.mp hge)] at hg
          exact Option.noConfusion hg
        rw [List.getElem?_eq_getElem hlt] at hg
        rw [List.getD_eq_getElem _ _ hlt]
        exact Option.some.inj hg
      have hall := crashScan_not_frozen g lt p.2 g.motorcycleSegments.enum [] none q hq2
        hms (fun e he => absurd he (List.not_mem_nil e))
      have hmem : single ∈ q.1 :=
        List.mem_of_mem_filter (heq.symm ▸ List.mem_singleton_self single)
      exact processCrash_frozen g sk single.1 single.2 w hw (hall single hmem)
  · split at h
    all_goals try (have hres := Except.ok.inj h; rw [← hres]; exact frozenPreserved_refl g)
    split at h
    · have hres := Except.ok.inj h
      rw [← hres]
      exact frozenPreserved_refl g
    · obtain ⟨w, hw, h⟩ := except_bind_ok h
      have hres := Except.ok.inj h
      rw [← hres]
      exact processCollapse_frozen g sk _ _ w hw

theorem skeletonLoop_frozen (fuel : Nat) : ∀ (g : Graph) (sk : Skeleton) (lt : ℚ)
    (mt : Option ℚ) (res : Graph × Skeleton × ℚ),
    skeletonLoop fuel g sk lt mt = Except.ok res → frozenPreserved g res.1 := by
  induction fuel with
  | zero =>
    intro g sk lt mt res h
    exact Except.noConfusion h
  | succ n ih =>
    intro g sk lt mt res h
    simp only [skeletonLoop] at h
    obtain ⟨r, hr, h⟩ := except_bind_ok h
    have hstep := skeletonStep_frozen _ _ _ _ _ hr
    cases r with
    | finished g2 s2 t2 =>
      have hres := Except.ok.inj h
      rw [← hres]
      exact hstep
    | next g2 s2 t2 =>
      exact frozenPreserved_trans hstep (ih _ _ _ _ _ h)

/-- C7 (amended): `FreezeInPlace` asserts a non-zero freeze time; on success it
advances the position to `PositionAtTime`, sets the initial time to the freeze
time, overwrites the skeleton-vertex id with the invalid marker `~0u` (it does
not retain the previous id), and sets the velocity to exactly zero, so
`IsFrozen` holds afterwards.  Once frozen, a vertex is never mutated again: a
frozen vertex generates no further collapse candidates, the crash scan skips
motorcycles whose head is frozen, and every event-loop iteration — and hence
the whole event loop — leaves every frozen vertex's position, skeleton-vertex
id, initial time and velocity entirely unchanged. -/
theorem frozen_vertex_invariant :
    (∀ (v : Vertex) (t : ℚ) (fv : Vertex), freezeInPlace v t = Except.ok fv →
      fv.velocity = Vec2.zero ∧ isFrozen fv = true ∧ fv.skeletonVertexId = UINT32MAX ∧
      fv.initialTime = t ∧ fv.position = positionAtTime v t) ∧
    (∀ v : Vertex, freezeInPlace v 0 = Except.error SSError.freezeTimeZero) ∧
    (∀ v0 v1 : Vertex, isFrozen v0 = true →
      calculateCollapseTime v0 v1 = none ∧ calculateCollapseTime v1 v0 = none) ∧
    (∀ (g : Graph) (lt : ℚ) (bct : Option ℚ) (i : Nat) (m : MotorcycleSegment)
      (rest : List (Nat × MotorcycleSegment)) (best : List (CrashEvent × Nat)) (bt : Option ℚ),
      isFrozen (g.vertices.getD m.head dummyVertex) = true →
      crashScan g lt bct ((i, m) :: rest) best bt = crashScan g lt bct rest best bt) ∧
    (∀ (g : Graph) (sk : Skeleton) (lt : ℚ) (mt : Option ℚ) (r : StepResult),
      skeletonStep g sk lt mt = Except.ok r → frozenPreserved g r.graph) ∧
    (∀ (fuel : Nat) (g : Graph) (sk : Skeleton) (lt : ℚ) (mt : Option ℚ)
      (res : Graph × Skeleton × ℚ),
      skeletonLoop fuel g sk lt mt = Except.ok res → frozenPreserved g res.1) := by
  refine ⟨freezeInPlace_ok, ?_, calculateCollapseTime_frozen, crashScan_skips_frozen,
    skeletonStep_frozen, fun fuel => skeletonLoop_frozen fuel⟩
  intro v
  simp only [freezeInPlace]
  rw [if_pos trivial]
  rfl

/-- C7 witness: the amended invariant applied at a concrete vertex and at the
concrete unit-square event-loop run. -/
theorem frozen_vertex_invariant_witness :
    isFrozen (⟨⟨1, 1⟩, UINT32MAX, 1, ⟨0, 0⟩⟩ : Vertex) = true ∧
    freezeInPlace (⟨⟨0, 0⟩, 5, 0, ⟨1, 1⟩⟩ : Vertex) 0 = Except.error SSError.freezeTimeZero ∧
    calculateCollapseTime ⟨⟨1, 1⟩, UINT32MAX, 1, ⟨0, 0⟩⟩ ⟨⟨0, 0⟩, 5, 0, ⟨1, 1⟩⟩ = none ∧
    (skeletonLoop 10 sqGraph sqSkel0 0 none).map
      (fun res => decide (frozenPreserved sqGraph res.1)) = Except.ok true := by
  have h1 := frozen_vertex_invariant.1 ⟨⟨0, 0⟩, 5, 0, ⟨1, 1⟩⟩ 1 ⟨⟨1, 1⟩, UINT32MAX, 1, ⟨0, 0⟩⟩
    (by with_unfolding_all rfl)
  have h2 := frozen_vertex_invariant.2.1 ⟨⟨0, 0⟩, 5, 0, ⟨1, 1⟩⟩
  have h3 := (frozen_vertex_invariant.2.2.1 ⟨⟨1, 1⟩, UINT32MAX, 1, ⟨0, 0⟩⟩
    ⟨⟨0, 0⟩, 5, 0, ⟨1, 1⟩⟩ (by with_unfolding_all decide)).1
  refine ⟨h1.2.1, h2, h3, ?_⟩
  have hsome : (skeletonLoop 10 sqGraph sqSkel0 0 none).toOption.isSome = true := by
    with_unfolding_all decide
  cases hg : skeletonLoop 10 sqGraph sqSkel0 0 none with
  | error e =>
    rw [hg] at hsome
    exact absurd hsome (by simp [Except.toOption])
  | ok res =>
    have hprop := frozen_vertex_invariant.2.2.2.2.2 10 sqGraph sqSkel0 0 none res hg
    simp only [Except.map]
    rw [decide_eq_true hprop]
